import Mathlib

/-!
Verification of the fidget evaluation pipeline model.

This file embeds, in Lean 4, the parts of the fidget repository that the
checked claims are about:

* the `Context` opcode data model (`src/fidget/src/context/op.rs`),
* the 2D tile renderer's tile enumeration, validation asserts and final
  splat loop (`src/fidget/src/render/render2d.rs`),
* the single-pass register allocator (`src/fidget/src/core/vm/alloc.rs`)
  together with the VM opcode type (`src/fidget/src/core/vm/op.rs`) and the
  output tape (`src/fidget/src/core/vm/tape.rs`).

Parts of the repository referenced by that code but not present under `src/`
(the LRU helper `vm/lru.rs`, the SSA opcode type `ssa.rs`, the evaluator
`vm/eval.rs`, and the render configuration `render/config.rs`) are modelled
from the specification; each such definition carries a doc comment saying so.

Machine integers (`u8`, `u32`) are modelled as `Nat`; the `u32::MAX`
sentinel used by the allocator is the literal `4294967295`.
-/

/-! ## Context opcode data model (from `src/fidget/src/context/op.rs`) -/

namespace Ctx

/-- A one-argument math operation, as declared in `context/op.rs`. -/
inductive UnaryOpcode where
  | Neg
  | Abs
  | Recip
  | Sqrt
  | Square
  deriving DecidableEq, Fintype, Repr

/-- A two-argument math operation, as declared in `context/op.rs`. -/
inductive BinaryOpcode where
  | Add
  | Mul
  | Sub
  | Min
  | Max
  deriving DecidableEq, Fintype, Repr

/-- Node handles are dense integer indices into a `Context`. -/
abbrev Node := Nat

/-- Named-variable handles. -/
abbrev VarNode := Nat

/-- An operation in a math expression, as declared in `context/op.rs`
(`OrderedFloat<f64>` constants are carried as `Float`). -/
inductive Op where
  | Var (v : VarNode)
  | Const (f : Float)
  | Binary (k : BinaryOpcode) (a b : Node)
  | Unary (k : UnaryOpcode) (a : Node)

end Ctx

/-! ## 2D renderer (from `src/fidget/src/render/render2d.rs`)

The renderer is modelled generically over the pixel type `P` and over the
per-pixel function `pf : Nat → Nat → P` giving the pixel computed for a
tile-space coordinate.  The worker recursion's evaluators (`vm/eval.rs`,
`render/config.rs`) are not in `src/`, so per the spec each tile's pixel
block is a pure function of the tile; the block layout is modelled from the
spec's `tile_to_offset`: block index `j * T₀ + i` holds the pixel for
tile-space coordinate `(corner.x + i, corner.y + j)`. -/

/-- Render configuration (recognized fields of `RenderConfig`; `mat` is
absorbed into the abstract per-pixel function). -/
structure RenderConfig where
  image_size : Nat
  tile_sizes : List Nat
  threads : Nat

/-- Rounds `s` up to a multiple of `t` (`t * ⌈s / t⌉`). -/
def alignUp (s t : Nat) : Nat := t * ((s + t - 1) / t)

/-- Modelled from the spec: the aligned render configuration produced by
`RenderConfig::align` (`render/config.rs` is not in `src/`): `image_size`
is aligned up to a multiple of `tile_sizes[0]` and the original size is
remembered as `orig_image_size`. -/
structure AlignedRenderConfig where
  image_size : Nat
  orig_image_size : Nat
  tile_sizes : List Nat
  threads : Nat

/-- Modelled from the spec: `RenderConfig::align`. -/
def RenderConfig.align (c : RenderConfig) : AlignedRenderConfig :=
  { image_size := alignUp c.image_size (c.tile_sizes.headD 0)
    orig_image_size := c.image_size
    tile_sizes := c.tile_sizes
    threads := c.threads }

/-- The top-level tile size `tile_sizes[0]`. -/
def AlignedRenderConfig.t0 (c : AlignedRenderConfig) : Nat := c.tile_sizes.headD 0

/-- The assertions at the top of `render` (render2d.rs lines 361-364):
the aligned image size is a multiple of `tile_sizes[0]`, and each tile size
divides the previous one.  These are the only up-front validation checks.
Reaching them requires the indexing and the `%` to be defined: with empty
`tile_sizes` the `tile_sizes[0]` indexing panics, and a zero tile size
makes the `%` a remainder by zero, which panics in Rust — both fatal
before any tile is rendered, so they are folded into the check as
failures. -/
def AlignedRenderConfig.assertsOk (c : AlignedRenderConfig) : Bool :=
  !c.tile_sizes.isEmpty &&
  (c.t0 != 0) &&
  (c.image_size % c.t0 == 0) &&
  (List.range (c.tile_sizes.length - 1)).all fun i =>
    (c.tile_sizes.getD (i + 1) 0 != 0) &&
    (c.tile_sizes.getD i 0 % c.tile_sizes.getD (i + 1) 0 == 0)

/-- Strictly decreasing tile sizes, the ordering constraint stated by the
spec for `tile_sizes` (spec section 4.5). -/
def StrictlyDecreasing : List Nat → Prop
  | [] => True
  | [_] => True
  | a :: b :: rest => b < a ∧ StrictlyDecreasing (b :: rest)

instance : DecidablePred StrictlyDecreasing := fun l => by
  induction l with
  | nil => exact .isTrue trivial
  | cons a t ih =>
    cases t with
    | nil => exact .isTrue trivial
    | cons b rest =>
      unfold StrictlyDecreasing
      exact @instDecidableAnd _ _ (Nat.decLt b a) ih

/-- The top-level tiles enumerated by `render`: corners `(i*T₀, j*T₀)` for
`i, j` ranging over `image_size / T₀` (render2d.rs lines 367-375). -/
def AlignedRenderConfig.topTiles (c : AlignedRenderConfig) : List (Nat × Nat) :=
  (List.range (c.image_size / c.t0)).flatMap fun i =>
    (List.range (c.image_size / c.t0)).map fun j => (i * c.t0, j * c.t0)

/-- Modelled from the spec: the pixel block computed by a worker for one
top-level tile, as a function from block index to pixel.  Block index
`j * T₀ + i` holds the pixel for tile-space coordinate
`(corner.1 + i, corner.2 + j)` (the worker writes via `tile_to_offset`,
whose definition lives in the missing `render/config.rs`). -/
def tileData {P : Type} (pf : Nat → Nat → P) (t0 : Nat) (corner : Nat × Nat) :
    Nat → P :=
  fun idx => pf (corner.1 + idx % t0) (corner.2 + idx / t0)

/-- One write of the final splat loop (render2d.rs lines 393-405): for local
coordinates `(i, j)` inside the tile, if the global coordinate is inside the
original image, store block entry `j * T₀ + i` at output index
`(orig - y - 1) * orig + x`; otherwise leave the image unchanged.
The image is modelled as a function from output index to pixel. -/
def splatWrite {P : Type} (c : AlignedRenderConfig) (corner : Nat × Nat)
    (data : Nat → P) (img : Nat → P) (j i : Nat) : Nat → P :=
  let y := j + corner.2
  let x := i + corner.1
  if y < c.orig_image_size ∧ x < c.orig_image_size then
    fun o =>
      if o = (c.orig_image_size - y - 1) * c.orig_image_size + x then
        data (j * c.t0 + i)
      else img o
  else img

/-- The full splat of one tile's block into the image: the two nested loops
over `j` and `i` in `render`. -/
def splatTile {P : Type} (c : AlignedRenderConfig) (img : Nat → P)
    (pair : (Nat × Nat) × (Nat → P)) : Nat → P :=
  (List.range c.t0).foldl
    (fun im j =>
      (List.range c.t0).foldl (fun im2 i => splatWrite c pair.1 pair.2 im2 j i) im)
    img

/-- Splatting a list of `(tile, block)` pairs into a default-initialized
image, as `render` does after joining the workers. -/
def splatAll {P : Type} [Inhabited P] (c : AlignedRenderConfig)
    (pairs : List ((Nat × Nat) × (Nat → P))) : Nat → P :=
  pairs.foldl (splatTile c) (fun _ => default)

/-- The canonical `(tile, block)` pairs, one per top-level tile. -/
def renderPairs {P : Type} (c : AlignedRenderConfig) (pf : Nat → Nat → P) :
    List ((Nat × Nat) × (Nat → P)) :=
  c.topTiles.map fun t => (t, tileData pf c.t0 t)

/-- The renderer `render`: validate the aligned config (the asserts; a
failed assert is a fatal error, modelled as `none`), then splat every
tile's block into a `orig_image_size ^ 2`-pixel row-major image. -/
def render {P : Type} [Inhabited P] (config : RenderConfig)
    (pf : Nat → Nat → P) : Option (List P) :=
  let c := config.align
  if c.assertsOk then
    some ((List.range (c.orig_image_size ^ 2)).map (splatAll c (renderPairs c pf)))
  else none

/-- Models the tile queue: tile number `n` is processed by worker
`assign n % w`; each worker's tiles keep queue order, and worker results are
concatenated in join order (render2d.rs lines 378-389). -/
def distribute {α : Type} (w : Nat) (assign : Nat → Nat) (tiles : List α) :
    List α :=
  (List.range w).flatMap fun k =>
    (tiles.enum.filter fun p => assign p.1 % w = k).map Prod.snd

/-- Rendering with an explicit worker schedule: the splat consumes the
pairs in the order the workers' result lists are concatenated. -/
def renderScheduled {P : Type} [Inhabited P] (config : RenderConfig)
    (pf : Nat → Nat → P) (w : Nat) (assign : Nat → Nat) : Option (List P) :=
  let c := config.align
  if c.assertsOk then
    some ((List.range (c.orig_image_size ^ 2)).map
      (splatAll c (distribute w assign (renderPairs c pf))))
  else none

/-- All write events of the splat: for each tile and each in-bounds local
position, the output index written. -/
def splatWrites (c : AlignedRenderConfig) : List Nat :=
  c.topTiles.flatMap fun t =>
    (List.range c.t0).flatMap fun j =>
      (List.range c.t0).filterMap fun i =>
        let y := j + t.2
        let x := i + t.1
        if y < c.orig_image_size ∧ x < c.orig_image_size then
          some ((c.orig_image_size - y - 1) * c.orig_image_size + x)
        else none

/-! ## VM opcodes and tape (from `src/fidget/src/core/vm/op.rs`,
`src/fidget/src/core/vm/tape.rs`) -/

/-- The `u32::MAX` sentinel used by the allocator for unassigned slots. -/
def UMAX : Nat := 4294967295

/-- Pointwise update of a `Nat`-indexed map (models one array store). -/
def upd {V : Type} (f : Nat → V) (k : Nat) (v : V) : Nat → V :=
  fun i => if i = k then v else f i

namespace Vm

/-- Operation that can be passed directly to the assembler (`vm/op.rs`).
Arguments, in order, are output register, LHS register (or input slot for
`Input`), RHS register (or immediate for `*Imm`); `Load`/`Store` carry a
register and a memory slot. -/
inductive Op where
  | Input (out i : Nat)
  | Var (out i : Nat)
  | NegReg (out arg : Nat)
  | AbsReg (out arg : Nat)
  | RecipReg (out arg : Nat)
  | SqrtReg (out arg : Nat)
  | SquareReg (out arg : Nat)
  | ExpReg (out arg : Nat)
  | CopyReg (out arg : Nat)
  | AddRegImm (out arg : Nat) (imm : Float)
  | MulRegImm (out arg : Nat) (imm : Float)
  | DivRegImm (out arg : Nat) (imm : Float)
  | DivImmReg (out arg : Nat) (imm : Float)
  | SubImmReg (out arg : Nat) (imm : Float)
  | SubRegImm (out arg : Nat) (imm : Float)
  | MinRegImm (out arg : Nat) (imm : Float)
  | MaxRegImm (out arg : Nat) (imm : Float)
  | AddRegReg (out lhs rhs : Nat)
  | MulRegReg (out lhs rhs : Nat)
  | DivRegReg (out lhs rhs : Nat)
  | SubRegReg (out lhs rhs : Nat)
  | SineReg (out arg : Nat)
  | CosineReg (out arg : Nat)
  | MinRegReg (out lhs rhs : Nat)
  | MaxRegReg (out lhs rhs : Nat)
  | CopyImm (out : Nat) (imm : Float)
  | Load (reg mem : Nat)
  | Store (reg mem : Nat)

/-- Low-level tape (`vm/tape.rs`): the instruction list (in emission order,
which is the reverse of evaluation order), the total allocated slot count,
and the register limit. -/
structure Tape where
  tape : List Op := []
  slot_count : Nat := 0
  reg_limit : Nat := 0

/-- Constructs a new tape with the given register limit (`Tape::new`);
`slot_count` starts at 1 because SSA slot 0 is pre-bound. -/
def Tape.new (reg_limit : Nat) : Tape :=
  { tape := [], slot_count := 1, reg_limit := reg_limit }

/-- Appends an instruction (`Tape::push`). -/
def Tape.push (t : Tape) (op : Op) : Tape :=
  { t with tape := t.tape ++ [op] }

end Vm

/-! ## SSA opcodes (referenced as `ssa::Op` by `alloc.rs`)

The file `ssa.rs` is not in `src/`; the constructors and their payload
shapes below are transcribed from the exhaustive match in
`RegisterAllocator::op` and its helpers (`alloc.rs` lines 264-311,
524-531, 614-623): `out`/`arg`/`lhs`/`rhs` are `u32` SSA indices, `i` is
the input or variable slot, and immediates are `f32`. -/

namespace Ssa

/-- SSA-form opcode: instruction outputs and operands are global SSA
indices. -/
inductive Op where
  | Var (out i : Nat)
  | Input (out i : Nat)
  | CopyImm (out : Nat) (imm : Float)
  | NegReg (out arg : Nat)
  | AbsReg (out arg : Nat)
  | RecipReg (out arg : Nat)
  | SqrtReg (out arg : Nat)
  | SquareReg (out arg : Nat)
  | ExpReg (out arg : Nat)
  | CopyReg (out arg : Nat)
  | SineReg (out arg : Nat)
  | CosineReg (out arg : Nat)
  | AddRegImm (out arg : Nat) (imm : Float)
  | SubRegImm (out arg : Nat) (imm : Float)
  | SubImmReg (out arg : Nat) (imm : Float)
  | MulRegImm (out arg : Nat) (imm : Float)
  | DivRegImm (out arg : Nat) (imm : Float)
  | DivImmReg (out arg : Nat) (imm : Float)
  | MinRegImm (out arg : Nat) (imm : Float)
  | MaxRegImm (out arg : Nat) (imm : Float)
  | AddRegReg (out lhs rhs : Nat)
  | SubRegReg (out lhs rhs : Nat)
  | MulRegReg (out lhs rhs : Nat)
  | DivRegReg (out lhs rhs : Nat)
  | MinRegReg (out lhs rhs : Nat)
  | MaxRegReg (out lhs rhs : Nat)

instance : Inhabited Op := ⟨Op.Var 0 0⟩

/-- The SSA index written by an instruction. -/
def Op.outIdx : Op → Nat
  | .Var out _ | .Input out _ | .CopyImm out _ => out
  | .NegReg out _ | .AbsReg out _ | .RecipReg out _ | .SqrtReg out _
  | .SquareReg out _ | .ExpReg out _ | .CopyReg out _ | .SineReg out _
  | .CosineReg out _ => out
  | .AddRegImm out _ _ | .SubRegImm out _ _ | .SubImmReg out _ _
  | .MulRegImm out _ _ | .DivRegImm out _ _ | .DivImmReg out _ _
  | .MinRegImm out _ _ | .MaxRegImm out _ _ => out
  | .AddRegReg out _ _ | .SubRegReg out _ _ | .MulRegReg out _ _
  | .DivRegReg out _ _ | .MinRegReg out _ _ | .MaxRegReg out _ _ => out

/-- The SSA indices read by an instruction. -/
def Op.operands : Op → List Nat
  | .Var _ _ | .Input _ _ | .CopyImm _ _ => []
  | .NegReg _ a | .AbsReg _ a | .RecipReg _ a | .SqrtReg _ a
  | .SquareReg _ a | .ExpReg _ a | .CopyReg _ a | .SineReg _ a
  | .CosineReg _ a => [a]
  | .AddRegImm _ a _ | .SubRegImm _ a _ | .SubImmReg _ a _
  | .MulRegImm _ a _ | .DivRegImm _ a _ | .DivImmReg _ a _
  | .MinRegImm _ a _ | .MaxRegImm _ a _ => [a]
  | .AddRegReg _ a b | .SubRegReg _ a b | .MulRegReg _ a b
  | .DivRegReg _ a b | .MinRegReg _ a b | .MaxRegReg _ a b => [a, b]

/-- The input slot of an `Input` instruction, if any (it must fit in a
`u8`, see the `try_into().unwrap()` in `RegisterAllocator::op`). -/
def Op.inputSlot? : Op → Option Nat
  | .Input _ i => some i
  | _ => none

end Ssa

/-! ## Register allocator (from `src/fidget/src/core/vm/alloc.rs`)

State-mutating Rust methods become functions returning a new state; a
method that can `assert!`/`panic!` returns `Option` and yields `none`
exactly when the Rust code would abort.  The `Vec`-backed maps
`allocations` and `registers` are modelled as total functions
`Nat → Nat` (entries not yet written hold the `u32::MAX` fill value). -/

/-- Modelled from the spec: the least-recently-used queue over the `R`
registers (`vm/lru.rs` is not in `src/`).  The list holds the registers,
most recently used first. -/
structure Lru where
  order : List Nat

/-- Modelled from the spec: a fresh LRU queue over registers `0..n`. -/
def Lru.new (n : Nat) : Lru := ⟨List.range n⟩

/-- Modelled from the spec: mark register `r` as most recently used. -/
def Lru.poke (l : Lru) (r : Nat) : Lru := ⟨r :: l.order.erase r⟩

/-- Modelled from the spec: pop the least recently used register and mark
it as most recently used. -/
def Lru.pop (l : Lru) : Nat × Lru :=
  let r := l.order.getLastD 0
  (r, l.poke r)

/-- A binding of an SSA index (`enum Allocation` in `alloc.rs`). -/
inductive Allocation where
  | Register (r : Nat)
  | Memory (m : Nat)
  | Unassigned

/-- Cheap and cheerful single-pass register allocation (`alloc.rs`).
`allocations` maps SSA indices to slots, `registers` maps registers back
to SSA indices (`u32::MAX` when unused), `out` is the output tape being
assembled in reverse order. -/
structure RegisterAllocator where
  allocations : Nat → Nat
  registers : Nat → Nat
  register_lru : Lru
  reg_limit : Nat
  spare_registers : List Nat
  spare_memory : List Nat
  out : Vm.Tape

namespace RegisterAllocator

/-- Binds SSA index `n` to register `reg` (`bind_register`); the asserts
require `n` not currently in a register and `reg` unoccupied. -/
def bind_register (s : RegisterAllocator) (n reg : Nat) :
    Option RegisterAllocator :=
  if s.reg_limit ≤ s.allocations n ∧ s.registers reg = UMAX then
    some { s with
      registers := upd s.registers reg n
      allocations := upd s.allocations n reg
      register_lru := s.register_lru.poke reg }
  else none

/-- Rebinds register `reg` (currently bound to some SSA index) to the SSA
index `n` (`rebind_register`); the previous occupant becomes unassigned. -/
def rebind_register (s : RegisterAllocator) (n reg : Nat) :
    Option RegisterAllocator :=
  if s.reg_limit ≤ s.allocations n ∧ s.registers reg ≠ UMAX then
    let prev_node := s.registers reg
    some { s with
      registers := upd s.registers reg n
      allocations := upd (upd s.allocations prev_node UMAX) n reg
      register_lru := s.register_lru.poke reg }
  else none

/-- The base state built by `RegisterAllocator::new` before SSA index 0 is
bound to register 0; `size` is the SSA tape length (the extent of the
`allocations` vector, absorbed by the total-function model). -/
def mkBase (reg_limit : Nat) (size : Nat) : RegisterAllocator :=
  { allocations := fun _ => UMAX
    registers := fun _ => UMAX
    register_lru := Lru.new reg_limit
    reg_limit := reg_limit
    spare_registers := []
    spare_memory := []
    out := Vm.Tape.new reg_limit }

/-- Builds a new `RegisterAllocator`; SSA register 0 is bound to local
register 0 (`RegisterAllocator::new`). -/
def new (reg_limit : Nat) (size : Nat) : Option RegisterAllocator :=
  (mkBase reg_limit size).bind_register 0 0

/-- Returns an available memory slot (`get_memory`): pop a spare slot, or
extend `slot_count` (the assert requires the fresh slot to lie at or above
the register limit). -/
def get_memory (s : RegisterAllocator) : Option (Nat × RegisterAllocator) :=
  match s.spare_memory with
  | p :: rest => some (p, { s with spare_memory := rest })
  | [] =>
    let o := s.out.slot_count
    if s.out.reg_limit ≤ o then
      some (o, { s with out := { s.out with slot_count := o + 1 } })
    else none

/-- Finds the oldest register (`oldest_reg`). -/
def oldest_reg (s : RegisterAllocator) : Nat × RegisterAllocator :=
  let p := s.register_lru.pop
  (p.1, { s with register_lru := p.2 })

/-- Returns the slot allocated to SSA index `n`, poking the LRU when it is
a register (`get_allocation`). -/
def get_allocation (s : RegisterAllocator) (n : Nat) :
    Allocation × RegisterAllocator :=
  let i := s.allocations n
  if i < s.reg_limit then
    (Allocation.Register i, { s with register_lru := s.register_lru.poke i })
  else if i = UMAX then (Allocation.Unassigned, s)
  else (Allocation.Memory i, s)

/-- Returns an unoccupied register if available (`get_spare_register`):
pop the spare list, or hand out the next unhanded register while
`slot_count` is below the register limit (the assert requires it unused;
the `try_into().unwrap()` requires it to fit in a `u8`). -/
def get_spare_register (s : RegisterAllocator) :
    Option (Option Nat × RegisterAllocator) :=
  match s.spare_registers with
  | r :: rest => some (some r, { s with spare_registers := rest })
  | [] =>
    if s.out.slot_count < s.reg_limit then
      let reg := s.out.slot_count
      if s.registers reg = UMAX ∧ reg < 256 then
        some (some reg, { s with out := { s.out with slot_count := reg + 1 } })
      else none
    else some (none, s)

/-- Returns a register, evicting the least recently used one to a fresh
memory slot (with a `Load`) when no spare register exists
(`get_register`). -/
def get_register (s : RegisterAllocator) : Option (Nat × RegisterAllocator) :=
  match s.get_spare_register with
  | none => none
  | some (some reg, s1) =>
    if s1.registers reg = UMAX then
      some (reg, { s1 with register_lru := s1.register_lru.poke reg })
    else none
  | some (none, s1) =>
    let p := s1.oldest_reg
    let reg := p.1
    let s2 := p.2
    match s2.get_memory with
    | none => none
    | some (mem, s3) =>
      let prev_node := s3.registers reg
      some (reg, { s3 with
        allocations := upd s3.allocations prev_node mem
        registers := upd s3.registers reg UMAX
        out := s3.out.push (Vm.Op.Load reg mem) })

/-- Releases register `reg` back to the spare pool (`release_reg`). -/
def release_reg (s : RegisterAllocator) (reg : Nat) :
    Option RegisterAllocator :=
  if reg < s.reg_limit ∧ s.registers reg ≠ UMAX then
    let node := s.registers reg
    some { s with
      registers := upd s.registers reg UMAX
      spare_registers := reg :: s.spare_registers
      allocations := upd s.allocations node UMAX }
  else none

/-- Releases memory slot `mem` to the spare pool (`release_mem`). -/
def release_mem (s : RegisterAllocator) (mem : Nat) :
    Option RegisterAllocator :=
  if s.reg_limit ≤ mem then
    some { s with spare_memory := mem :: s.spare_memory }
  else none

/-- Pushes a `Store` and releases the stored-to memory slot
(`push_store`). -/
def push_store (s : RegisterAllocator) (reg mem : Nat) :
    Option RegisterAllocator :=
  release_mem { s with out := s.out.push (Vm.Op.Store reg mem) } mem

/-- Returns a register bound to SSA index `out`, evicting into `out`'s
memory slot if needed (`get_out_reg`); an unassigned output is the
`Cannot have unassigned output` panic. -/
def get_out_reg (s : RegisterAllocator) (out : Nat) :
    Option (Nat × RegisterAllocator) :=
  match s.get_allocation out with
  | (Allocation.Register r_x, s1) => some (r_x, s1)
  | (Allocation.Memory m_x, s1) =>
    match s1.get_register with
    | none => none
    | some (r_a, s2) =>
      match s2.push_store r_a m_x with
      | none => none
      | some s3 =>
        match s3.bind_register out r_a with
        | none => none
        | some s4 => some (r_a, s4)
  | (Allocation.Unassigned, _) => none

/-- Lowers an operation with one register input (`op_reg_fn`); the six
output/argument allocation situations follow the table in `alloc.rs`. -/
def op_reg_fn (s : RegisterAllocator) (out arg : Nat)
    (op : Nat → Nat → Vm.Op) : Option RegisterAllocator :=
  match s.get_out_reg out with
  | none => none
  | some (r_x, s1) =>
    match s1.get_allocation arg with
    | (Allocation.Register r_y, s2) =>
      if r_x ≠ r_y then
        ({ s2 with out := s2.out.push (op r_x r_y) }).release_reg r_x
      else none
    | (Allocation.Memory m_y, s2) =>
      match ({ s2 with out := s2.out.push (op r_x r_x) }).rebind_register arg r_x with
      | none => none
      | some s3 => s3.push_store r_x m_y
    | (Allocation.Unassigned, s2) =>
      ({ s2 with out := s2.out.push (op r_x r_x) }).rebind_register arg r_x

/-- Lowers a two-register-input operation, given its decoded fields; the 18
allocation configurations follow the table in `op_reg_reg`. -/
def op_reg_reg_go (s : RegisterAllocator) (out lhs rhs : Nat)
    (op : Nat → Nat → Nat → Vm.Op) : Option RegisterAllocator :=
  match s.get_out_reg out with
  | none => none
  | some (r_x, s0) =>
    let al := s0.get_allocation lhs
    let ar := al.2.get_allocation rhs
    let s1 := ar.2
    match al.1, ar.1 with
    | Allocation.Register r_y, Allocation.Register r_z =>
      ({ s1 with out := s1.out.push (op r_x r_y r_z) }).release_reg r_x
    | Allocation.Memory m_y, Allocation.Register r_z =>
      match ({ s1 with out := s1.out.push (op r_x r_x r_z) }).rebind_register lhs r_x with
      | none => none
      | some s2 => s2.push_store r_x m_y
    | Allocation.Register r_y, Allocation.Memory m_z =>
      match ({ s1 with out := s1.out.push (op r_x r_y r_x) }).rebind_register rhs r_x with
      | none => none
      | some s2 => s2.push_store r_x m_z
    | Allocation.Memory m_y, Allocation.Memory m_z =>
      match (if lhs = rhs then some (r_x, s1) else s1.get_register) with
      | none => none
      | some (r_a, s2) =>
        match ({ s2 with out := s2.out.push (op r_x r_x r_a) }).rebind_register lhs r_x with
        | none => none
        | some s3 =>
          match (if lhs ≠ rhs then s3.bind_register rhs r_a else some s3) with
          | none => none
          | some s4 =>
            match s4.push_store r_x m_y with
            | none => none
            | some s5 =>
              if lhs ≠ rhs then s5.push_store r_a m_z else some s5
    | Allocation.Unassigned, Allocation.Register r_z =>
      ({ s1 with out := s1.out.push (op r_x r_x r_z) }).rebind_register lhs r_x
    | Allocation.Register r_y, Allocation.Unassigned =>
      ({ s1 with out := s1.out.push (op r_x r_y r_x) }).rebind_register rhs r_x
    | Allocation.Unassigned, Allocation.Unassigned =>
      match (if lhs = rhs then some (r_x, s1) else s1.get_register) with
      | none => none
      | some (r_a, s2) =>
        match ({ s2 with out := s2.out.push (op r_x r_x r_a) }).rebind_register lhs r_x with
        | none => none
        | some s3 =>
          if lhs ≠ rhs then s3.bind_register rhs r_a else some s3
    | Allocation.Unassigned, Allocation.Memory m_z =>
      match s1.get_register with
      | none => none
      | some (r_a, s2) =>
        if r_a ≠ r_x then
          match ({ s2 with out := s2.out.push (op r_x r_x r_a) }).rebind_register lhs r_x with
          | none => none
          | some s3 =>
            match (if lhs ≠ rhs then s3.bind_register rhs r_a else some s3) with
            | none => none
            | some s4 => s4.push_store r_a m_z
        else none
    | Allocation.Memory m_y, Allocation.Unassigned =>
      match s1.get_register with
      | none => none
      | some (r_a, s2) =>
        if r_a ≠ r_x then
          match ({ s2 with out := s2.out.push (op r_x r_a r_x) }).bind_register lhs r_a with
          | none => none
          | some s3 =>
            match (if lhs ≠ rhs then s3.rebind_register rhs r_x else some s3) with
            | none => none
            | some s4 => s4.push_store r_a m_y
        else none

/-- Lowers a single-register operation (`op_reg`); an opcode outside the
nine register-unary forms is the `Bad opcode` panic. -/
def op_reg (s : RegisterAllocator) (op : Ssa.Op) : Option RegisterAllocator :=
  match op with
  | .NegReg out arg => s.op_reg_fn out arg Vm.Op.NegReg
  | .AbsReg out arg => s.op_reg_fn out arg Vm.Op.AbsReg
  | .RecipReg out arg => s.op_reg_fn out arg Vm.Op.RecipReg
  | .SqrtReg out arg => s.op_reg_fn out arg Vm.Op.SqrtReg
  | .SquareReg out arg => s.op_reg_fn out arg Vm.Op.SquareReg
  | .ExpReg out arg => s.op_reg_fn out arg Vm.Op.ExpReg
  | .CopyReg out arg => s.op_reg_fn out arg Vm.Op.CopyReg
  | .SineReg out arg => s.op_reg_fn out arg Vm.Op.SineReg
  | .CosineReg out arg => s.op_reg_fn out arg Vm.Op.CosineReg
  | _ => none

/-- Lowers a register-and-immediate operation (`op_reg_imm`). -/
def op_reg_imm (s : RegisterAllocator) (op : Ssa.Op) :
    Option RegisterAllocator :=
  match op with
  | .AddRegImm out arg imm => s.op_reg_fn out arg fun o a => Vm.Op.AddRegImm o a imm
  | .SubRegImm out arg imm => s.op_reg_fn out arg fun o a => Vm.Op.SubRegImm o a imm
  | .SubImmReg out arg imm => s.op_reg_fn out arg fun o a => Vm.Op.SubImmReg o a imm
  | .MulRegImm out arg imm => s.op_reg_fn out arg fun o a => Vm.Op.MulRegImm o a imm
  | .DivRegImm out arg imm => s.op_reg_fn out arg fun o a => Vm.Op.DivRegImm o a imm
  | .DivImmReg out arg imm => s.op_reg_fn out arg fun o a => Vm.Op.DivImmReg o a imm
  | .MinRegImm out arg imm => s.op_reg_fn out arg fun o a => Vm.Op.MinRegImm o a imm
  | .MaxRegImm out arg imm => s.op_reg_fn out arg fun o a => Vm.Op.MaxRegImm o a imm
  | _ => none

/-- Lowers a two-register operation (`op_reg_reg`). -/
def op_reg_reg (s : RegisterAllocator) (op : Ssa.Op) :
    Option RegisterAllocator :=
  match op with
  | .AddRegReg out lhs rhs => s.op_reg_reg_go out lhs rhs Vm.Op.AddRegReg
  | .SubRegReg out lhs rhs => s.op_reg_reg_go out lhs rhs Vm.Op.SubRegReg
  | .MulRegReg out lhs rhs => s.op_reg_reg_go out lhs rhs Vm.Op.MulRegReg
  | .DivRegReg out lhs rhs => s.op_reg_reg_go out lhs rhs Vm.Op.DivRegReg
  | .MinRegReg out lhs rhs => s.op_reg_reg_go out lhs rhs Vm.Op.MinRegReg
  | .MaxRegReg out lhs rhs => s.op_reg_reg_go out lhs rhs Vm.Op.MaxRegReg
  | _ => none

/-- Lowers an operation with no register inputs (`op_out_only`). -/
def op_out_only (s : RegisterAllocator) (out : Nat) (op : Nat → Vm.Op) :
    Option RegisterAllocator :=
  match s.get_out_reg out with
  | none => none
  | some (r_x, s1) =>
    ({ s1 with out := s1.out.push (op r_x) }).release_reg r_x

/-- Pushes a `CopyImm` operation (`op_copy_imm`). -/
def op_copy_imm (s : RegisterAllocator) (out : Nat) (imm : Float) :
    Option RegisterAllocator :=
  s.op_out_only out fun o => Vm.Op.CopyImm o imm

/-- Pushes an `Input` operation (`op_input`). -/
def op_input (s : RegisterAllocator) (out i : Nat) :
    Option RegisterAllocator :=
  s.op_out_only out fun o => Vm.Op.Input o i

/-- Pushes a `Var` operation (`op_var`). -/
def op_var (s : RegisterAllocator) (out i : Nat) :
    Option RegisterAllocator :=
  s.op_out_only out fun o => Vm.Op.Var o i

/-- Lowers one SSA operation (`RegisterAllocator::op`); the `Input` case
converts the slot to a `u8` (`try_into().unwrap()`). -/
def op (s : RegisterAllocator) (o : Ssa.Op) : Option RegisterAllocator :=
  match o with
  | .Var out i => s.op_var out i
  | .Input out i => if i < 256 then s.op_input out i else none
  | .CopyImm out imm => s.op_copy_imm out imm
  | .NegReg .. | .AbsReg .. | .RecipReg .. | .SqrtReg .. | .SquareReg ..
  | .ExpReg .. | .CopyReg .. | .SineReg .. | .CosineReg .. => s.op_reg o
  | .AddRegImm .. | .SubRegImm .. | .SubImmReg .. | .MulRegImm ..
  | .DivRegImm .. | .DivImmReg .. | .MinRegImm .. | .MaxRegImm .. =>
    s.op_reg_imm o
  | .AddRegReg .. | .SubRegReg .. | .MulRegReg .. | .DivRegReg ..
  | .MinRegReg .. | .MaxRegReg .. => s.op_reg_reg o

end RegisterAllocator

/-- Runs the allocator over the first `k` instructions of an SSA tape
(instructions are consumed root-first: the list head is the root,
SSA index 0). -/
def allocRun (R : Nat) (tape : List Ssa.Op) (k : Nat) :
    Option RegisterAllocator :=
  match RegisterAllocator.new R tape.length with
  | none => none
  | some s0 => (tape.take k).foldlM (fun s o => s.op o) s0

/-- Lowers a whole SSA tape at register limit `R`, returning the finished
VM tape (`finalize` hands out the accumulated `out`). -/
def allocTape (R : Nat) (tape : List Ssa.Op) : Option Vm.Tape :=
  match allocRun R tape tape.length with
  | none => none
  | some s => some s.out

/-! ## Evaluation semantics

Modelled from the spec: `vm/eval.rs` and the SSA evaluator are not in
`src/`.  Both tapes are evaluated leaves-first (the reverse of storage
order); machine state is one slot array indexed by `Nat`, registers below
the register limit and memory slots above it; `Load r m` copies slot `m`
into register `r` and `Store r m` copies register `r` into slot `m`.  The
arithmetic itself is kept abstract: a `Sem V` interprets every opcode over
an arbitrary value type `V`, so the theorems hold for the concrete `f32`
interpretation in particular. -/

/-- An interpretation of the opcode set over a value type `V`. -/
structure Sem (V : Type) where
  inputF : Nat → V
  varF : Nat → V
  immF : Float → V
  negF : V → V
  absF : V → V
  recipF : V → V
  sqrtF : V → V
  squareF : V → V
  expF : V → V
  sinF : V → V
  cosF : V → V
  copyF : V → V
  addF : V → V → V
  subF : V → V → V
  mulF : V → V → V
  divF : V → V → V
  minF : V → V → V
  maxF : V → V → V
  addRi : V → Float → V
  subRi : V → Float → V
  subIr : V → Float → V
  mulRi : V → Float → V
  divRi : V → Float → V
  divIr : V → Float → V
  minRi : V → Float → V
  maxRi : V → Float → V

/-- The value computed by one SSA instruction from an environment of SSA
values. -/
def Ssa.Op.rhsVal {V : Type} (sem : Sem V) (env : Nat → V) : Ssa.Op → V
  | .Var _ i => sem.varF i
  | .Input _ i => sem.inputF i
  | .CopyImm _ m => sem.immF m
  | .NegReg _ a => sem.negF (env a)
  | .AbsReg _ a => sem.absF (env a)
  | .RecipReg _ a => sem.recipF (env a)
  | .SqrtReg _ a => sem.sqrtF (env a)
  | .SquareReg _ a => sem.squareF (env a)
  | .ExpReg _ a => sem.expF (env a)
  | .CopyReg _ a => sem.copyF (env a)
  | .SineReg _ a => sem.sinF (env a)
  | .CosineReg _ a => sem.cosF (env a)
  | .AddRegImm _ a m => sem.addRi (env a) m
  | .SubRegImm _ a m => sem.subRi (env a) m
  | .SubImmReg _ a m => sem.subIr (env a) m
  | .MulRegImm _ a m => sem.mulRi (env a) m
  | .DivRegImm _ a m => sem.divRi (env a) m
  | .DivImmReg _ a m => sem.divIr (env a) m
  | .MinRegImm _ a m => sem.minRi (env a) m
  | .MaxRegImm _ a m => sem.maxRi (env a) m
  | .AddRegReg _ a b => sem.addF (env a) (env b)
  | .SubRegReg _ a b => sem.subF (env a) (env b)
  | .MulRegReg _ a b => sem.mulF (env a) (env b)
  | .DivRegReg _ a b => sem.divF (env a) (env b)
  | .MinRegReg _ a b => sem.minF (env a) (env b)
  | .MaxRegReg _ a b => sem.maxF (env a) (env b)

/-- One step of SSA evaluation: store the instruction's value at its
output index. -/
def Ssa.step {V : Type} (sem : Sem V) (o : Ssa.Op) (env : Nat → V) :
    Nat → V :=
  upd env o.outIdx (o.rhsVal sem env)

/-- Evaluates a whole SSA tape leaves-first (the list is stored root-first,
so evaluation folds from the right). -/
def Ssa.run {V : Type} (sem : Sem V) (tape : List Ssa.Op) (env0 : Nat → V) :
    Nat → V :=
  tape.foldr (Ssa.step sem) env0

/-- Executes one VM instruction on the slot array. -/
def Vm.Op.exec {V : Type} (sem : Sem V) (st : Nat → V) : Vm.Op → Nat → V
  | .Input o i => upd st o (sem.inputF i)
  | .Var o i => upd st o (sem.varF i)
  | .NegReg o a => upd st o (sem.negF (st a))
  | .AbsReg o a => upd st o (sem.absF (st a))
  | .RecipReg o a => upd st o (sem.recipF (st a))
  | .SqrtReg o a => upd st o (sem.sqrtF (st a))
  | .SquareReg o a => upd st o (sem.squareF (st a))
  | .ExpReg o a => upd st o (sem.expF (st a))
  | .CopyReg o a => upd st o (sem.copyF (st a))
  | .SineReg o a => upd st o (sem.sinF (st a))
  | .CosineReg o a => upd st o (sem.cosF (st a))
  | .AddRegImm o a m => upd st o (sem.addRi (st a) m)
  | .SubRegImm o a m => upd st o (sem.subRi (st a) m)
  | .SubImmReg o a m => upd st o (sem.subIr (st a) m)
  | .MulRegImm o a m => upd st o (sem.mulRi (st a) m)
  | .DivRegImm o a m => upd st o (sem.divRi (st a) m)
  | .DivImmReg o a m => upd st o (sem.divIr (st a) m)
  | .MinRegImm o a m => upd st o (sem.minRi (st a) m)
  | .MaxRegImm o a m => upd st o (sem.maxRi (st a) m)
  | .AddRegReg o a b => upd st o (sem.addF (st a) (st b))
  | .SubRegReg o a b => upd st o (sem.subF (st a) (st b))
  | .MulRegReg o a b => upd st o (sem.mulF (st a) (st b))
  | .DivRegReg o a b => upd st o (sem.divF (st a) (st b))
  | .MinRegReg o a b => upd st o (sem.minF (st a) (st b))
  | .MaxRegReg o a b => upd st o (sem.maxF (st a) (st b))
  | .CopyImm o m => upd st o (sem.immF m)
  | .Load r m => upd st r (st m)
  | .Store r m => upd st m (st r)

/-- Executes a list of VM instructions held in emission order: the last
emitted instruction runs first (the tape is read in reverse at evaluation
time). -/
def Vm.run {V : Type} (sem : Sem V) (ops : List Vm.Op) (st : Nat → V) :
    Nat → V :=
  ops.foldr (fun o st => Vm.Op.exec sem st o) st

/-! ## Well-formedness and allocator invariants -/

/-- The instruction at position `j` of an SSA tape. -/
def opAt (tape : List Ssa.Op) (j : Nat) : Ssa.Op := tape.getD j default

/-- The SSA index defined at position `j`. -/
def outAt (tape : List Ssa.Op) (j : Nat) : Nat := (opAt tape j).outIdx

/-- SSA index `n` is read by an instruction before position `k`. -/
def usedBefore (tape : List Ssa.Op) (n k : Nat) : Prop :=
  ∃ j < k, n ∈ (opAt tape j).operands

/-- SSA index `n` is not defined by any instruction before position `k`. -/
def notDefBefore (tape : List Ssa.Op) (n k : Nat) : Prop :=
  ∀ j < k, outAt tape j ≠ n

/-- SSA index `n` is live at step `k` of the allocator's root-first scan:
its defining instruction has not been processed yet, and it is either the
root or has already been read by a processed instruction. -/
def live (tape : List Ssa.Op) (n k : Nat) : Prop :=
  notDefBefore tape n k ∧ (n = 0 ∨ usedBefore tape n k)

/-- A well-formed SSA tape: nonempty with the root (SSA index 0) first,
every output index in range and defined exactly once, every operand
defined by a strictly later instruction, every non-root instruction's
output read by an earlier instruction (reachability from the root),
`Input` slots fitting in a `u8`, and a length small enough that all slot
indices fit in a `u32` below the `u32::MAX` sentinel. -/
def WellFormed (tape : List Ssa.Op) : Prop :=
  0 < tape.length ∧
  outAt tape 0 = 0 ∧
  (∀ j < tape.length, outAt tape j < tape.length) ∧
  (∀ j < tape.length, ∀ i < j, outAt tape i ≠ outAt tape j) ∧
  (∀ j < tape.length, ∀ a ∈ (opAt tape j).operands,
    ∃ i < tape.length, j < i ∧ outAt tape i = a) ∧
  (∀ k < tape.length, 0 < k → ∃ j < k, outAt tape k ∈ (opAt tape j).operands) ∧
  (∀ j < tape.length, (opAt tape j).inputSlot?.getD 0 < 256) ∧
  3 * tape.length + 258 ≤ UMAX

/-- A valid register limit: at least two registers (binary operations need
an output register and a distinct scratch register) and at most 255 (the
limit is a `u8` and the backing arrays hold 255 entries). -/
def ValidRegLimit (R : Nat) : Prop := 2 ≤ R ∧ R ≤ 255

/-- Registers named by a VM instruction. -/
def Vm.Op.regs : Vm.Op → List Nat
  | .Input o _ | .Var o _ | .CopyImm o _ => [o]
  | .NegReg o a | .AbsReg o a | .RecipReg o a | .SqrtReg o a
  | .SquareReg o a | .ExpReg o a | .CopyReg o a | .SineReg o a
  | .CosineReg o a => [o, a]
  | .AddRegImm o a _ | .SubRegImm o a _ | .SubImmReg o a _
  | .MulRegImm o a _ | .DivRegImm o a _ | .DivImmReg o a _
  | .MinRegImm o a _ | .MaxRegImm o a _ => [o, a]
  | .AddRegReg o a b | .SubRegReg o a b | .MulRegReg o a b
  | .DivRegReg o a b | .MinRegReg o a b | .MaxRegReg o a b => [o, a, b]
  | .Load r _ | .Store r _ => [r]

/-- Memory slots named by a VM instruction. -/
def Vm.Op.mems : Vm.Op → List Nat
  | .Load _ m | .Store _ m => [m]
  | _ => []

/-- Slot discipline of an emitted VM instruction: every register argument
is below the register limit `R`, every memory slot lies in
`[R, slotCount)`. -/
def Vm.Op.slotsOk (R slotCount : Nat) (o : Vm.Op) : Prop :=
  (∀ r ∈ o.regs, r < R) ∧ (∀ m ∈ o.mems, R ≤ m ∧ m < slotCount)

/-- The machine-shape invariant of the allocator state: the binding maps
are mutually inverse, slots are in range, memory bindings are unique,
spare lists are disjoint from live bindings, registers beyond the handed
range are untouched, and the LRU queue holds exactly the `R` registers. -/
structure MachInv (R : Nat) (s : RegisterAllocator) : Prop where
  reg_limit_eq : s.reg_limit = R
  out_reg_limit : s.out.reg_limit = R
  lru_perm : s.register_lru.order.Perm (List.range R)
  reg_inv1 : ∀ n, s.allocations n < R → s.registers (s.allocations n) = n
  reg_inv2 : ∀ r, s.registers r ≠ UMAX → s.allocations (s.registers r) = r
  alloc_lt : ∀ n, s.allocations n ≠ UMAX → s.allocations n < s.out.slot_count
  mem_inj : ∀ n m, s.allocations n ≠ UMAX → R ≤ s.allocations n →
    s.allocations n = s.allocations m → n = m
  spare_regs : ∀ r ∈ s.spare_registers, r < R ∧ s.registers r = UMAX
  spare_regs_nodup : s.spare_registers.Nodup
  spare_mem : ∀ m ∈ s.spare_memory,
    R ≤ m ∧ m < s.out.slot_count ∧ ∀ n, s.allocations n ≠ m
  spare_mem_nodup : s.spare_memory.Nodup
  regs_high : ∀ r, R ≤ r → s.registers r = UMAX
  regs_unhanded : ∀ r, s.out.slot_count ≤ r →
    s.registers r = UMAX ∧ r ∉ s.spare_registers
  slot_pos : 1 ≤ s.out.slot_count
  alloc_umax : s.allocations UMAX = UMAX

/-- The allocator's binding domain matches liveness at step `k`. -/
def domEq (tape : List Ssa.Op) (k : Nat) (s : RegisterAllocator) : Prop :=
  ∀ n, s.allocations n ≠ UMAX ↔ live tape n k

/-- A machine state agrees with the SSA values on every slot currently
bound by the allocator. -/
def goodState {V : Type} (val : Nat → V) (s : RegisterAllocator)
    (st : Nat → V) : Prop :=
  ∀ n, s.allocations n ≠ UMAX → st (s.allocations n) = val n

/-- Executing the instruction block `e` (in emission order) turns any
machine state that agrees with the later allocator state `s'` into one
that agrees with the earlier allocator state `s`. -/
def transfers {V : Type} (sem : Sem V) (val : Nat → V)
    (s s' : RegisterAllocator) (e : List Vm.Op) : Prop :=
  ∀ st, goodState val s' st → goodState val s (Vm.run sem e st)

/-! ## Concrete instances used by closed witness theorems -/

/-- A tiny valid render configuration: a 4-pixel image with tile sizes
`[2, 1]`. -/
def exConfig : RenderConfig := { image_size := 4, tile_sizes := [2, 1], threads := 1 }

/-- A configuration whose tile sizes satisfy the divisibility chain but are
not strictly decreasing. -/
def exBadConfig : RenderConfig := { image_size := 4, tile_sizes := [4, 4], threads := 1 }

/-- A tiny well-formed SSA tape computing `x + y`: the root `Add` at SSA
index 0 reads the two inputs defined below it. -/
def exTape : List Ssa.Op := [.AddRegReg 0 1 2, .Input 1 0, .Input 2 1]

/-- A concrete interpretation of the opcode set over `Nat`, used to
evaluate the tapes in witness theorems. -/
def natSem : Sem Nat :=
  { inputF := fun i => i + 10
    varF := fun i => i + 20
    immF := fun _ => 1
    negF := fun v => v + 2
    absF := fun v => v + 3
    recipF := fun v => v + 4
    sqrtF := fun v => v + 5
    squareF := fun v => v * v
    expF := fun v => v + 6
    sinF := fun v => v + 7
    cosF := fun v => v + 8
    copyF := fun v => v
    addF := fun a b => a + b
    subF := fun a b => a - b
    mulF := fun a b => a * b
    divF := fun a b => a + 2 * b
    minF := fun a b => Nat.min a b
    maxF := fun a b => Nat.max a b
    addRi := fun v _ => v + 30
    subRi := fun v _ => v + 31
    subIr := fun v _ => v + 32
    mulRi := fun v _ => v + 33
    divRi := fun v _ => v + 34
    divIr := fun v _ => v + 35
    minRi := fun v _ => v + 36
    maxRi := fun v _ => v + 37 }

/-- Every execution of a list of VM instructions, under every
interpretation, turns a machine state agreeing with the later allocator
state into one agreeing with the earlier allocator state. -/
def transfersAll (s s' : RegisterAllocator) (e : List Vm.Op) : Prop :=
  ∀ (V : Type) (sem : Sem V) (val : Nat → V), transfers sem val s s' e

/-- Every register below the limit that has been handed out and is
currently unbound sits in the spare-register list (so LRU eviction always
hits a bound register). -/
def SpareOk (R : Nat) (s : RegisterAllocator) : Prop :=
  ∀ r, r < R → r < s.out.slot_count → s.registers r = UMAX →
    r ∈ s.spare_registers

/-- As `SpareOk`, except possibly at the single register `x` (the register
just handed out by `get_register` and not yet bound). -/
def SpareOkExcept (R x : Nat) (s : RegisterAllocator) : Prop :=
  ∀ r, r ≠ x → r < R → r < s.out.slot_count → s.registers r = UMAX →
    r ∈ s.spare_registers

/-- The full per-instruction postcondition of `RegisterAllocator::op`:
the machine invariants are maintained, the instruction's output binding is
released, every operand ends up bound, no other binding's existence
changes, at most three fresh slots are consumed, and the emitted
instruction block is slot-disciplined and semantics-preserving. -/
def OpPost (R : Nat) (op : Ssa.Op) (s s' : RegisterAllocator) : Prop :=
  MachInv R s' ∧ SpareOk R s' ∧
  s'.allocations op.outIdx = UMAX ∧
  (∀ a ∈ op.operands, s'.allocations a ≠ UMAX) ∧
  (∀ n, n ≠ op.outIdx → n ∉ op.operands →
    (s.allocations n ≠ UMAX ↔ s'.allocations n ≠ UMAX)) ∧
  s.out.slot_count ≤ s'.out.slot_count ∧
  s'.out.slot_count ≤ s.out.slot_count + 3 ∧
  ∃ e, s'.out.tape = s.out.tape ++ e ∧
    (∀ vop ∈ e, vop.slotsOk R s'.out.slot_count) ∧
    ∀ (V : Type) (sem : Sem V) (val : Nat → V),
      val op.outIdx = op.rhsVal sem val → transfers sem val s s' e

/-- The postcondition of one `op_reg_reg` allocation branch, relative to the
state `u` reached after the output register was obtained: invariants are
restored, the output binding is released, both operands are bound, other
bindings' existence and the slot count (up to `grow` fresh slots) are
preserved, and the emitted block is slot-disciplined and
semantics-preserving. -/
def GoPost (R : Nat) (out lhs rhs : Nat)
    (F : (V : Type) → Sem V → V → V → V) (grow : Nat)
    (u s' : RegisterAllocator) : Prop :=
  MachInv R s' ∧ SpareOk R s' ∧
  s'.allocations out = UMAX ∧ s'.allocations lhs ≠ UMAX ∧
  s'.allocations rhs ≠ UMAX ∧
  (∀ n, n ≠ out → n ≠ lhs → n ≠ rhs →
    (u.allocations n ≠ UMAX ↔ s'.allocations n ≠ UMAX)) ∧
  u.out.slot_count ≤ s'.out.slot_count ∧
  s'.out.slot_count ≤ u.out.slot_count + grow ∧
  ∃ e, s'.out.tape = u.out.tape ++ e ∧
    (∀ vop ∈ e, Vm.Op.slotsOk R s'.out.slot_count vop) ∧
    ∀ (V : Type) (sem : Sem V) (val : Nat → V),
      val out = F V sem (val lhs) (val rhs) → transfers sem val u s' e

/-- Output index `o` decodes to an image coordinate `(x, y)` (with
`x = o % orig` and `y = orig - 1 - o / orig`, inverting the splat's
`(orig - y - 1) * orig + x` target formula) that lies inside the pixel
block of the tile with corner `t`. -/
def tileCovers (c : AlignedRenderConfig) (t : Nat × Nat) (o : Nat) : Prop :=
  o < c.orig_image_size ^ 2 ∧
  t.1 ≤ o % c.orig_image_size ∧
  o % c.orig_image_size < t.1 + c.t0 ∧
  t.2 ≤ c.orig_image_size - 1 - o / c.orig_image_size ∧
  c.orig_image_size - 1 - o / c.orig_image_size < t.2 + c.t0

instance (c : AlignedRenderConfig) (t : Nat × Nat) (o : Nat) :
    Decidable (tileCovers c t o) := by
  unfold tileCovers
  infer_instance

/-! ## Theorems -/

theorem upd_same {V : Type} (f : Nat → V) (k : Nat) (v : V) : upd f k v k = v := by
  simp [upd]

theorem upd_ne {V : Type} (f : Nat → V) {i k : Nat} (v : V) (h : i ≠ k) :
    upd f k v i = f i := by
  simp [upd, h]

/-- C7 counterexample: the `Context` opcode enums have exactly five
constructors each, so the unary kinds cannot include all of
`{Neg, Abs, Recip, Sqrt, Square, Sin, Cos, Exp}` (eight distinct kinds)
nor the binary kinds all of `{Add, Sub, Mul, Div, Min, Max}` (six). -/
theorem claim_C7_counterexample :
    Fintype.card Ctx.UnaryOpcode = 5 ∧ Fintype.card Ctx.BinaryOpcode = 5 := by
  constructor <;> decide

/-- C7 (amended): the graph node kind `Unary` supports exactly the
operation kinds `{Neg, Abs, Recip, Sqrt, Square}` and `Binary` exactly
`{Add, Mul, Sub, Min, Max}`; `Sin`, `Cos`, `Exp` and `Div` have no
constructor in the `Context`'s `Op` data model (they exist only in the VM
opcode set). -/
theorem claim_C7_context_opcodes :
    (∀ u : Ctx.UnaryOpcode,
      u ∈ [Ctx.UnaryOpcode.Neg, Ctx.UnaryOpcode.Abs, Ctx.UnaryOpcode.Recip,
           Ctx.UnaryOpcode.Sqrt, Ctx.UnaryOpcode.Square]) ∧
    [Ctx.UnaryOpcode.Neg, Ctx.UnaryOpcode.Abs, Ctx.UnaryOpcode.Recip,
     Ctx.UnaryOpcode.Sqrt, Ctx.UnaryOpcode.Square].Nodup ∧
    (∀ b : Ctx.BinaryOpcode,
      b ∈ [Ctx.BinaryOpcode.Add, Ctx.BinaryOpcode.Mul, Ctx.BinaryOpcode.Sub,
           Ctx.BinaryOpcode.Min, Ctx.BinaryOpcode.Max]) ∧
    [Ctx.BinaryOpcode.Add, Ctx.BinaryOpcode.Mul, Ctx.BinaryOpcode.Sub,
     Ctx.BinaryOpcode.Min, Ctx.BinaryOpcode.Max].Nodup := by
  refine ⟨by decide, by decide, by decide, by decide⟩

/-- C9 counterexample: a configuration whose `tile_sizes = [4, 4]` violate
the strict-decreasing ordering constraint but satisfy the divisibility
chain passes the renderer's up-front validation, so no fatal error is
reported. -/
theorem claim_C9_counterexample :
    (render exBadConfig (fun _ _ => (0 : Nat))).isSome = true ∧
    ¬ StrictlyDecreasing exBadConfig.tile_sizes :=
  ⟨rfl, by decide⟩

/-- C9 (amended): with nonempty, positive tile sizes, `render` passes its
up-front validation (and proceeds to render) exactly when each tile size
divides the previous one; `tile_sizes[0]` always divides the aligned image
size by construction, and the strict-decreasing ordering constraint is not
checked at all. -/
theorem claim_C9_validation {P : Type} [Inhabited P] (c : RenderConfig)
    (pf : Nat → Nat → P) (hne : c.tile_sizes ≠ [])
    (hpos : ∀ t ∈ c.tile_sizes, 0 < t) :
    (render c pf).isSome = true ↔
      ∀ i, i + 1 < c.tile_sizes.length →
        c.tile_sizes.getD (i + 1) 0 ∣ c.tile_sizes.getD i 0 := by
  have halign : (RenderConfig.align c).image_size % (RenderConfig.align c).t0 = 0 := by
    simp only [RenderConfig.align, AlignedRenderConfig.t0, alignUp]
    exact Nat.mul_mod_right _ _
  have hts : (RenderConfig.align c).tile_sizes = c.tile_sizes := rfl
  obtain ⟨hd, tl, heq⟩ := List.exists_cons_of_ne_nil hne
  constructor
  · intro h i hi
    have hsome : (RenderConfig.align c).assertsOk = true := by
      by_contra hno
      simp only [render, hno, Bool.false_eq_true, if_false, Option.isSome_none] at h
    rw [AlignedRenderConfig.assertsOk] at hsome
    simp only [Bool.and_eq_true] at hsome
    obtain ⟨⟨⟨-, -⟩, -⟩, hall⟩ := hsome
    rw [List.all_eq_true] at hall
    have hmem : i ∈ List.range ((RenderConfig.align c).tile_sizes.length - 1) := by
      rw [List.mem_range, hts]
      omega
    have hpair := hall i hmem
    simp only [Bool.and_eq_true] at hpair
    obtain ⟨-, hmod⟩ := hpair
    rw [beq_iff_eq, hts] at hmod
    exact Nat.dvd_iff_mod_eq_zero.mpr hmod
  · intro h
    have hsome : (RenderConfig.align c).assertsOk = true := by
      rw [AlignedRenderConfig.assertsOk]
      simp only [Bool.and_eq_true]
      refine ⟨⟨⟨?_, ?_⟩, ?_⟩, ?_⟩
      · rw [Bool.not_eq_true', hts, heq]
        rfl
      · have ht0 : (RenderConfig.align c).t0 = hd := by
          rw [AlignedRenderConfig.t0, hts, heq]
          rfl
        have hhd : 0 < hd := hpos hd (by rw [heq]; exact List.mem_cons_self _ _)
        rw [ht0, bne_iff_ne]
        omega
      · rw [beq_iff_eq]
        exact halign
      · rw [List.all_eq_true]
        intro i hmem
        rw [List.mem_range, hts] at hmem
        simp only [Bool.and_eq_true]
        constructor
        · have hmem2 : c.tile_sizes.getD (i + 1) 0 ∈ c.tile_sizes := by
            rw [List.getD_eq_getElem?_getD,
              List.getElem?_eq_getElem (show i + 1 < c.tile_sizes.length by omega),
              Option.getD_some]
            exact List.mem_iff_getElem.mpr ⟨i + 1, by omega, rfl⟩
          have := hpos _ hmem2
          rw [bne_iff_ne, hts]
          omega
        · rw [beq_iff_eq, hts]
          exact Nat.dvd_iff_mod_eq_zero.mp (h i (by omega))
    simp only [render, hsome, if_true, Option.isSome_some]

/-- C9 witness: the concrete non-strictly-decreasing configuration has
nonempty, positive tile sizes, and its validation outcome is equivalent to
the divisibility chain. -/
theorem claim_C9_witness :
    exBadConfig.tile_sizes ≠ [] ∧ (∀ t ∈ exBadConfig.tile_sizes, 0 < t) ∧
    ((render exBadConfig (fun _ _ => (0 : Nat))).isSome = true ↔
      ∀ i, i + 1 < exBadConfig.tile_sizes.length →
        exBadConfig.tile_sizes.getD (i + 1) 0 ∣
          exBadConfig.tile_sizes.getD i 0) :=
  ⟨by decide, by decide,
    claim_C9_validation exBadConfig (fun _ _ => (0 : Nat)) (by decide)
      (by decide)⟩

/-! ### Splat-target arithmetic -/

theorem enc_mod (orig x y : Nat) (hx : x < orig) :
    ((orig - y - 1) * orig + x) % orig = x := by
  rw [Nat.mul_comm, Nat.mul_add_mod, Nat.mod_eq_of_lt hx]

theorem enc_div (orig x y : Nat) (hx : x < orig) :
    ((orig - y - 1) * orig + x) / orig = orig - y - 1 := by
  rw [Nat.mul_comm, Nat.mul_add_div (by omega) _ x, Nat.div_eq_of_lt hx,
    Nat.add_zero]

theorem enc_lt (orig x y : Nat) (hx : x < orig) :
    (orig - y - 1) * orig + x < orig ^ 2 := by
  have h1 : (orig - y - 1) * orig + x < (orig - y - 1 + 1) * orig := by
    rw [Nat.add_mul, Nat.one_mul]
    omega
  have h2 : (orig - y - 1 + 1) * orig ≤ orig * orig :=
    Nat.mul_le_mul_right _ (by omega)
  rw [pow_two]
  omega

/-! ### Generic lemmas about folds of conditional pointwise writes -/

theorem foldl_ite_no_hit {A V : Type} (step : (Nat → V) → A → Nat → V)
    (hit : A → Nat → Prop) [inst : ∀ a o, Decidable (hit a o)]
    (val : A → Nat → V)
    (hstep : ∀ im a o, step im a o = if hit a o then val a o else im o)
    (L : List A) (im : Nat → V) (o : Nat) (h : ∀ a ∈ L, ¬ hit a o) :
    (L.foldl step im) o = im o := by
  induction L generalizing im with
  | nil => rfl
  | cons a t ih =>
    rw [List.foldl_cons, ih _ fun b hb => h b (List.mem_cons_of_mem a hb),
      hstep, if_neg (h a (List.mem_cons_self a t))]

theorem foldl_ite_last_hit {A V : Type} (step : (Nat → V) → A → Nat → V)
    (hit : A → Nat → Prop) [inst : ∀ a o, Decidable (hit a o)]
    (val : A → Nat → V)
    (hstep : ∀ im a o, step im a o = if hit a o then val a o else im o)
    (L1 : List A) (a0 : A) (L2 : List A) (im : Nat → V) (o : Nat)
    (ha : hit a0 o) (h2 : ∀ a ∈ L2, ¬ hit a o) :
    ((L1 ++ a0 :: L2).foldl step im) o = val a0 o := by
  rw [List.foldl_append, List.foldl_cons,
    foldl_ite_no_hit step hit val hstep L2 _ o h2, hstep, if_pos ha]

theorem foldl_flatMap_eq {α β γ : Type} (l : List α) (f : α → List β)
    (g : γ → β → γ) (b : γ) :
    (l.flatMap f).foldl g b = l.foldl (fun acc a => (f a).foldl g acc) b := by
  induction l generalizing b with
  | nil => rfl
  | cons a t ih => rw [List.flatMap_cons, List.foldl_append, List.foldl_cons, ih]

theorem nodup_grid (n m : Nat) :
    ((List.range n).flatMap fun j => (List.range m).map fun i => (j, i)).Nodup := by
  rw [List.nodup_flatMap]
  constructor
  · intro j _
    exact (List.nodup_range m).map fun a b hab => (Prod.mk.injEq _ _ _ _).mp hab |>.2
  · have hlt : List.Pairwise (fun a b => a ≠ b) (List.range n) :=
      (List.nodup_range n)
    refine hlt.imp ?_
    intro j1 j2 hne p hp1 hp2
    rw [List.mem_map] at hp1 hp2
    obtain ⟨i1, _, rfl⟩ := hp1
    obtain ⟨i2, _, h2⟩ := hp2
    exact hne ((Prod.mk.injEq _ _ _ _).mp h2).1.symm

/-! ### Pointwise characterization of the splat -/

theorem splatWrite_apply {P : Type} (c : AlignedRenderConfig) (t : Nat × Nat)
    (d : Nat → P) (im : Nat → P) (j i o : Nat) :
    splatWrite c t d im j i o =
      if (j + t.2 < c.orig_image_size ∧ i + t.1 < c.orig_image_size) ∧
         o = (c.orig_image_size - (j + t.2) - 1) * c.orig_image_size + (i + t.1)
      then d (j * c.t0 + i)
      else im o := by
  unfold splatWrite
  by_cases h1 : j + t.2 < c.orig_image_size ∧ i + t.1 < c.orig_image_size
  · rw [if_pos h1]
    by_cases h2 : o = (c.orig_image_size - (j + t.2) - 1) * c.orig_image_size + (i + t.1)
    · rw [if_pos h2, if_pos ⟨h1, h2⟩]
    · rw [if_neg h2, if_neg fun hc => h2 hc.2]
  · rw [if_neg h1, if_neg fun hc => h1 hc.1]

theorem splatTile_eq {P : Type} (c : AlignedRenderConfig) (t : Nat × Nat)
    (d : Nat → P) (im : Nat → P) :
    splatTile c im (t, d) =
      ((List.range c.t0).flatMap fun j =>
        (List.range c.t0).map fun i => (j, i)).foldl
        (fun im2 p => splatWrite c t d im2 p.1 p.2) im := by
  rw [foldl_flatMap_eq]
  simp only [List.foldl_map]
  rfl


theorem splatTile_apply {P : Type} (c : AlignedRenderConfig) (t : Nat × Nat)
    (d : Nat → P) (im : Nat → P) (o : Nat) :
    splatTile c im (t, d) o =
      if tileCovers c t o then
        d (((c.orig_image_size - 1 - o / c.orig_image_size) - t.2) * c.t0 +
           (o % c.orig_image_size - t.1))
      else im o := by
  have hstep : ∀ (im2 : Nat → P) (p : Nat × Nat) (o' : Nat),
      splatWrite c t d im2 p.1 p.2 o' =
        if (p.1 + t.2 < c.orig_image_size ∧ p.2 + t.1 < c.orig_image_size) ∧
           o' = (c.orig_image_size - (p.1 + t.2) - 1) * c.orig_image_size +
                (p.2 + t.1)
        then d (p.1 * c.t0 + p.2) else im2 o' :=
    fun im2 p o' => splatWrite_apply c t d im2 p.1 p.2 o'
  by_cases hcov : tileCovers c t o
  · rw [if_pos hcov]
    obtain ⟨ho2, hc1, hc2, hc3, hc4⟩ := hcov
    have horig : 0 < c.orig_image_size := by
      rcases Nat.eq_zero_or_pos c.orig_image_size with h | h
      · rw [h] at ho2; simp at ho2
      · exact h
    have hox : o % c.orig_image_size < c.orig_image_size := Nat.mod_lt _ horig
    have hdiv : o / c.orig_image_size < c.orig_image_size := by
      rw [Nat.div_lt_iff_lt_mul horig, ← pow_two]
      exact ho2
    have hsum : c.orig_image_size * (o / c.orig_image_size) +
        o % c.orig_image_size = o := Nat.div_add_mod o _
    generalize hdv : o / c.orig_image_size = dv at hc3 hc4 hdiv hsum ⊢
    generalize hmv : o % c.orig_image_size = mv at hc1 hc2 hox hsum ⊢
    have hj0 : c.orig_image_size - 1 - dv - t.2 < c.t0 := by omega
    have hi0 : mv - t.1 < c.t0 := by omega
    have hmem : (c.orig_image_size - 1 - dv - t.2, mv - t.1) ∈
        (List.range c.t0).flatMap fun j => (List.range c.t0).map fun i => (j, i) := by
      rw [List.mem_flatMap]
      exact ⟨_, List.mem_range.mpr hj0, List.mem_map.mpr
        ⟨_, List.mem_range.mpr hi0, rfl⟩⟩
    obtain ⟨L1, L2, hsplit⟩ := List.append_of_mem hmem
    have hnd := nodup_grid c.t0 c.t0
    rw [hsplit] at hnd
    have hnotmem := (List.nodup_cons.mp hnd.of_append_right).1
    have hhit0 : ((c.orig_image_size - 1 - dv - t.2) + t.2 <
          c.orig_image_size ∧
        (mv - t.1) + t.1 < c.orig_image_size) ∧
        o = (c.orig_image_size -
              ((c.orig_image_size - 1 - dv - t.2) + t.2) - 1) *
            c.orig_image_size + ((mv - t.1) + t.1) := by
      have he1 : (c.orig_image_size - 1 - dv - t.2) + t.2 =
          c.orig_image_size - 1 - dv := by omega
      have he2 : (mv - t.1) + t.1 = mv := by omega
      rw [he1, he2]
      refine ⟨⟨by omega, hox⟩, ?_⟩
      have he3 : c.orig_image_size - (c.orig_image_size - 1 - dv) - 1 = dv := by
        omega
      rw [he3, Nat.mul_comm]
      omega
    rw [splatTile_eq, hsplit]
    rw [foldl_ite_last_hit
      (fun im2 p => splatWrite c t d im2 p.1 p.2)
      (fun p o' => (p.1 + t.2 < c.orig_image_size ∧
          p.2 + t.1 < c.orig_image_size) ∧
        o' = (c.orig_image_size - (p.1 + t.2) - 1) * c.orig_image_size +
          (p.2 + t.1))
      (fun p _ => d (p.1 * c.t0 + p.2)) hstep L1 _ L2 im o hhit0 ?_]
    intro p hp hhit
    obtain ⟨⟨hy, hx⟩, henc⟩ := hhit
    have hpx : mv = p.2 + t.1 := by
      rw [← hmv, henc]; exact enc_mod _ _ _ hx
    have hpy : dv = c.orig_image_size - (p.1 + t.2) - 1 := by
      rw [← hdv, henc]; exact enc_div _ _ _ hx
    apply hnotmem
    have hpe : p = (c.orig_image_size - 1 - dv - t.2, mv - t.1) := by
      rw [Prod.ext_iff]
      constructor
      · simp only []; omega
      · simp only []; omega
    rw [← hpe]
    exact hp
  · rw [if_neg hcov, splatTile_eq]
    apply foldl_ite_no_hit
      (fun (im2 : Nat → P) (p : Nat × Nat) => splatWrite c t d im2 p.1 p.2)
      (fun (p : Nat × Nat) (o' : Nat) => (p.1 + t.2 < c.orig_image_size ∧
          p.2 + t.1 < c.orig_image_size) ∧
        o' = (c.orig_image_size - (p.1 + t.2) - 1) * c.orig_image_size +
          (p.2 + t.1))
      (fun (p : Nat × Nat) (_ : Nat) => d (p.1 * c.t0 + p.2)) hstep
    intro p hp hhit
    obtain ⟨⟨hy, hx⟩, henc⟩ := hhit
    rw [List.mem_flatMap] at hp
    obtain ⟨j, hj, hpm⟩ := hp
    rw [List.mem_map] at hpm
    obtain ⟨i, hi, rfl⟩ := hpm
    rw [List.mem_range] at hj hi
    apply hcov
    have hpx : o % c.orig_image_size = i + t.1 := by
      rw [henc]; exact enc_mod _ _ _ hx
    have hpy : o / c.orig_image_size = c.orig_image_size - (j + t.2) - 1 := by
      rw [henc]; exact enc_div _ _ _ hx
    refine ⟨by rw [henc]; exact enc_lt _ _ _ hx, ?_, ?_, ?_, ?_⟩ <;> omega

/-! ### Top-level tile facts -/

theorem mem_topTiles (c : AlignedRenderConfig) (t : Nat × Nat) :
    t ∈ c.topTiles ↔
      ∃ a, a < c.image_size / c.t0 ∧ ∃ b, b < c.image_size / c.t0 ∧
        t = (a * c.t0, b * c.t0) := by
  unfold AlignedRenderConfig.topTiles
  rw [List.mem_flatMap]
  constructor
  · rintro ⟨a, ha, hm⟩
    rw [List.mem_map] at hm
    obtain ⟨b, hb, rfl⟩ := hm
    exact ⟨a, List.mem_range.mp ha, b, List.mem_range.mp hb, rfl⟩
  · rintro ⟨a, ha, b, hb, rfl⟩
    exact ⟨a, List.mem_range.mpr ha, List.mem_map.mpr
      ⟨b, List.mem_range.mpr hb, rfl⟩⟩

theorem nodup_topTiles (c : AlignedRenderConfig) (hT0 : 0 < c.t0) :
    c.topTiles.Nodup := by
  unfold AlignedRenderConfig.topTiles
  rw [List.nodup_flatMap]
  constructor
  · intro a _
    refine (List.nodup_range (c.image_size / c.t0)).map ?_
    intro b b' hbb
    have := (Prod.mk.injEq _ _ _ _).mp hbb |>.2
    exact Nat.eq_of_mul_eq_mul_right hT0 this
  · have hlt : List.Pairwise (fun a b => a ≠ b)
        (List.range (c.image_size / c.t0)) := List.nodup_range _
    refine hlt.imp ?_
    intro a a' hne p hp1 hp2
    rw [List.mem_map] at hp1 hp2
    obtain ⟨b, _, rfl⟩ := hp1
    obtain ⟨b', _, h2⟩ := hp2
    have := (Prod.mk.injEq _ _ _ _).mp h2 |>.1
    exact hne (Nat.eq_of_mul_eq_mul_right hT0 this).symm

theorem tile_coord_unique {t0 m u u' : Nat} (hu1 : u * t0 ≤ m)
    (hu2 : m < u * t0 + t0) (hu1' : u' * t0 ≤ m) (hu2' : m < u' * t0 + t0) :
    u = u' := by
  rcases Nat.lt_trichotomy u u' with h | h | h
  · have hstep : (u + 1) * t0 ≤ u' * t0 := Nat.mul_le_mul_right _ h
    rw [Nat.add_mul, Nat.one_mul] at hstep
    exact absurd hu1' (Nat.not_le_of_lt (Nat.lt_of_lt_of_le hu2 hstep))
  · exact h
  · have hstep : (u' + 1) * t0 ≤ u * t0 := Nat.mul_le_mul_right _ h
    rw [Nat.add_mul, Nat.one_mul] at hstep
    exact absurd hu1 (Nat.not_le_of_lt (Nat.lt_of_lt_of_le hu2' hstep))

theorem covers_unique (c : AlignedRenderConfig) (hT0 : 0 < c.t0)
    {t t' : Nat × Nat} {o : Nat} (ht : t ∈ c.topTiles) (ht' : t' ∈ c.topTiles)
    (hc : tileCovers c t o) (hc' : tileCovers c t' o) : t = t' := by
  rw [mem_topTiles] at ht ht'
  obtain ⟨a, _, b, _, rfl⟩ := ht
  obtain ⟨a', _, b', _, rfl⟩ := ht'
  obtain ⟨_, h1, h2, h3, h4⟩ := hc
  obtain ⟨_, h1', h2', h3', h4'⟩ := hc'
  have ha : a = a' := tile_coord_unique h1 h2 h1' h2'
  have hb : b = b' := tile_coord_unique h3 h4 h3' h4'
  rw [ha, hb]

theorem covers_exists (c : AlignedRenderConfig) (hT0 : 0 < c.t0)
    (hdvd : c.t0 ∣ c.image_size) (hle : c.orig_image_size ≤ c.image_size)
    {o : Nat} (ho : o < c.orig_image_size ^ 2) :
    ∃ t ∈ c.topTiles, tileCovers c t o := by
  have horig : 0 < c.orig_image_size := by
    rcases Nat.eq_zero_or_pos c.orig_image_size with h | h
    · rw [h] at ho; simp at ho
    · exact h
  have hox : o % c.orig_image_size < c.orig_image_size := Nat.mod_lt _ horig
  have hoy : c.orig_image_size - 1 - o / c.orig_image_size < c.orig_image_size :=
    Nat.lt_of_le_of_lt (Nat.sub_le _ _) (Nat.sub_lt horig Nat.one_pos)
  have hg : c.image_size / c.t0 * c.t0 = c.image_size := Nat.div_mul_cancel hdvd
  have hdivlt : ∀ v : Nat, v < c.orig_image_size →
      v / c.t0 < c.image_size / c.t0 := by
    intro v hv
    rw [Nat.div_lt_iff_lt_mul hT0, hg]
    omega
  refine ⟨((o % c.orig_image_size) / c.t0 * c.t0,
    (c.orig_image_size - 1 - o / c.orig_image_size) / c.t0 * c.t0), ?_, ?_⟩
  · rw [mem_topTiles]
    exact ⟨_, hdivlt _ hox, _, hdivlt _ hoy, rfl⟩
  · exact ⟨ho, Nat.div_mul_le_self _ _, Nat.lt_div_mul_add hT0,
      Nat.div_mul_le_self _ _, Nat.lt_div_mul_add hT0⟩

/-! ### The splat over all tiles -/

theorem splatAll_step {P : Type} (c : AlignedRenderConfig)
    (im : Nat → P) (pr : (Nat × Nat) × (Nat → P)) (o : Nat) :
    splatTile c im pr o =
      if tileCovers c pr.1 o then
        pr.2 (((c.orig_image_size - 1 - o / c.orig_image_size) - pr.1.2) * c.t0 +
          (o % c.orig_image_size - pr.1.1))
      else im o := by
  obtain ⟨t, d⟩ := pr
  exact splatTile_apply c t d im o

theorem splatAll_no_hit {P : Type} [Inhabited P] (c : AlignedRenderConfig)
    (pairs : List ((Nat × Nat) × (Nat → P))) (o : Nat)
    (h : ∀ pr ∈ pairs, ¬ tileCovers c pr.1 o) :
    splatAll c pairs o = (default : P) := by
  unfold splatAll
  exact foldl_ite_no_hit (splatTile c)
    (fun (pr : (Nat × Nat) × (Nat → P)) o => tileCovers c pr.1 o)
    (fun pr o => pr.2 (((c.orig_image_size - 1 - o / c.orig_image_size) - pr.1.2) *
      c.t0 + (o % c.orig_image_size - pr.1.1)))
    (fun im pr o => splatAll_step c im pr o) pairs _ o h

theorem splatAll_last_hit {P : Type} [Inhabited P] (c : AlignedRenderConfig)
    (L1 : List ((Nat × Nat) × (Nat → P))) (pr0 : (Nat × Nat) × (Nat → P))
    (L2 : List ((Nat × Nat) × (Nat → P))) (o : Nat)
    (h0 : tileCovers c pr0.1 o) (h2 : ∀ pr ∈ L2, ¬ tileCovers c pr.1 o) :
    splatAll c (L1 ++ pr0 :: L2) o =
      pr0.2 (((c.orig_image_size - 1 - o / c.orig_image_size) - pr0.1.2) * c.t0 +
        (o % c.orig_image_size - pr0.1.1)) := by
  unfold splatAll
  exact foldl_ite_last_hit (splatTile c)
    (fun (pr : (Nat × Nat) × (Nat → P)) o => tileCovers c pr.1 o)
    (fun pr o => pr.2 (((c.orig_image_size - 1 - o / c.orig_image_size) - pr.1.2) *
      c.t0 + (o % c.orig_image_size - pr.1.1)))
    (fun im pr o => splatAll_step c im pr o) L1 pr0 L2 _ o h0 h2

theorem renderPairs_nodup {P : Type} (c : AlignedRenderConfig) (hT0 : 0 < c.t0)
    (pf : Nat → Nat → P) : (renderPairs c pf).Nodup :=
  (nodup_topTiles c hT0).map fun a b hab => ((Prod.mk.injEq _ _ _ _).mp hab).1

theorem renderPairs_fst {P : Type} (c : AlignedRenderConfig)
    (pf : Nat → Nat → P) {pr : (Nat × Nat) × (Nat → P)}
    (h : pr ∈ renderPairs c pf) :
    pr.1 ∈ c.topTiles ∧ pr = (pr.1, tileData pf c.t0 pr.1) := by
  unfold renderPairs at h
  rw [List.mem_map] at h
  obtain ⟨t, ht, rfl⟩ := h
  exact ⟨ht, rfl⟩

theorem splatAll_perm {P : Type} [Inhabited P] (c : AlignedRenderConfig)
    (hT0 : 0 < c.t0) (pf : Nat → Nat → P)
    (pairs : List ((Nat × Nat) × (Nat → P)))
    (hperm : pairs.Perm (renderPairs c pf)) (o : Nat) :
    splatAll c pairs o = splatAll c (renderPairs c pf) o := by
  by_cases hex : ∃ pr ∈ renderPairs c pf, tileCovers c pr.1 o
  · obtain ⟨pr0, hpr0, hcov0⟩ := hex
    have huniq : ∀ pr ∈ renderPairs c pf, tileCovers c pr.1 o → pr = pr0 := by
      intro pr hpr hcov
      obtain ⟨ht, he⟩ := renderPairs_fst c pf hpr
      obtain ⟨ht0, he0⟩ := renderPairs_fst c pf hpr0
      have : pr.1 = pr0.1 := covers_unique c hT0 ht ht0 hcov hcov0
      rw [he, he0, this]
    have key : ∀ L : List ((Nat × Nat) × (Nat → P)), L.Perm (renderPairs c pf) →
        splatAll c L o = pr0.2
          (((c.orig_image_size - 1 - o / c.orig_image_size) - pr0.1.2) * c.t0 +
            (o % c.orig_image_size - pr0.1.1)) := by
      intro L hL
      have hmem : pr0 ∈ L := hL.mem_iff.mpr hpr0
      obtain ⟨L1, L2, rfl⟩ := List.append_of_mem hmem
      have hnd : (L1 ++ pr0 :: L2).Nodup :=
        hL.nodup_iff.mpr (renderPairs_nodup c hT0 pf)
      have hnotmem := (List.nodup_cons.mp hnd.of_append_right).1
      refine splatAll_last_hit c L1 pr0 L2 o hcov0 ?_
      intro pr hpr hcov
      have hprmem : pr ∈ renderPairs c pf := hL.mem_iff.mp
        (List.mem_append.mpr (Or.inr (List.mem_cons_of_mem _ hpr)))
      rw [huniq pr hprmem hcov] at hpr
      exact hnotmem hpr
    rw [key pairs hperm, key (renderPairs c pf) (List.Perm.refl _)]
  · push_neg at hex
    rw [splatAll_no_hit c _ o hex, splatAll_no_hit c pairs o]
    intro pr hpr
    exact hex pr (hperm.mem_iff.mp hpr)

/-! ### Worker-schedule permutation -/

theorem flatMap_filter_perm {α : Type} (w : Nat) (f : α → Nat) (L : List α)
    (h : ∀ a ∈ L, f a < w) :
    ((List.range w).flatMap fun k => L.filter fun a => f a = k).Perm L := by
  induction L with
  | nil =>
    have : ∀ k ∈ List.range w, ([] : List α).filter (fun a => decide (f a = k)) = [] :=
      fun _ _ => rfl
    rw [List.flatMap_eq_foldl]
    simp [List.filter_nil]
  | cons a L' ih =>
    have hfa : f a ∈ List.range w := List.mem_range.mpr (h a (List.mem_cons_self _ _))
    obtain ⟨R1, R2, hsplit⟩ := List.append_of_mem hfa
    have hnd := List.nodup_range w
    rw [hsplit] at hnd
    have hnd2 := hnd.of_append_right
    have hfa_not1 : f a ∉ R1 := by
      intro hmem
      exact (List.disjoint_of_nodup_append hnd) hmem (List.mem_cons_self _ _)
    have hfa_not2 : f a ∉ R2 := (List.nodup_cons.mp hnd2).1
    have hcons : ∀ k : Nat, (a :: L').filter (fun x => decide (f x = k)) =
        if f a = k then a :: (L'.filter fun x => decide (f x = k))
        else L'.filter fun x => decide (f x = k) := by
      intro k
      rw [List.filter_cons]
      by_cases hk : f a = k
      · rw [if_pos hk, if_pos (decide_eq_true hk)]
      · rw [if_neg hk, if_neg (by simp [hk])]
    have hcong1 : R1.flatMap (fun k => (a :: L').filter fun x => decide (f x = k)) =
        R1.flatMap fun k => L'.filter fun x => decide (f x = k) := by
      rw [List.flatMap, List.flatMap]
      congr 1
      refine List.map_congr_left ?_
      intro k hk
      rw [hcons k, if_neg fun he => hfa_not1 (by rw [he]; exact hk)]
    have hcong2 : R2.flatMap (fun k => (a :: L').filter fun x => decide (f x = k)) =
        R2.flatMap fun k => L'.filter fun x => decide (f x = k) := by
      rw [List.flatMap, List.flatMap]
      congr 1
      refine List.map_congr_left ?_
      intro k hk
      rw [hcons k, if_neg fun he => hfa_not2 (by rw [he]; exact hk)]
    have hmid : (a :: L').filter (fun x => decide (f x = f a)) =
        a :: (L'.filter fun x => decide (f x = f a)) := by
      rw [hcons (f a), if_pos rfl]
    have hperm' : ((List.range w).flatMap fun k => L'.filter fun x =>
        decide (f x = k)).Perm L' :=
      ih fun x hx => h x (List.mem_cons_of_mem _ hx)
    rw [hsplit, List.flatMap_append, List.flatMap_cons, hcong1, hcong2, hmid]
    have hassoc : R1.flatMap (fun k => L'.filter fun x => decide (f x = k)) ++
        ((a :: (L'.filter fun x => decide (f x = f a))) ++
          R2.flatMap fun k => L'.filter fun x => decide (f x = k)) =
        (R1.flatMap fun k => L'.filter fun x => decide (f x = k)) ++
          a :: ((L'.filter fun x => decide (f x = f a)) ++
            R2.flatMap fun k => L'.filter fun x => decide (f x = k)) := by
      simp
    rw [hassoc]
    refine List.Perm.trans List.perm_middle ?_
    refine List.Perm.cons a ?_
    refine List.Perm.trans ?_ hperm'
    rw [hsplit, List.flatMap_append, List.flatMap_cons]

theorem distribute_perm {α : Type} (w : Nat) (hw : 0 < w) (assign : Nat → Nat)
    (tiles : List α) : (distribute w assign tiles).Perm tiles := by
  unfold distribute
  have h1 : ((List.range w).flatMap fun k =>
        (tiles.enum.filter fun p => assign p.1 % w = k).map Prod.snd) =
      ((List.range w).flatMap fun k =>
        tiles.enum.filter fun p => assign p.1 % w = k).map Prod.snd := by
    rw [List.map_flatMap]
  rw [h1]
  have h2 : ((List.range w).flatMap fun k =>
      tiles.enum.filter fun p => assign p.1 % w = k).Perm tiles.enum :=
    flatMap_filter_perm w (fun p => assign p.1 % w) tiles.enum
      fun a _ => Nat.mod_lt _ hw
  have := h2.map Prod.snd
  rw [List.enum_map_snd] at this
  exact this

theorem splatAll_renderPairs_value {P : Type} [Inhabited P]
    (c : AlignedRenderConfig) (hT0 : 0 < c.t0) (hdvd : c.t0 ∣ c.image_size)
    (hle : c.orig_image_size ≤ c.image_size) (pf : Nat → Nat → P) (o : Nat)
    (ho : o < c.orig_image_size ^ 2) :
    splatAll c (renderPairs c pf) o =
      pf (o % c.orig_image_size)
         (c.orig_image_size - 1 - o / c.orig_image_size) := by
  obtain ⟨t0, htmem, hcov⟩ := covers_exists c hT0 hdvd hle ho
  have hpr0 : (t0, tileData pf c.t0 t0) ∈ renderPairs c pf :=
    List.mem_map.mpr ⟨t0, htmem, rfl⟩
  obtain ⟨L1, L2, hsplit⟩ := List.append_of_mem hpr0
  have hnd : (renderPairs c pf).Nodup := renderPairs_nodup c hT0 pf
  rw [hsplit] at hnd
  have hnotmem := (List.nodup_cons.mp hnd.of_append_right).1
  have hval := splatAll_last_hit c L1 (t0, tileData pf c.t0 t0) L2 o hcov ?_
  · rw [hsplit, hval]
    obtain ⟨_, h1, h2, h3, h4⟩ := hcov
    show pf (t0.1 + ((c.orig_image_size - 1 - o / c.orig_image_size - t0.2) *
        c.t0 + (o % c.orig_image_size - t0.1)) % c.t0)
      (t0.2 + ((c.orig_image_size - 1 - o / c.orig_image_size - t0.2) *
        c.t0 + (o % c.orig_image_size - t0.1)) / c.t0) = _
    have hi0 : o % c.orig_image_size - t0.1 < c.t0 := by omega
    have hj0e : (c.orig_image_size - 1 - o / c.orig_image_size - t0.2) * c.t0 =
        c.t0 * (c.orig_image_size - 1 - o / c.orig_image_size - t0.2) :=
      Nat.mul_comm _ _
    rw [hj0e, Nat.mul_add_mod, Nat.mod_eq_of_lt hi0,
      Nat.mul_add_div hT0, Nat.div_eq_of_lt hi0, Nat.add_zero]
    have he1 : t0.1 + (o % c.orig_image_size - t0.1) = o % c.orig_image_size := by
      omega
    have he2 : t0.2 + (c.orig_image_size - 1 - o / c.orig_image_size - t0.2) =
        c.orig_image_size - 1 - o / c.orig_image_size := by omega
    rw [he1, he2]
  · intro pr hpr hcovpr
    have hprmem : pr ∈ renderPairs c pf := by
      rw [hsplit]
      exact List.mem_append.mpr (Or.inr (List.mem_cons_of_mem _ hpr))
    obtain ⟨htpr, hepr⟩ := renderPairs_fst c pf hprmem
    have : pr.1 = t0 := covers_unique c hT0 htpr htmem hcovpr hcov
    rw [hepr, this] at hpr
    exact hnotmem hpr

/-- C4: for a fixed tape, configuration and render mode, the output image
is the same for every worker count and every assignment of tiles to
workers: each tile's pixel block is a function of the tile alone, and the
final splat is invariant under permutations of the collected
`(tile, block)` pairs. -/
theorem claim_C4_render_deterministic {P : Type} [Inhabited P]
    (config : RenderConfig) (pf : Nat → Nat → P)
    (hpos : 0 < config.tile_sizes.headD 0) (w : Nat) (hw : 0 < w)
    (assign : Nat → Nat) :
    renderScheduled config pf w assign = render config pf := by
  unfold renderScheduled render
  by_cases hok : (RenderConfig.align config).assertsOk = true
  · simp only [hok, if_true]
    congr 1
    refine List.map_congr_left ?_
    intro o _
    exact splatAll_perm (config.align) hpos pf _
      (distribute_perm w hw assign _) o
  · simp only [hok]
    rw [if_neg (by simp [hok]), if_neg (by simp [hok])]

/-- C4 witness: a concrete configuration, pixel function and two-worker
schedule for which the scheduled render equals the canonical one. -/
theorem claim_C4_witness :
    0 < exConfig.tile_sizes.headD 0 ∧ 0 < 2 ∧
    renderScheduled exConfig (fun x y => x * 10 + y) 2 (fun n => n) =
      render exConfig (fun x y => x * 10 + y) :=
  ⟨by decide, by decide,
    claim_C4_render_deterministic exConfig _ (by decide) 2 (by decide) _⟩

theorem render_align_facts (config : RenderConfig)
    (hpos : 0 < config.tile_sizes.headD 0) :
    0 < (config.align).t0 ∧
    (config.align).t0 ∣ (config.align).image_size ∧
    (config.align).orig_image_size ≤ (config.align).image_size := by
  refine ⟨hpos, Dvd.intro _ rfl, ?_⟩
  show config.image_size ≤ alignUp config.image_size (config.tile_sizes.headD 0)
  unfold alignUp
  have hd := Nat.div_add_mod (config.image_size + config.tile_sizes.headD 0 - 1)
    (config.tile_sizes.headD 0)
  have hm : (config.image_size + config.tile_sizes.headD 0 - 1) %
      (config.tile_sizes.headD 0) < config.tile_sizes.headD 0 :=
    Nat.mod_lt _ hpos
  omega

/-- C8: the rendered image is row-major with row 0 at the top: the pixel
computed for tile-space coordinates `(x, y)` is stored at output index
`(image_size - y - 1) * image_size + x` (the output side length is the
original, pre-alignment image size). -/
theorem claim_C8_row_major {P : Type} [Inhabited P] (config : RenderConfig)
    (pf : Nat → Nat → P) (img : List P)
    (hpos : 0 < config.tile_sizes.headD 0)
    (h : render config pf = some img) {x y : Nat}
    (hx : x < config.image_size) (hy : y < config.image_size) :
    img.getD ((config.image_size - y - 1) * config.image_size + x) default =
      pf x y := by
  obtain ⟨hT0, hdvd, hle⟩ := render_align_facts config hpos
  have hok : (RenderConfig.align config).assertsOk = true := by
    by_contra hno
    simp only [render, hno, Bool.false_eq_true, if_false] at h
    exact Option.noConfusion h
  have himg : img = (List.range ((config.align).orig_image_size ^ 2)).map
      (splatAll (config.align) (renderPairs (config.align) pf)) := by
    simp only [render, hok, if_true, Option.some.injEq] at h
    exact h.symm
  have horig : (config.align).orig_image_size = config.image_size := rfl
  have henc : (config.image_size - y - 1) * config.image_size + x <
      config.image_size ^ 2 := enc_lt _ _ _ hx
  rw [himg, List.getD_eq_getElem?_getD, List.getElem?_map,
    List.getElem?_range (by rw [horig]; exact henc)]
  show splatAll (config.align) (renderPairs (config.align) pf) _ = pf x y
  rw [splatAll_renderPairs_value (config.align) hT0 hdvd hle pf _
    (by rw [horig]; exact henc)]
  rw [horig, enc_mod _ _ _ hx, enc_div _ _ _ hx]
  congr 1
  omega

/-- C8 witness: a concrete render of a 4-pixel-wide image in which the
pixel for tile-space coordinate `(1, 2)` sits at the claimed flipped
row-major index. -/
theorem claim_C8_witness :
    ∃ img : List Nat, render exConfig (fun x y => x * 10 + y) = some img ∧
      0 < exConfig.tile_sizes.headD 0 ∧ 1 < exConfig.image_size ∧
      2 < exConfig.image_size ∧
      img.getD ((exConfig.image_size - 2 - 1) * exConfig.image_size + 1)
        default = 1 * 10 + 2 := by
  refine ⟨_, rfl, by decide, by decide, by decide, ?_⟩
  exact claim_C8_row_major exConfig _ _ (by decide) rfl (by decide) (by decide)

/-- C10: the vector returned by `render` always has length
`orig_image_size ^ 2` (the pre-alignment size squared), and the output
never depends on pixel values computed at padded coordinates at or beyond
the original image size: any two per-pixel functions agreeing inside the
original image render identically. -/
theorem claim_C10_output_size {P : Type} [Inhabited P]
    (config : RenderConfig) (pf pf' : Nat → Nat → P)
    (hpos : 0 < config.tile_sizes.headD 0)
    (hagree : ∀ x < config.image_size, ∀ y < config.image_size,
      pf x y = pf' x y) :
    (∀ img, render config pf = some img →
      img.length = config.image_size ^ 2) ∧
    render config pf = render config pf' := by
  obtain ⟨hT0, hdvd, hle⟩ := render_align_facts config hpos
  have horig : (config.align).orig_image_size = config.image_size := rfl
  constructor
  · intro img h
    have hok : (RenderConfig.align config).assertsOk = true := by
      by_contra hno
      simp only [render, hno, Bool.false_eq_true, if_false] at h
      exact Option.noConfusion h
    simp only [render, hok, if_true, Option.some.injEq] at h
    rw [← h, List.length_map, List.length_range, horig]
  · unfold render
    by_cases hok : (RenderConfig.align config).assertsOk = true
    · simp only [hok, if_true]
      congr 1
      refine List.map_congr_left ?_
      intro o homem
      rw [List.mem_range] at homem
      rw [splatAll_renderPairs_value (config.align) hT0 hdvd hle pf o homem,
        splatAll_renderPairs_value (config.align) hT0 hdvd hle pf' o homem]
      have horigpos : 0 < config.image_size := by
        rcases Nat.eq_zero_or_pos config.image_size with hz | hp
        · rw [horig, hz] at homem; simp at homem
        · exact hp
      refine hagree _ ?_ _ ?_
      · rw [horig]
        exact Nat.mod_lt _ horigpos
      · rw [horig]
        exact Nat.lt_of_le_of_lt (Nat.sub_le _ _) (Nat.sub_lt horigpos Nat.one_pos)
    · simp only [hok]
      rw [if_neg (by simp [hok]), if_neg (by simp [hok])]

/-- C10 witness: the concrete render of the 4-pixel-wide example has 16
pixels, and changing the pixel function outside the original image leaves
the output unchanged. -/
theorem claim_C10_witness :
    (0 < exConfig.tile_sizes.headD 0) ∧
    (∀ x < exConfig.image_size, ∀ y < exConfig.image_size,
      x + y = (if x < exConfig.image_size ∧ y < exConfig.image_size
        then x + y else 99)) ∧
    (∀ img : List Nat, render exConfig (fun x y => x + y) = some img →
      img.length = exConfig.image_size ^ 2) ∧
    render exConfig (fun x y => x + y) =
      render exConfig (fun x y =>
        if x < exConfig.image_size ∧ y < exConfig.image_size
        then x + y else 99) := by
  have h := claim_C10_output_size exConfig (fun x y => x + y)
    (fun x y => if x < exConfig.image_size ∧ y < exConfig.image_size
      then x + y else 99) (by decide) ?_
  · exact ⟨by decide, fun x hx y hy => by simp [hx, hy], h.1, h.2⟩
  · intro x hx y hy
    simp [hx, hy]

/-! ### Write counting for the splat -/

theorem count_filterMap_nat {α : Type} (f : α → Option Nat) (L : List α)
    (o : Nat) :
    (L.filterMap f).count o = L.countP fun a => f a == some o := by
  induction L with
  | nil => rfl
  | cons a t ih =>
    rw [List.filterMap_cons]
    cases hfa : f a with
    | none =>
      rw [List.countP_cons, ih, hfa]
      simp
    | some b =>
      rw [List.countP_cons, List.count_cons, ih, hfa]
      have hbeq : (some b == some o) = (b == o) := rfl
      rw [hbeq]

theorem sum_indicator_eq_countP {α : Type} (p : α → Prop) [DecidablePred p]
    (L : List α) :
    (L.map fun a => if p a then 1 else 0).sum =
      L.countP fun a => decide (p a) := by
  induction L with
  | nil => rfl
  | cons a t ih =>
    rw [List.map_cons, List.sum_cons, List.countP_cons, ih]
    by_cases h : p a
    · simp [h]
      omega
    · simp [h]

theorem countP_eq_one_of_unique {α : Type} [DecidableEq α] (L : List α)
    (p : α → Bool) (hnd : L.Nodup) (a0 : α) (ha : a0 ∈ L) (hp : p a0 = true)
    (huniq : ∀ a ∈ L, p a = true → a = a0) : L.countP p = 1 := by
  have hcongr : L.countP p = L.countP fun a => a == a0 := by
    refine List.countP_congr ?_
    intro x hx
    constructor
    · intro h
      exact beq_iff_eq.mpr (huniq x hx h)
    · intro h
      rw [beq_iff_eq.mp h]
      exact hp
  rw [hcongr]
  exact List.count_eq_one_of_mem hnd ha

theorem tile_writes_count (c : AlignedRenderConfig) (t : Nat × Nat) (o : Nat) :
    ((List.range c.t0).flatMap fun j =>
      (List.range c.t0).filterMap fun i =>
        if j + t.2 < c.orig_image_size ∧ i + t.1 < c.orig_image_size then
          some ((c.orig_image_size - (j + t.2) - 1) * c.orig_image_size +
            (i + t.1))
        else none).count o = if tileCovers c t o then 1 else 0 := by
  have hflat : ((List.range c.t0).flatMap fun j =>
      (List.range c.t0).filterMap fun i =>
        if j + t.2 < c.orig_image_size ∧ i + t.1 < c.orig_image_size then
          some ((c.orig_image_size - (j + t.2) - 1) * c.orig_image_size +
            (i + t.1))
        else none) =
      (((List.range c.t0).flatMap fun j =>
        (List.range c.t0).map fun i => (j, i)).filterMap fun p =>
          if p.1 + t.2 < c.orig_image_size ∧ p.2 + t.1 < c.orig_image_size then
            some ((c.orig_image_size - (p.1 + t.2) - 1) * c.orig_image_size +
              (p.2 + t.1))
          else none) := by
    rw [List.filterMap_flatMap]
    congr 1
    funext j
    rw [List.filterMap_map]
    rfl
  rw [hflat, count_filterMap_nat]
  have hhit : ∀ p : Nat × Nat,
      ((if p.1 + t.2 < c.orig_image_size ∧ p.2 + t.1 < c.orig_image_size then
          some ((c.orig_image_size - (p.1 + t.2) - 1) * c.orig_image_size +
            (p.2 + t.1))
        else none) == some o) = true ↔
      (p.1 + t.2 < c.orig_image_size ∧ p.2 + t.1 < c.orig_image_size) ∧
        o = (c.orig_image_size - (p.1 + t.2) - 1) * c.orig_image_size +
          (p.2 + t.1) := by
    intro p
    by_cases hb : p.1 + t.2 < c.orig_image_size ∧ p.2 + t.1 < c.orig_image_size
    · rw [if_pos hb]
      constructor
      · intro h
        exact ⟨hb, (Option.some.inj (beq_iff_eq.mp h)).symm⟩
      · intro h
        exact beq_iff_eq.mpr (congrArg some h.2.symm)
    · rw [if_neg hb]
      constructor
      · intro h
        simp at h
      · intro h
        exact absurd h.1 hb
  by_cases hcov : tileCovers c t o
  · rw [if_pos hcov]
    obtain ⟨ho2, hc1, hc2, hc3, hc4⟩ := hcov
    have horig : 0 < c.orig_image_size := by
      rcases Nat.eq_zero_or_pos c.orig_image_size with h | h
      · rw [h] at ho2; simp at ho2
      · exact h
    have hox : o % c.orig_image_size < c.orig_image_size := Nat.mod_lt _ horig
    have hdiv : o / c.orig_image_size < c.orig_image_size := by
      rw [Nat.div_lt_iff_lt_mul horig, ← pow_two]
      exact ho2
    have hsum : c.orig_image_size * (o / c.orig_image_size) +
        o % c.orig_image_size = o := Nat.div_add_mod o _
    generalize hdv : o / c.orig_image_size = dv at hc3 hc4 hdiv hsum
    generalize hmv : o % c.orig_image_size = mv at hc1 hc2 hox hsum
    refine countP_eq_one_of_unique _ _ (nodup_grid c.t0 c.t0)
      (c.orig_image_size - 1 - dv - t.2, mv - t.1) ?_ ?_ ?_
    · rw [List.mem_flatMap]
      exact ⟨_, List.mem_range.mpr (by omega), List.mem_map.mpr
        ⟨_, List.mem_range.mpr (by omega), rfl⟩⟩
    · rw [hhit]
      simp only []
      have he1 : c.orig_image_size - 1 - dv - t.2 + t.2 =
          c.orig_image_size - 1 - dv := by omega
      have he2 : mv - t.1 + t.1 = mv := by omega
      rw [he1, he2]
      refine ⟨⟨by omega, by omega⟩, ?_⟩
      have he3 : c.orig_image_size - (c.orig_image_size - 1 - dv) - 1 = dv := by
        omega
      rw [he3, Nat.mul_comm]
      omega
    · intro p hp hph
      rw [hhit] at hph
      obtain ⟨⟨hy, hx⟩, henc⟩ := hph
      have hpx : mv = p.2 + t.1 := by
        rw [← hmv, henc]; exact enc_mod _ _ _ hx
      have hpy : dv = c.orig_image_size - (p.1 + t.2) - 1 := by
        rw [← hdv, henc]; exact enc_div _ _ _ hx
      rw [Prod.ext_iff]
      constructor
      · simp only []; omega
      · simp only []; omega
  · rw [if_neg hcov]
    rw [List.countP_eq_zero]
    intro p hp hph
    rw [hhit] at hph
    obtain ⟨⟨hy, hx⟩, henc⟩ := hph
    rw [List.mem_flatMap] at hp
    obtain ⟨j, hj, hpm⟩ := hp
    rw [List.mem_map] at hpm
    obtain ⟨i, hi, rfl⟩ := hpm
    rw [List.mem_range] at hj hi
    apply hcov
    have hpx : o % c.orig_image_size = i + t.1 := by
      rw [henc]; exact enc_mod _ _ _ hx
    have hpy : o / c.orig_image_size = c.orig_image_size - (j + t.2) - 1 := by
      rw [henc]; exact enc_div _ _ _ hx
    refine ⟨by rw [henc]; exact enc_lt _ _ _ hx, ?_, ?_, ?_, ?_⟩ <;> omega

/-- C3: in the splat of `render`, every output pixel is written exactly
once: the top-level tiles partition the image plane, each in-range pixel
position lies in exactly one tile's pixel block, and every write event
targets an in-range position. -/
theorem claim_C3_each_pixel_once (config : RenderConfig)
    (hpos : 0 < config.tile_sizes.headD 0) :
    (∀ o < config.image_size ^ 2,
      (splatWrites (config.align)).count o = 1) ∧
    (∀ o ∈ splatWrites (config.align), o < config.image_size ^ 2) := by
  obtain ⟨hT0, hdvd, hle⟩ := render_align_facts config hpos
  have horig : (config.align).orig_image_size = config.image_size := rfl
  constructor
  · intro o ho
    unfold splatWrites
    rw [List.count_flatMap]
    have hmap : List.map
        (List.count o ∘ fun t => (List.range (config.align).t0).flatMap fun j =>
          (List.range (config.align).t0).filterMap fun i =>
            if j + t.2 < (config.align).orig_image_size ∧
               i + t.1 < (config.align).orig_image_size then
              some (((config.align).orig_image_size - (j + t.2) - 1) *
                (config.align).orig_image_size + (i + t.1))
            else none)
        (config.align).topTiles =
        List.map (fun t => if tileCovers (config.align) t o then 1 else 0)
          (config.align).topTiles := by
      refine List.map_congr_left ?_
      intro t _
      exact tile_writes_count (config.align) t o
    rw [hmap, sum_indicator_eq_countP]
    obtain ⟨tstar, htmem, hcov⟩ := covers_exists (config.align) hT0 hdvd hle
      (by rw [horig]; exact ho)
    refine countP_eq_one_of_unique _ _ (nodup_topTiles _ hT0) tstar htmem
      (decide_eq_true hcov) ?_
    intro t ht hcovt
    exact covers_unique (config.align) hT0 ht htmem (of_decide_eq_true hcovt) hcov
  · intro o hmem
    unfold splatWrites at hmem
    rw [List.mem_flatMap] at hmem
    obtain ⟨t, _, hmem⟩ := hmem
    rw [List.mem_flatMap] at hmem
    obtain ⟨j, _, hmem⟩ := hmem
    rw [List.mem_filterMap] at hmem
    obtain ⟨i, _, hsome⟩ := hmem
    by_cases hb : j + t.2 < (config.align).orig_image_size ∧
        i + t.1 < (config.align).orig_image_size
    · rw [if_pos hb] at hsome
      rw [← Option.some.inj hsome]
      exact enc_lt _ _ _ hb.2
    · rw [if_neg hb] at hsome
      exact Option.noConfusion hsome

/-- C3 witness: in the 4-pixel-wide example configuration, output pixel 5
is written exactly once. -/
theorem claim_C3_witness :
    0 < exConfig.tile_sizes.headD 0 ∧ (5 : Nat) < exConfig.image_size ^ 2 ∧
    (splatWrites (exConfig.align)).count 5 = 1 :=
  ⟨by decide, by decide,
    (claim_C3_each_pixel_once exConfig (by decide)).1 5 (by decide)⟩

/-! ### LRU queue facts -/

theorem getLastD_mem {t : List Nat} (q : Nat) (h : t ≠ []) :
    t.getLastD q ∈ t := by
  rw [List.getLastD_eq_getLast?, List.getLast?_eq_getLast t h,
    Option.getD_some]
  exact List.getLast_mem h

theorem lru_poke_perm (l : Lru) (R r : Nat) (h : l.order.Perm (List.range R))
    (hr : r < R) : (l.poke r).order.Perm (List.range R) := by
  have hmem : r ∈ l.order := h.mem_iff.mpr (List.mem_range.mpr hr)
  exact (List.perm_cons_erase hmem).symm.trans h

theorem lru_poke_head (l : Lru) (r : Nat) :
    (l.poke r).order.head? = some r := rfl

theorem lru_pop_lt (l : Lru) (R : Nat) (h : l.order.Perm (List.range R))
    (hR : 0 < R) : (l.pop).1 < R := by
  have hne : l.order ≠ [] := by
    intro hnil
    have := h.length_eq
    rw [hnil, List.length_nil, List.length_range] at this
    omega
  have hmem : l.order.getLastD 0 ∈ l.order := getLastD_mem 0 hne
  have := h.mem_iff.mp hmem
  rw [List.mem_range] at this
  exact this

theorem lru_pop_perm (l : Lru) (R : Nat) (h : l.order.Perm (List.range R))
    (hR : 0 < R) : (l.pop).2.order.Perm (List.range R) :=
  lru_poke_perm l R _ h (lru_pop_lt l R h hR)

theorem lru_pop_ne_head (l : Lru) (R : Nat) (h : l.order.Perm (List.range R))
    (hR : 2 ≤ R) {q : Nat} (hq : l.order.head? = some q) : (l.pop).1 ≠ q := by
  cases horder : l.order with
  | nil => rw [horder] at hq; exact Option.noConfusion hq
  | cons a t =>
    rw [horder] at hq
    have ha : a = q := Option.some.inj hq
    have hlen : t.length + 1 = R := by
      have := h.length_eq
      rw [horder, List.length_cons, List.length_range] at this
      exact this
    have htne : t ≠ [] := by
      intro hnil
      rw [hnil, List.length_nil] at hlen
      omega
    have hnd : (a :: t).Nodup := by
      rw [← horder]
      exact h.nodup_iff.mpr (List.nodup_range R)
    have hmem : t.getLastD a ∈ t := getLastD_mem a htne
    have hne : t.getLastD a ≠ a := by
      intro heq
      exact (List.nodup_cons.mp hnd).1 (heq ▸ hmem)
    show (l.order.getLastD 0) ≠ q
    rw [horder, List.getLastD_cons]
    rw [← ha]
    exact hne

/-! ### Primitive allocator operations: success equations -/

namespace RegisterAllocator

theorem UMAX_eq : UMAX = 4294967295 := rfl

theorem bind_register_eq (s : RegisterAllocator) (n reg : Nat)
    (h1 : s.reg_limit ≤ s.allocations n) (h2 : s.registers reg = UMAX) :
    s.bind_register n reg = some { s with
      registers := upd s.registers reg n
      allocations := upd s.allocations n reg
      register_lru := s.register_lru.poke reg } := by
  unfold bind_register
  rw [if_pos ⟨h1, h2⟩]

theorem rebind_register_eq (s : RegisterAllocator) (n reg : Nat)
    (h1 : s.reg_limit ≤ s.allocations n) (h2 : s.registers reg ≠ UMAX) :
    s.rebind_register n reg = some { s with
      registers := upd s.registers reg n
      allocations := upd (upd s.allocations (s.registers reg) UMAX) n reg
      register_lru := s.register_lru.poke reg } := by
  unfold rebind_register
  rw [if_pos ⟨h1, h2⟩]

theorem release_reg_eq (s : RegisterAllocator) (reg : Nat)
    (h1 : reg < s.reg_limit) (h2 : s.registers reg ≠ UMAX) :
    s.release_reg reg = some { s with
      registers := upd s.registers reg UMAX
      spare_registers := reg :: s.spare_registers
      allocations := upd s.allocations (s.registers reg) UMAX } := by
  unfold release_reg
  rw [if_pos ⟨h1, h2⟩]

theorem push_store_eq (s : RegisterAllocator) (reg mem : Nat)
    (h : s.reg_limit ≤ mem) :
    s.push_store reg mem = some { s with
      out := s.out.push (Vm.Op.Store reg mem)
      spare_memory := mem :: s.spare_memory } := by
  unfold push_store release_mem
  rw [if_pos h]

theorem get_allocation_eq_register (s : RegisterAllocator) (n : Nat)
    (h : s.allocations n < s.reg_limit) :
    s.get_allocation n = (Allocation.Register (s.allocations n),
      { s with register_lru := s.register_lru.poke (s.allocations n) }) := by
  unfold get_allocation
  rw [if_pos h]

theorem get_allocation_eq_unassigned (s : RegisterAllocator) (n : Nat)
    (h1 : ¬ s.allocations n < s.reg_limit) (h2 : s.allocations n = UMAX) :
    s.get_allocation n = (Allocation.Unassigned, s) := by
  unfold get_allocation
  rw [if_neg h1, if_pos h2]

theorem get_allocation_eq_memory (s : RegisterAllocator) (n : Nat)
    (h1 : ¬ s.allocations n < s.reg_limit) (h2 : s.allocations n ≠ UMAX) :
    s.get_allocation n = (Allocation.Memory (s.allocations n), s) := by
  unfold get_allocation
  rw [if_neg h1, if_neg h2]

end RegisterAllocator

/-! ### Machine-invariant preservation for the primitives -/

theorem spareok_except_of_spareok {R : Nat} {s : RegisterAllocator} (x : Nat)
    (h : SpareOk R s) : SpareOkExcept R x s :=
  fun r _ h1 h2 h3 => h r h1 h2 h3

theorem lt_umax_of_le_255 {x R : Nat} (h1 : x < R) (h2 : R ≤ 255) : x < UMAX := by
  rw [RegisterAllocator.UMAX_eq]
  omega

theorem machinv_bind {R : Nat} {s : RegisterAllocator} {n reg : Nat}
    (h : MachInv R s) (hR255 : R ≤ 255)
    (hn : R ≤ s.allocations n) (hreg : s.registers reg = UMAX)
    (hregR : reg < R) (hhand : reg < s.out.slot_count)
    (hnsp : reg ∉ s.spare_registers) (hnn : n ≠ UMAX) :
    MachInv R { s with
      registers := upd s.registers reg n
      allocations := upd s.allocations n reg
      register_lru := s.register_lru.poke reg } := by
  obtain ⟨hrl, horl, hlru, hri1, hri2, halt, hmi, hsr, hsrn, hsm, hsmn, hrh,
    hru, hsp, hum⟩ := h
  have hregU : reg ≠ UMAX := Nat.ne_of_lt (lt_umax_of_le_255 hregR hR255)
  refine ⟨hrl, horl, lru_poke_perm _ R reg hlru hregR, ?_, ?_, ?_, ?_, ?_,
    hsrn, ?_, hsmn, ?_, ?_, hsp, ?_⟩
  · dsimp only
    intro m hm
    by_cases hmn : m = n
    · subst hmn
      rw [upd_same] at hm ⊢
      rw [upd_same]
    · rw [upd_ne _ _ hmn] at hm ⊢
      have hold := hri1 m hm
      have hne : s.allocations m ≠ reg := by
        intro he
        rw [he] at hold
        rw [hold] at hreg
        rw [hreg] at hm
        have : s.allocations UMAX = UMAX := hum
        rw [this] at hm
        have : R ≤ 255 := hR255
        rw [RegisterAllocator.UMAX_eq] at hm
        omega
      rw [upd_ne _ _ hne]
      exact hold
  · dsimp only
    intro r hr
    by_cases hrr : r = reg
    · subst hrr
      rw [upd_same] at hr ⊢
      rw [upd_same]
    · rw [upd_ne _ _ hrr] at hr ⊢
      have hold := hri2 r hr
      have hne : s.registers r ≠ n := by
        intro he
        rw [he] at hold
        have hRr : R ≤ r := by omega
        exact hr (hrh r hRr)
      rw [upd_ne _ _ hne]
      exact hold
  · dsimp only
    intro m hm
    by_cases hmn : m = n
    · subst hmn
      rw [upd_same]
      exact hhand
    · rw [upd_ne _ _ hmn] at hm ⊢
      exact halt m hm
  · dsimp only
    intro n1 n2 h1 h2 h3
    by_cases h1n : n1 = n
    · subst h1n
      rw [upd_same] at h2
      omega
    · rw [upd_ne _ _ h1n] at h1 h2 h3
      by_cases h2n : n2 = n
      · subst h2n
        rw [upd_same] at h3
        omega
      · rw [upd_ne _ _ h2n] at h3
        exact hmi n1 n2 h1 h2 h3
  · dsimp only
    intro r hrmem
    obtain ⟨hr1, hr2⟩ := hsr r hrmem
    have hne : r ≠ reg := fun he => hnsp (he ▸ hrmem)
    rw [upd_ne _ _ hne]
    exact ⟨hr1, hr2⟩
  · dsimp only
    intro m hmmem
    obtain ⟨hm1, hm2, hm3⟩ := hsm m hmmem
    refine ⟨hm1, hm2, ?_⟩
    intro n1
    by_cases h1n : n1 = n
    · subst h1n
      rw [upd_same]
      omega
    · rw [upd_ne _ _ h1n]
      exact hm3 n1
  · dsimp only
    intro r hr
    have hne : r ≠ reg := by omega
    rw [upd_ne _ _ hne]
    exact hrh r hr
  · dsimp only
    intro r hr
    have hne : r ≠ reg := by omega
    rw [upd_ne _ _ hne]
    exact ⟨(hru r hr).1, (hru r hr).2⟩
  · dsimp only
    rw [upd_ne _ _ (fun he => hnn he.symm)]
    exact hum

theorem machinv_rebind {R : Nat} {s : RegisterAllocator} {n reg : Nat}
    (h : MachInv R s) (hR255 : R ≤ 255) (hsafe : s.out.slot_count ≤ UMAX)
    (hn : R ≤ s.allocations n) (hbound : s.registers reg ≠ UMAX)
    (hnn : n ≠ UMAX) :
    MachInv R { s with
      registers := upd s.registers reg n
      allocations := upd (upd s.allocations (s.registers reg) UMAX) n reg
      register_lru := s.register_lru.poke reg } := by
  obtain ⟨hrl, horl, hlru, hri1, hri2, halt, hmi, hsr, hsrn, hsm, hsmn, hrh,
    hru, hsp, hum⟩ := h
  have hRU : R < UMAX := by rw [RegisterAllocator.UMAX_eq]; omega
  have hregR : reg < R := by
    by_contra hge
    exact hbound (hrh reg (by omega))
  have hhand : reg < s.out.slot_count := by
    by_contra hge
    exact hbound (hru reg (by omega)).1
  set p := s.registers reg with hp
  have halp : s.allocations p = reg := hri2 reg hbound
  have hpU : p ≠ UMAX := hbound
  have hpn : p ≠ n := by
    intro he
    rw [he] at halp
    rw [halp] at hn
    omega
  refine ⟨hrl, horl, lru_poke_perm _ R reg hlru hregR, ?_, ?_, ?_, ?_, ?_,
    hsrn, ?_, hsmn, ?_, ?_, hsp, ?_⟩
  · dsimp only
    intro m hm
    by_cases hmn : m = n
    · subst hmn
      rw [upd_same] at hm ⊢
      rw [upd_same]
    · rw [upd_ne _ _ hmn] at hm ⊢
      by_cases hmp : m = p
      · subst hmp
        rw [upd_same] at hm
        omega
      · rw [upd_ne _ _ hmp] at hm ⊢
        have hold := hri1 m hm
        have hne : s.allocations m ≠ reg := by
          intro he
          rw [he] at hold
          exact hmp (by rw [hp, hold])
        rw [upd_ne _ _ hne]
        exact hold
  · dsimp only
    intro r hr
    by_cases hrr : r = reg
    · subst hrr
      rw [upd_same] at hr ⊢
      rw [upd_same]
    · rw [upd_ne _ _ hrr] at hr ⊢
      have hold := hri2 r hr
      have hne1 : s.registers r ≠ n := by
        intro he
        rw [he] at hold
        have hRr : R ≤ r := by omega
        exact hr (hrh r hRr)
      have hne2 : s.registers r ≠ p := by
        intro he
        rw [he, halp] at hold
        exact hrr hold.symm
      rw [upd_ne _ _ hne1, upd_ne _ _ hne2]
      exact hold
  · dsimp only
    intro m hm
    by_cases hmn : m = n
    · subst hmn
      rw [upd_same]
      exact hhand
    · rw [upd_ne _ _ hmn] at hm ⊢
      by_cases hmp : m = p
      · subst hmp
        rw [upd_same] at hm
        exact absurd rfl hm
      · rw [upd_ne _ _ hmp] at hm ⊢
        exact halt m hm
  · dsimp only
    intro n1 n2 h1 h2 h3
    by_cases h1n : n1 = n
    · subst h1n
      rw [upd_same] at h2
      omega
    · rw [upd_ne _ _ h1n] at h1 h2 h3
      by_cases h1p : n1 = p
      · subst h1p
        rw [upd_same] at h1
        exact absurd rfl h1
      · rw [upd_ne _ _ h1p] at h1 h2 h3
        by_cases h2n : n2 = n
        · subst h2n
          rw [upd_same] at h3
          omega
        · rw [upd_ne _ _ h2n] at h3
          by_cases h2p : n2 = p
          · subst h2p
            rw [upd_same] at h3
            rw [h3] at h1
            exact absurd rfl h1
          · rw [upd_ne _ _ h2p] at h3
            exact hmi n1 n2 h1 h2 h3
  · dsimp only
    intro r hrmem
    obtain ⟨hr1, hr2⟩ := hsr r hrmem
    have hne : r ≠ reg := by
      intro he
      rw [he] at hr2
      exact hbound hr2
    rw [upd_ne _ _ hne]
    exact ⟨hr1, hr2⟩
  · dsimp only
    intro m hmmem
    obtain ⟨hm1, hm2, hm3⟩ := hsm m hmmem
    refine ⟨hm1, hm2, ?_⟩
    intro n1
    by_cases h1n : n1 = n
    · subst h1n
      rw [upd_same]
      omega
    · rw [upd_ne _ _ h1n]
      by_cases h1p : n1 = p
      · subst h1p
        rw [upd_same]
        omega
      · rw [upd_ne _ _ h1p]
        exact hm3 n1
  · dsimp only
    intro r hr
    have hne : r ≠ reg := by omega
    rw [upd_ne _ _ hne]
    exact hrh r hr
  · dsimp only
    intro r hr
    have hne : r ≠ reg := by omega
    rw [upd_ne _ _ hne]
    exact ⟨(hru r hr).1, (hru r hr).2⟩
  · dsimp only
    rw [upd_ne _ _ (fun he => hnn he.symm), upd_ne _ _ (fun he => hpU he.symm)]
    exact hum

theorem machinv_release_reg {R : Nat} {s : RegisterAllocator} {reg : Nat}
    (h : MachInv R s) (hR255 : R ≤ 255) (hsafe : s.out.slot_count ≤ UMAX)
    (hregR : reg < R) (hbound : s.registers reg ≠ UMAX) :
    MachInv R { s with
      registers := upd s.registers reg UMAX
      spare_registers := reg :: s.spare_registers
      allocations := upd s.allocations (s.registers reg) UMAX } := by
  obtain ⟨hrl, horl, hlru, hri1, hri2, halt, hmi, hsr, hsrn, hsm, hsmn, hrh,
    hru, hsp, hum⟩ := h
  have hRU : R < UMAX := by rw [RegisterAllocator.UMAX_eq]; omega
  set p := s.registers reg with hp
  have halp : s.allocations p = reg := hri2 reg hbound
  have hpU : p ≠ UMAX := hbound
  have hhand : reg < s.out.slot_count := by
    by_contra hge
    exact hbound (hru reg (by omega)).1
  have hnsp : reg ∉ s.spare_registers := by
    intro hmem
    exact hbound (hsr reg hmem).2
  refine ⟨hrl, horl, hlru, ?_, ?_, ?_, ?_, ?_, ?_, ?_, hsmn, ?_, ?_, hsp, ?_⟩
  · dsimp only
    intro m hm
    by_cases hmp : m = p
    · subst hmp
      rw [upd_same] at hm
      omega
    · rw [upd_ne _ _ hmp] at hm ⊢
      have hold := hri1 m hm
      have hne : s.allocations m ≠ reg := by
        intro he
        rw [he] at hold
        exact hmp (by rw [hp, hold])
      rw [upd_ne _ _ hne]
      exact hold
  · dsimp only
    intro r hr
    by_cases hrr : r = reg
    · subst hrr
      rw [upd_same] at hr
      exact absurd rfl hr
    · rw [upd_ne _ _ hrr] at hr ⊢
      have hold := hri2 r hr
      have hne : s.registers r ≠ p := by
        intro he
        rw [he, halp] at hold
        exact hrr hold.symm
      rw [upd_ne _ _ hne]
      exact hold
  · dsimp only
    intro m hm
    by_cases hmp : m = p
    · subst hmp
      rw [upd_same] at hm
      exact absurd rfl hm
    · rw [upd_ne _ _ hmp] at hm ⊢
      exact halt m hm
  · dsimp only
    intro n1 n2 h1 h2 h3
    by_cases h1p : n1 = p
    · subst h1p
      rw [upd_same] at h1
      exact absurd rfl h1
    · rw [upd_ne _ _ h1p] at h1 h2 h3
      by_cases h2p : n2 = p
      · subst h2p
        rw [upd_same] at h3
        rw [h3] at h1
        exact absurd rfl h1
      · rw [upd_ne _ _ h2p] at h3
        exact hmi n1 n2 h1 h2 h3
  · dsimp only
    intro r hrmem
    rcases List.mem_cons.mp hrmem with he | hmem
    · subst he
      rw [upd_same]
      exact ⟨hregR, rfl⟩
    · obtain ⟨hr1, hr2⟩ := hsr r hmem
      have hne : r ≠ reg := by
        intro he
        rw [he] at hr2
        exact hbound hr2
      rw [upd_ne _ _ hne]
      exact ⟨hr1, hr2⟩
  · dsimp only
    exact List.nodup_cons.mpr ⟨hnsp, hsrn⟩
  · dsimp only
    intro m hmmem
    obtain ⟨hm1, hm2, hm3⟩ := hsm m hmmem
    refine ⟨hm1, hm2, ?_⟩
    intro n1
    by_cases h1p : n1 = p
    · subst h1p
      rw [upd_same]
      omega
    · rw [upd_ne _ _ h1p]
      exact hm3 n1
  · dsimp only
    intro r hr
    by_cases hrr : r = reg
    · subst hrr
      rw [upd_same]
    · rw [upd_ne _ _ hrr]
      exact hrh r hr
  · dsimp only
    intro r hr
    have hne : r ≠ reg := by omega
    rw [upd_ne _ _ hne]
    refine ⟨(hru r hr).1, ?_⟩
    intro hmem
    rcases List.mem_cons.mp hmem with he | hmem2
    · exact hne he
    · exact (hru r hr).2 hmem2
  · dsimp only
    rw [upd_ne _ _ (fun he => hpU he.symm)]
    exact hum

theorem machinv_push_store {R : Nat} {s : RegisterAllocator} {reg mem : Nat}
    (h : MachInv R s)
    (hm1 : R ≤ mem) (hm2 : mem < s.out.slot_count)
    (hm3 : ∀ n, s.allocations n ≠ mem) (hm4 : mem ∉ s.spare_memory) :
    MachInv R { s with
      out := s.out.push (Vm.Op.Store reg mem)
      spare_memory := mem :: s.spare_memory } := by
  obtain ⟨hrl, horl, hlru, hri1, hri2, halt, hmi, hsr, hsrn, hsm, hsmn, hrh,
    hru, hsp, hum⟩ := h
  refine ⟨hrl, horl, hlru, hri1, hri2, halt, hmi, hsr, hsrn, ?_, ?_, hrh, hru,
    hsp, hum⟩
  · dsimp only [Vm.Tape.push]
    intro m hmmem
    rcases List.mem_cons.mp hmmem with he | hmem2
    · subst he
      exact ⟨hm1, hm2, hm3⟩
    · exact hsm m hmem2
  · dsimp only
    exact List.nodup_cons.mpr ⟨hm4, hsmn⟩

theorem get_memory_spec {R : Nat} {s : RegisterAllocator} (h : MachInv R s)
    (hsc : R ≤ s.out.slot_count) (hsafe : s.out.slot_count < UMAX) :
    ∃ m s', s.get_memory = some (m, s') ∧
      R ≤ m ∧ m < s'.out.slot_count ∧ m ≠ UMAX ∧
      (∀ n, s.allocations n ≠ m) ∧ m ∉ s'.spare_memory ∧
      s'.allocations = s.allocations ∧ s'.registers = s.registers ∧
      s'.register_lru = s.register_lru ∧ s'.reg_limit = s.reg_limit ∧
      s'.spare_registers = s.spare_registers ∧
      s'.out.tape = s.out.tape ∧
      s.out.slot_count ≤ s'.out.slot_count ∧
      s'.out.slot_count ≤ s.out.slot_count + 1 ∧
      MachInv R s' := by
  obtain ⟨hrl, horl, hlru, hri1, hri2, halt, hmi, hsr, hsrn, hsm, hsmn, hrh,
    hru, hsp, hum⟩ := h
  cases hspm : s.spare_memory with
  | cons p rest =>
    obtain ⟨hm1, hm2, hm3⟩ := hsm p (by rw [hspm]; exact List.mem_cons_self _ _)
    have hpU : p ≠ UMAX := by omega
    have hpnotin : p ∉ rest := by
      have := hsmn
      rw [hspm] at this
      exact (List.nodup_cons.mp this).1
    refine ⟨p, { s with spare_memory := rest }, ?_, hm1, hm2, hpU, hm3,
      hpnotin, rfl, rfl, rfl, rfl, rfl, rfl, Nat.le_refl _,
      by dsimp only; omega, ?_⟩
    · simp only [RegisterAllocator.get_memory, hspm]
    · refine ⟨hrl, horl, hlru, hri1, hri2, halt, hmi, hsr, hsrn, ?_, ?_, hrh,
        hru, hsp, hum⟩
      · dsimp only
        intro m hmmem
        exact hsm m (by rw [hspm]; exact List.mem_cons_of_mem _ hmmem)
      · dsimp only
        have := hsmn
        rw [hspm] at this
        exact (List.nodup_cons.mp this).2
  | nil =>
    have hcond : s.out.reg_limit ≤ s.out.slot_count := by rw [horl]; exact hsc
    refine ⟨s.out.slot_count,
      { s with out := { s.out with slot_count := s.out.slot_count + 1 } },
      ?_, hsc, by dsimp only; omega, by omega, ?_, ?_, rfl, rfl, rfl, rfl,
      rfl, rfl, by dsimp only; omega, by dsimp only; omega, ?_⟩
    · simp only [RegisterAllocator.get_memory, hspm]
      rw [if_pos hcond]
    · intro n
      by_cases hb : s.allocations n = UMAX
      · rw [hb]
        omega
      · have := halt n hb
        omega
    · rw [hspm]
      exact List.not_mem_nil _
    · refine ⟨hrl, horl, hlru, hri1, hri2, ?_, hmi, hsr, hsrn, ?_, hsmn, hrh,
        ?_, by dsimp only; omega, hum⟩
      · dsimp only
        intro n hn
        have := halt n hn
        omega
      · dsimp only
        intro m hmmem
        obtain ⟨h1, h2, h3⟩ := hsm m hmmem
        exact ⟨h1, by omega, h3⟩
      · dsimp only
        intro r hr
        exact hru r (by omega)

theorem get_spare_register_spec {R : Nat} {s : RegisterAllocator}
    (h : MachInv R s) (hval : ValidRegLimit R) :
    (∃ r s', s.get_spare_register = some (some r, s') ∧
      r < R ∧ s'.registers r = UMAX ∧ r ∉ s'.spare_registers ∧
      r < s'.out.slot_count ∧
      s'.allocations = s.allocations ∧ s'.registers = s.registers ∧
      s'.register_lru = s.register_lru ∧ s'.reg_limit = s.reg_limit ∧
      s'.spare_memory = s.spare_memory ∧ s'.out.tape = s.out.tape ∧
      s.out.slot_count ≤ s'.out.slot_count ∧
      s'.out.slot_count ≤ s.out.slot_count + 1 ∧
      MachInv R s' ∧ (SpareOk R s → SpareOkExcept R r s')) ∨
    (s.get_spare_register = some (none, s) ∧ s.spare_registers = [] ∧
      R ≤ s.out.slot_count) := by
  obtain ⟨hrl, horl, hlru, hri1, hri2, halt, hmi, hsr, hsrn, hsm, hsmn, hrh,
    hru, hsp, hum⟩ := h
  cases hspr : s.spare_registers with
  | cons r rest =>
    left
    obtain ⟨hr1, hr2⟩ := hsr r (by rw [hspr]; exact List.mem_cons_self _ _)
    have hrnotin : r ∉ rest := by
      have := hsrn
      rw [hspr] at this
      exact (List.nodup_cons.mp this).1
    have hrhand : r < s.out.slot_count := by
      by_contra hge
      exact (hru r (by omega)).2 (by rw [hspr]; exact List.mem_cons_self _ _)
    refine ⟨r, { s with spare_registers := rest }, ?_, hr1, hr2, hrnotin,
      hrhand, rfl, rfl, rfl, rfl, rfl, rfl, Nat.le_refl _,
      by dsimp only; omega, ?_, ?_⟩
    · simp only [RegisterAllocator.get_spare_register, hspr]
    · refine ⟨hrl, horl, hlru, hri1, hri2, halt, hmi, ?_, ?_, hsm, hsmn, hrh,
        ?_, hsp, hum⟩
      · dsimp only
        intro r' hmem
        exact hsr r' (by rw [hspr]; exact List.mem_cons_of_mem _ hmem)
      · dsimp only
        have := hsrn
        rw [hspr] at this
        exact (List.nodup_cons.mp this).2
      · dsimp only
        intro r' hr'
        refine ⟨(hru r' hr').1, ?_⟩
        intro hmem
        exact (hru r' hr').2 (by rw [hspr]; exact List.mem_cons_of_mem _ hmem)
    · intro hso r' hne h1 h2 h3
      dsimp only at h2 ⊢
      have := hso r' h1 h2 h3
      rw [hspr] at this
      rcases List.mem_cons.mp this with he | hmem
      · exact absurd he hne
      · exact hmem
  | nil =>
    by_cases hlt : s.out.slot_count < s.reg_limit
    · left
      have hltR : s.out.slot_count < R := by rw [hrl] at hlt; exact hlt
      have hregU : s.registers s.out.slot_count = UMAX :=
        (hru s.out.slot_count (Nat.le_refl _)).1
      have hlt256 : s.out.slot_count < 256 := by
        have := hval.2
        omega
      refine ⟨s.out.slot_count,
        { s with out := { s.out with slot_count := s.out.slot_count + 1 } },
        ?_, hltR, hregU, ?_, by dsimp only; omega, rfl, rfl, rfl, rfl, rfl,
        rfl, by dsimp only; omega, by dsimp only; omega, ?_, ?_⟩
      · simp only [RegisterAllocator.get_spare_register, hspr]
        rw [if_pos hlt, if_pos ⟨hregU, hlt256⟩]
      · dsimp only
        rw [hspr]
        exact List.not_mem_nil _
      · refine ⟨hrl, horl, hlru, hri1, hri2, ?_, hmi, hsr, hsrn, ?_, hsmn,
          hrh, ?_, by dsimp only; omega, hum⟩
        · dsimp only
          intro n hn
          have := halt n hn
          omega
        · dsimp only
          intro m hmmem
          obtain ⟨h1, h2, h3⟩ := hsm m hmmem
          exact ⟨h1, by omega, h3⟩
        · dsimp only
          intro r' hr'
          exact hru r' (by omega)
      · intro hso r' hne h1 h2 h3
        dsimp only at h2 h3 ⊢
        have hr'lt : r' < s.out.slot_count := by omega
        exact hso r' h1 hr'lt h3
    · right
      have hge : s.reg_limit ≤ s.out.slot_count := by omega
      refine ⟨?_, hspr ▸ rfl, by rw [← hrl]; exact hge⟩
      simp only [RegisterAllocator.get_spare_register, hspr]
      rw [if_neg hlt]

theorem get_register_spec {R : Nat} {s : RegisterAllocator}
    (h : MachInv R s) (hso : SpareOk R s) (hval : ValidRegLimit R)
    (hsafe : s.out.slot_count < UMAX) :
    ∃ r s', s.get_register = some (r, s') ∧
      r < R ∧ s'.registers r = UMAX ∧ r ∉ s'.spare_registers ∧
      r < s'.out.slot_count ∧
      MachInv R s' ∧ SpareOkExcept R r s' ∧
      s'.reg_limit = s.reg_limit ∧
      s.out.slot_count ≤ s'.out.slot_count ∧
      s'.out.slot_count ≤ s.out.slot_count + 1 ∧
      s'.register_lru.order.head? = some r ∧
      (∀ q, s.register_lru.order.head? = some q → s.registers q ≠ UMAX →
        r ≠ q) ∧
      (∀ q, q ≠ r → s'.registers q = s.registers q) ∧
      (∀ n, s'.allocations n ≠ UMAX ↔ s.allocations n ≠ UMAX) ∧
      ((s'.allocations = s.allocations ∧ s'.out.tape = s.out.tape) ∨
       (∃ p m, s.registers r = p ∧ p ≠ UMAX ∧ s.allocations p = r ∧
         R ≤ m ∧ m < s'.out.slot_count ∧ (∀ n, s.allocations n ≠ m) ∧
         m ≠ UMAX ∧ s'.allocations = upd s.allocations p m ∧
         s'.out.tape = s.out.tape ++ [Vm.Op.Load r m])) := by
  rcases get_spare_register_spec h hval with
    ⟨r, s1, heq, hr1, hr2, hr3, hr4, ha, hreg, hlru1, hrl1, hsm1, ht1, hs1,
      hs2, hinv1, hsoe⟩ | ⟨heq, hempty, hge⟩
  · refine ⟨r, { s1 with register_lru := s1.register_lru.poke r }, ?_, hr1,
      hr2, hr3, hr4, ?_, ?_, hrl1, hs1, hs2, ?_, ?_, ?_, ?_, ?_⟩
    · unfold RegisterAllocator.get_register
      rw [heq]
      dsimp only
      rw [if_pos hr2]
    · obtain ⟨i1, i2, i3, i4, i5, i6, i7, i8, i9, i10, i11, i12, i13, i14,
        i15⟩ := hinv1
      exact ⟨i1, i2, lru_poke_perm _ R r i3 hr1, i4, i5, i6, i7, i8, i9, i10,
        i11, i12, i13, i14, i15⟩
    · intro r' hne h1 h2 h3
      exact hsoe hso r' hne h1 h2 h3
    · exact lru_poke_head _ _
    · intro q hq hqb
      intro he
      subst he
      rw [← hreg] at hqb
      exact hqb hr2
    · intro q _
      rw [hreg]
    · intro n
      rw [ha]
    · left
      exact ⟨ha, ht1⟩
  · have hR2 : 2 ≤ R := hval.1
    have hpos : 0 < R := by omega
    set r := (s.oldest_reg).1 with hr
    have hrlt : r < R := lru_pop_lt _ R h.lru_perm hpos
    have hbound : s.registers r ≠ UMAX := by
      intro hub
      have hhand : r < s.out.slot_count := by omega
      have := hso r hrlt hhand hub
      rw [hempty] at this
      exact List.not_mem_nil _ this
    set p := s.registers r with hp
    have halp : s.allocations p = r := h.reg_inv2 r hbound
    have hinv2 : MachInv R (s.oldest_reg).2 := by
      obtain ⟨i1, i2, i3, i4, i5, i6, i7, i8, i9, i10, i11, i12, i13, i14,
        i15⟩ := h
      exact ⟨i1, i2, lru_pop_perm _ R i3 hpos, i4, i5, i6, i7, i8, i9, i10,
        i11, i12, i13, i14, i15⟩
    obtain ⟨m, s3, hmeq, hm1, hm2, hmU, hm3, hm4, ha3, hreg3, hlru3, hrl3,
      hsr3, ht3, hs31, hs32, hinv3⟩ := get_memory_spec hinv2 hge hsafe
    have hs2a : (s.oldest_reg).2.allocations = s.allocations := rfl
    have hs2r : (s.oldest_reg).2.registers = s.registers := rfl
    have hs2rl : (s.oldest_reg).2.reg_limit = s.reg_limit := rfl
    have hs2sr : (s.oldest_reg).2.spare_registers = s.spare_registers := rfl
    have hs2t : (s.oldest_reg).2.out = s.out := rfl
    have hs3a : s3.allocations = s.allocations := by rw [ha3, hs2a]
    have hs3r : s3.registers = s.registers := by rw [hreg3, hs2r]
    have hs3sr : s3.spare_registers = [] := by rw [hsr3, hs2sr, hempty]
    have hs3t : s3.out.tape = s.out.tape := by rw [ht3, hs2t]
    have hs3lo : s.out.slot_count ≤ s3.out.slot_count := by
      rw [hs2t] at hs31
      exact hs31
    have hs3hi : s3.out.slot_count ≤ s.out.slot_count + 1 := by
      rw [hs2t] at hs32
      exact hs32
    have hm3' : ∀ n, s.allocations n ≠ m := by
      rw [← hs2a]
      exact hm3
    have hrU : r < UMAX := lt_umax_of_le_255 hrlt hval.2
    have hprev : s3.registers r = p := by rw [hs3r, ← hp]
    obtain ⟨j1, j2, j3, j4, j5, j6, j7, j8, j9, j10, j11, j12, j13, j14, j15⟩ :=
      hinv3
    have hhand : r < s3.out.slot_count := by omega
    refine ⟨r, { s3 with
        allocations := upd s3.allocations (s3.registers r) m
        registers := upd s3.registers r UMAX
        out := s3.out.push (Vm.Op.Load r m) }, ?_, hrlt, ?_, ?_, ?_, ?_, ?_,
      ?_, ?_, ?_, ?_, ?_, ?_, ?_, ?_⟩
    · unfold RegisterAllocator.get_register
      rw [heq]
      dsimp only
      rw [hmeq]
    · dsimp only
      rw [upd_same]
    · dsimp only
      rw [hs3sr]
      exact List.not_mem_nil _
    · dsimp only [Vm.Tape.push]
      omega
    · rw [hprev]
      refine ⟨j1, ?_, ?_, ?_, ?_, ?_, ?_, ?_, ?_, ?_, ?_, ?_, ?_, ?_, ?_⟩
      · dsimp only [Vm.Tape.push]
        exact j2
      · dsimp only
        exact j3
      · dsimp only
        intro n hn
        by_cases hnp : n = p
        · subst hnp
          rw [upd_same] at hn
          omega
        · rw [upd_ne _ _ hnp] at hn ⊢
          have hold := j4 n hn
          have hne : s3.allocations n ≠ r := by
            intro he
            rw [he] at hold
            have hpn : p = n := by
              rw [hp, ← hs3r]
              exact hold
            exact hnp hpn.symm
          rw [upd_ne _ _ hne]
          exact hold
      · dsimp only
        intro r' hr'
        by_cases hrr : r' = r
        · subst hrr
          rw [upd_same] at hr'
          exact absurd rfl hr'
        · rw [upd_ne _ _ hrr] at hr' ⊢
          have hold := j5 r' hr'
          have hne : s3.registers r' ≠ p := by
            intro he
            rw [he] at hold
            rw [hs3a] at hold
            rw [halp] at hold
            exact hrr hold.symm
          rw [upd_ne _ _ hne]
          exact hold
      · dsimp only [Vm.Tape.push]
        intro n hn
        by_cases hnp : n = p
        · subst hnp
          rw [upd_same]
          exact hm2
        · rw [upd_ne _ _ hnp] at hn ⊢
          exact j6 n hn
      · dsimp only
        intro n1 n2 h1 h2 h3
        by_cases h1p : n1 = p
        · subst h1p
          rw [upd_same] at h3
          by_cases h2p : n2 = p
          · exact h2p.symm ▸ rfl
          · rw [upd_ne _ _ h2p] at h3
            rw [hs3a] at h3
            exact absurd h3.symm (hm3' n2)
        · rw [upd_ne _ _ h1p] at h1 h2 h3
          by_cases h2p : n2 = p
          · subst h2p
            rw [upd_same] at h3
            rw [hs3a] at h3
            exact absurd h3 (hm3' n1)
          · rw [upd_ne _ _ h2p] at h3
            exact j7 n1 n2 h1 h2 h3
      · dsimp only
        rw [hs3sr]
        intro r' hr'
        exact absurd hr' (List.not_mem_nil _)
      · dsimp only
        rw [hs3sr]
        exact List.nodup_nil
      · dsimp only [Vm.Tape.push]
        intro m' hm'
        obtain ⟨k1, k2, k3⟩ := j10 m' hm'
        refine ⟨k1, k2, ?_⟩
        intro n
        by_cases hnp : n = p
        · subst hnp
          rw [upd_same]
          intro he
          rw [he] at hm4
          exact hm4 hm'
        · rw [upd_ne _ _ hnp]
          exact k3 n
      · dsimp only
        exact j11
      · dsimp only
        intro r' hr'
        have hne : r' ≠ r := by omega
        rw [upd_ne _ _ hne]
        exact j12 r' hr'
      · dsimp only [Vm.Tape.push]
        intro r' hr'
        have hne : r' ≠ r := by omega
        rw [upd_ne _ _ hne]
        rw [hs3sr]
        exact ⟨(j13 r' hr').1, List.not_mem_nil _⟩
      · dsimp only [Vm.Tape.push]
        exact j14
      · dsimp only
        have hpU2 : UMAX ≠ p := fun he => hbound he.symm
        rw [upd_ne _ _ hpU2]
        exact j15
    · intro r' hne h1 h2 h3
      dsimp only at h2 h3 ⊢
      rw [hs3sr]
      rw [upd_ne _ _ hne] at h3
      rw [hs3r] at h3
      have hr'lt : r' < s.out.slot_count := by omega
      have := hso r' h1 hr'lt h3
      rw [hempty] at this
      exact this
    · dsimp only
      rw [hrl3, hs2rl]
    · dsimp only [Vm.Tape.push]
      omega
    · dsimp only [Vm.Tape.push]
      omega
    · dsimp only
      rw [hlru3]
      rfl
    · intro q hq hqb
      exact lru_pop_ne_head _ R h.lru_perm hR2 hq
    · intro q hq
      dsimp only
      rw [upd_ne _ _ hq, hs3r]
    · intro n
      dsimp only
      rw [hprev]
      by_cases hnp : n = p
      · subst hnp
        rw [upd_same]
        constructor
        · intro _
          rw [halp]
          exact Nat.ne_of_lt hrU
        · intro _
          exact hmU
      · rw [upd_ne _ _ hnp, hs3a]
    · right
      refine ⟨p, m, hp.symm, hbound, halp, hm1, ?_, hm3', hmU, ?_, ?_⟩
      · dsimp only [Vm.Tape.push]
        exact hm2
      · dsimp only
        rw [hprev, hs3a]
      · dsimp only [Vm.Tape.push]
        rw [hs3t]

theorem vm_run_append {V : Type} (sem : Sem V) (a b : List Vm.Op)
    (st : Nat → V) :
    Vm.run sem (a ++ b) st = Vm.run sem a (Vm.run sem b st) := by
  simp [Vm.run, List.foldr_append]

theorem transfers_comp {V : Type} {sem : Sem V} {val : Nat → V}
    {s1 s2 s3 : RegisterAllocator} {e1 e2 : List Vm.Op}
    (h1 : transfers sem val s1 s2 e1) (h2 : transfers sem val s2 s3 e2) :
    transfers sem val s1 s3 (e1 ++ e2) := by
  intro st hst
  rw [vm_run_append]
  exact h1 _ (h2 st hst)

theorem machinv_push_op {R : Nat} {s : RegisterAllocator} (o : Vm.Op)
    (h : MachInv R s) : MachInv R { s with out := s.out.push o } := by
  obtain ⟨hrl, horl, hlru, hri1, hri2, halt, hmi, hsr, hsrn, hsm, hsmn, hrh,
    hru, hsp, hum⟩ := h
  exact ⟨hrl, horl, hlru, hri1, hri2, halt, hmi, hsr, hsrn, hsm, hsmn, hrh,
    hru, hsp, hum⟩

theorem machinv_spare_mem_cons {R : Nat} {s : RegisterAllocator} {m : Nat}
    (h : MachInv R s) (hm1 : R ≤ m) (hm2 : m < s.out.slot_count)
    (hm3 : ∀ n, s.allocations n ≠ m) (hm4 : m ∉ s.spare_memory) :
    MachInv R { s with spare_memory := m :: s.spare_memory } := by
  obtain ⟨hrl, horl, hlru, hri1, hri2, halt, hmi, hsr, hsrn, hsm, hsmn, hrh,
    hru, hsp, hum⟩ := h
  refine ⟨hrl, horl, hlru, hri1, hri2, halt, hmi, hsr, hsrn, ?_, ?_, hrh, hru,
    hsp, hum⟩
  · dsimp only
    intro z hz
    rcases List.mem_cons.mp hz with he | hz2
    · subst he
      exact ⟨hm1, hm2, hm3⟩
    · exact hsm z hz2
  · dsimp only
    exact List.nodup_cons.mpr ⟨hm4, hsmn⟩

theorem spareok_of_except {R x : Nat} {s : RegisterAllocator}
    (h : SpareOkExcept R x s) (hx : s.registers x ≠ UMAX) : SpareOk R s := by
  intro r h1 h2 h3
  by_cases hrx : r = x
  · subst hrx
    exact absurd h3 hx
  · exact h r hrx h1 h2 h3

theorem slotsOk_mono {R sc sc2 : Nat} {o : Vm.Op} (h : Vm.Op.slotsOk R sc o)
    (hle : sc ≤ sc2) : Vm.Op.slotsOk R sc2 o :=
  ⟨h.1, fun m hm => ⟨(h.2 m hm).1, Nat.lt_of_lt_of_le (h.2 m hm).2 hle⟩⟩

theorem get_out_reg_spec {R : Nat} {s : RegisterAllocator} {out : Nat}
    (h : MachInv R s) (hso : SpareOk R s) (hval : ValidRegLimit R)
    (hsafe : s.out.slot_count < UMAX) (hbound : s.allocations out ≠ UMAX)
    (hout : out ≠ UMAX) :
    ∃ r_x s', s.get_out_reg out = some (r_x, s') ∧ r_x < R ∧
      s'.allocations out = r_x ∧ s'.registers r_x = out ∧
      MachInv R s' ∧ SpareOk R s' ∧ s'.reg_limit = s.reg_limit ∧
      s.out.slot_count ≤ s'.out.slot_count ∧
      s'.out.slot_count ≤ s.out.slot_count + 1 ∧
      s'.register_lru.order.head? = some r_x ∧
      (∀ n, s'.allocations n ≠ UMAX ↔ s.allocations n ≠ UMAX) ∧
      ∃ e, s'.out.tape = s.out.tape ++ e ∧
        (∀ vop ∈ e, Vm.Op.slotsOk R s'.out.slot_count vop) ∧
        transfersAll s s' e := by
  by_cases hreg : s.allocations out < s.reg_limit
  · have heq := RegisterAllocator.get_allocation_eq_register s out hreg
    set r_x := s.allocations out with hrx
    have hrxR : r_x < R := h.reg_limit_eq ▸ hreg
    refine ⟨r_x, { s with register_lru := s.register_lru.poke r_x }, ?_, hrxR,
      rfl, h.reg_inv1 out hrxR, ?_, hso, rfl, Nat.le_refl _, Nat.le_succ _,
      lru_poke_head _ _, fun n => Iff.rfl, [], (s.out.tape.append_nil).symm,
      ?_, ?_⟩
    · unfold RegisterAllocator.get_out_reg
      rw [heq]
    · obtain ⟨i1, i2, i3, i4, i5, i6, i7, i8, i9, i10, i11, i12, i13, i14,
        i15⟩ := h
      exact ⟨i1, i2, lru_poke_perm _ R r_x i3 hrxR, i4, i5, i6, i7, i8, i9,
        i10, i11, i12, i13, i14, i15⟩
    · intro vop hv
      exact absurd hv (List.not_mem_nil _)
    · intro V sem val st hst
      exact hst
  · have heq := RegisterAllocator.get_allocation_eq_memory s out hreg hbound
    obtain ⟨r_a, s2, hgr, hra1, hra2, hra3, hra4, hinv2, hsoe2, hrl2, hslo2,
      hshi2, hhead2, hne2, hregpres2, hdom2, hstruct⟩ :=
      get_register_spec h hso hval hsafe
    set m_x := s.allocations out with hmx
    have hm_xR : R ≤ m_x := by
      rw [h.reg_limit_eq] at hreg
      omega
    have hm_xlt : m_x < s.out.slot_count := h.alloc_lt out hbound
    have hm_xU : m_x ≠ UMAX := by omega
    have hraU : r_a < UMAX := lt_umax_of_le_255 hra1 hval.2
    have hrlR : s2.reg_limit = R := by rw [hrl2, h.reg_limit_eq]
    have halloc2out : s2.allocations out = m_x := by
      rcases hstruct with ⟨ha2, ht2⟩ |
        ⟨p, mm, hpdef, hpU, halp, hmm1, hmm2, hmm3, hmmU, ha2, ht2⟩
      · rw [ha2]
      · rw [ha2]
        have hpo : out ≠ p := by
          intro he
          rw [← he] at halp
          rw [← hmx] at halp
          omega
        rw [upd_ne _ _ hpo]
    have hps := RegisterAllocator.push_store_eq s2 r_a m_x
      (by rw [hrlR]; exact hm_xR)
    have hbind := RegisterAllocator.bind_register_eq
      { s2 with
        out := s2.out.push (Vm.Op.Store r_a m_x)
        spare_memory := m_x :: s2.spare_memory } out r_a
      (by dsimp only; rw [hrlR, halloc2out]; exact hm_xR)
      (by dsimp only; exact hra2)
    refine ⟨r_a, { s2 with
        out := s2.out.push (Vm.Op.Store r_a m_x)
        spare_memory := m_x :: s2.spare_memory
        registers := upd s2.registers r_a out
        allocations := upd s2.allocations out r_a
        register_lru := s2.register_lru.poke r_a }, ?_, hra1, ?_, ?_, ?_, ?_,
      ?_, ?_, ?_, ?_, ?_, ?_⟩
    · unfold RegisterAllocator.get_out_reg
      rw [heq]
      dsimp only
      rw [hgr]
      dsimp only
      rw [hps]
      dsimp only
      rw [hbind]
    · dsimp only
      rw [upd_same]
    · dsimp only
      rw [upd_same]
    · have hinvt : MachInv R { s2 with
          out := s2.out.push (Vm.Op.Store r_a m_x) } :=
        machinv_push_op _ hinv2
      have hb := machinv_bind hinvt hval.2
        (by dsimp only; rw [halloc2out]; exact hm_xR)
        hra2 hra1
        (by dsimp only [Vm.Tape.push]; exact hra4)
        hra3 hout
      have hc := machinv_spare_mem_cons hb hm_xR
        (by dsimp only [Vm.Tape.push]; omega)
        (by
          intro n
          dsimp only
          by_cases hn : n = out
          · subst hn
            rw [upd_same]
            omega
          · rw [upd_ne _ _ hn]
            intro he
            exact hn (hinv2.mem_inj out n (by rw [halloc2out]; exact hm_xU)
              (by rw [halloc2out]; exact hm_xR)
              (by rw [halloc2out, he])).symm)
        (by
          dsimp only
          intro hmem
          exact (hinv2.spare_mem m_x hmem).2.2 out halloc2out)
      exact hc
    · intro q h1 h2 h3
      dsimp only at h3 ⊢
      by_cases hq : q = r_a
      · subst hq
        rw [upd_same] at h3
        exact absurd h3 hout
      · rw [upd_ne _ _ hq] at h3
        refine hsoe2 q hq h1 ?_ h3
        dsimp only [Vm.Tape.push] at h2
        exact h2
    · dsimp only
      exact hrl2
    · dsimp only [Vm.Tape.push]
      omega
    · dsimp only [Vm.Tape.push]
      omega
    · dsimp only
      exact lru_poke_head _ _
    · intro n
      dsimp only
      by_cases hn : n = out
      · subst hn
        rw [upd_same]
        constructor
        · intro _
          exact hbound
        · intro _
          omega
      · rw [upd_ne _ _ hn]
        exact hdom2 n
    · rcases hstruct with ⟨ha2, ht2⟩ |
        ⟨p, mm, hpdef, hpU, halp, hmm1, hmm2, hmm3, hmmU, ha2, ht2⟩
      · refine ⟨[Vm.Op.Store r_a m_x], ?_, ?_, ?_⟩
        · dsimp only [Vm.Tape.push]
          rw [ht2]
        · intro vop hv
          rw [List.mem_singleton] at hv
          subst hv
          refine ⟨?_, ?_⟩
          · intro rr hrr
            have hrr2 : rr ∈ [r_a] := hrr
            rw [List.mem_singleton] at hrr2
            subst hrr2
            exact hra1
          · intro z hz
            have hz2 : z ∈ [m_x] := hz
            rw [List.mem_singleton] at hz2
            subst hz2
            refine ⟨hm_xR, ?_⟩
            dsimp only [Vm.Tape.push]
            omega
        · intro V sem val st hst
          intro n hnD
          show (upd st m_x (st r_a)) (s.allocations n) = val n
          by_cases hn : n = out
          · subst hn
            rw [← hmx, upd_same]
            have hq := hst n (by
              dsimp only
              rw [upd_same]
              omega)
            dsimp only at hq
            rw [upd_same] at hq
            exact hq
          · have hne : s.allocations n ≠ m_x := by
              intro he
              exact hn (h.mem_inj out n hbound hm_xR (by rw [he, hmx])).symm
            rw [upd_ne _ _ hne]
            have hq := hst n (by
              dsimp only
              rw [upd_ne _ _ hn, ha2]
              exact hnD)
            dsimp only at hq
            rw [upd_ne _ _ hn, ha2] at hq
            exact hq
      · refine ⟨[Vm.Op.Load r_a mm, Vm.Op.Store r_a m_x], ?_, ?_, ?_⟩
        · dsimp only [Vm.Tape.push]
          rw [ht2, List.append_assoc]
          rfl
        · intro vop hv
          rcases List.mem_cons.mp hv with hv1 | hv2
          · subst hv1
            refine ⟨?_, ?_⟩
            · intro rr hrr
              have hrr2 : rr ∈ [r_a] := hrr
              rw [List.mem_singleton] at hrr2
              subst hrr2
              exact hra1
            · intro z hz
              have hz2 : z ∈ [mm] := hz
              rw [List.mem_singleton] at hz2
              subst hz2
              refine ⟨hmm1, ?_⟩
              dsimp only [Vm.Tape.push]
              exact hmm2
          · rw [List.mem_singleton] at hv2
            subst hv2
            refine ⟨?_, ?_⟩
            · intro rr hrr
              have hrr2 : rr ∈ [r_a] := hrr
              rw [List.mem_singleton] at hrr2
              subst hrr2
              exact hra1
            · intro z hz
              have hz2 : z ∈ [m_x] := hz
              rw [List.mem_singleton] at hz2
              subst hz2
              refine ⟨hm_xR, ?_⟩
              dsimp only [Vm.Tape.push]
              omega
        · intro V sem val st hst
          intro n hnD
          show (upd (upd st m_x (st r_a)) r_a ((upd st m_x (st r_a)) mm))
            (s.allocations n) = val n
          have hmmx : m_x ≠ mm := by
            intro he
            exact hmm3 out (by rw [← hmx]; exact he)
          have hrma : r_a ≠ m_x := by omega
          have hramm : r_a ≠ mm := by omega
          have hpo : p ≠ out := by
            intro he
            rw [he] at halp
            rw [← hmx] at halp
            omega
          by_cases hn : n = out
          · subst hn
            rw [← hmx, upd_ne _ _ (Ne.symm hrma), upd_same]
            have hq := hst n (by
              dsimp only
              rw [upd_same]
              omega)
            dsimp only at hq
            rw [upd_same] at hq
            exact hq
          · by_cases hnp : n = p
            · subst hnp
              rw [halp, upd_same, upd_ne _ _ (Ne.symm hmmx)]
              have hq := hst n (by
                dsimp only
                rw [upd_ne _ _ hpo, ha2, upd_same]
                exact hmmU)
              dsimp only at hq
              rw [upd_ne _ _ hpo, ha2, upd_same] at hq
              exact hq
            · have hna : s.allocations n ≠ r_a := by
                intro he
                have h4 := h.reg_inv1 n (by rw [he]; exact hra1)
                rw [he, hpdef] at h4
                exact hnp h4.symm
              have hne : s.allocations n ≠ m_x := by
                intro he
                exact hn (h.mem_inj out n hbound hm_xR (by rw [he, hmx])).symm
              rw [upd_ne _ _ hna, upd_ne _ _ hne]
              have hq := hst n (by
                dsimp only
                rw [upd_ne _ _ hn, ha2, upd_ne _ _ hnp]
                exact hnD)
              dsimp only at hq
              rw [upd_ne _ _ hn, ha2, upd_ne _ _ hnp] at hq
              exact hq

theorem op_out_only_spec {R : Nat} {s : RegisterAllocator} {out : Nat}
    (kf : Nat → Vm.Op) (F : (V : Type) → Sem V → V)
    (h : MachInv R s) (hso : SpareOk R s) (hval : ValidRegLimit R)
    (hsafe : s.out.slot_count < UMAX) (hbound : s.allocations out ≠ UMAX)
    (hout : out ≠ UMAX)
    (hregs : ∀ o, (kf o).regs = [o]) (hmems : ∀ o, (kf o).mems = [])
    (hexec : ∀ (V : Type) (sem : Sem V) (st : Nat → V) (o : Nat),
      Vm.Op.exec sem st (kf o) = upd st o (F V sem)) :
    ∃ s', s.op_out_only out kf = some s' ∧ MachInv R s' ∧ SpareOk R s' ∧
      s'.allocations out = UMAX ∧
      (∀ n, n ≠ out → (s.allocations n ≠ UMAX ↔ s'.allocations n ≠ UMAX)) ∧
      s.out.slot_count ≤ s'.out.slot_count ∧
      s'.out.slot_count ≤ s.out.slot_count + 1 ∧
      ∃ e, s'.out.tape = s.out.tape ++ e ∧
        (∀ vop ∈ e, Vm.Op.slotsOk R s'.out.slot_count vop) ∧
        ∀ (V : Type) (sem : Sem V) (val : Nat → V),
          val out = F V sem → transfers sem val s s' e := by
  obtain ⟨r_x, s1, hgor, hrx1, hao, hro, hinv1, hso1, hrl1, hlo1, hhi1,
    hhead1, hdom1, e0, ht0, hsl0, htr0⟩ :=
    get_out_reg_spec h hso hval hsafe hbound hout
  have hrlR1 : s1.reg_limit = R := by rw [hrl1, h.reg_limit_eq]
  have houtU : ({ s1 with out := s1.out.push (kf r_x) } :
      RegisterAllocator).registers r_x ≠ UMAX := by
    dsimp only
    rw [hro]
    exact hout
  have hrel := RegisterAllocator.release_reg_eq
    { s1 with out := s1.out.push (kf r_x) } r_x
    (by dsimp only; rw [hrlR1]; exact hrx1) houtU
  refine ⟨{ s1 with
      out := s1.out.push (kf r_x)
      registers := upd s1.registers r_x UMAX
      spare_registers := r_x :: s1.spare_registers
      allocations := upd s1.allocations (s1.registers r_x) UMAX }, ?_, ?_, ?_,
    ?_, ?_, ?_, ?_, ?_⟩
  · unfold RegisterAllocator.op_out_only
    rw [hgor]
    dsimp only
    rw [hrel]
  · have hinvt := machinv_push_op (kf r_x) hinv1
    exact machinv_release_reg hinvt hval.2
      (by dsimp only [Vm.Tape.push]; omega) hrx1 houtU
  · intro q h1 h2 h3
    dsimp only at h3 ⊢
    by_cases hq : q = r_x
    · subst hq
      exact List.mem_cons_self _ _
    · rw [upd_ne _ _ hq] at h3
      refine List.mem_cons_of_mem _ (hso1 q h1 ?_ h3)
      dsimp only [Vm.Tape.push] at h2
      exact h2
  · dsimp only
    rw [hro, upd_same]
  · intro n hn
    dsimp only
    rw [hro, upd_ne _ _ hn]
    exact (hdom1 n).symm
  · dsimp only [Vm.Tape.push]
    omega
  · dsimp only [Vm.Tape.push]
    omega
  · refine ⟨e0 ++ [kf r_x], ?_, ?_, ?_⟩
    · dsimp only [Vm.Tape.push]
      rw [ht0, List.append_assoc]
    · intro vop hv
      rcases List.mem_append.mp hv with hv0 | hv1
      · have hvs := hsl0 vop hv0
        dsimp only [Vm.Tape.push]
        exact hvs
      · rw [List.mem_singleton] at hv1
        subst hv1
        refine ⟨?_, ?_⟩
        · intro rr hrr
          rw [hregs] at hrr
          rw [List.mem_singleton] at hrr
          subst hrr
          exact hrx1
        · intro z hz
          rw [hmems] at hz
          exact absurd hz (List.not_mem_nil _)
    · intro V sem val hvo
      refine transfers_comp (htr0 V sem val) ?_
      intro st hst
      intro n hnD
      have hrun : Vm.run sem [kf r_x] st = upd st r_x (F V sem) :=
        hexec V sem st r_x
      rw [hrun]
      by_cases hn : n = out
      · subst hn
        rw [hao, upd_same]
        exact hvo.symm
      · have hna : s1.allocations n ≠ r_x := by
          intro he
          have h4 := hinv1.reg_inv1 n (by rw [he]; exact hrx1)
          rw [he, hro] at h4
          exact hn h4.symm
        rw [upd_ne _ _ hna]
        have hq := hst n (by
          dsimp only
          rw [hro, upd_ne _ _ hn]
          exact hnD)
        dsimp only at hq
        rw [hro, upd_ne _ _ hn] at hq
        exact hq

theorem op_reg_fn_spec {R : Nat} {s : RegisterAllocator} {out arg : Nat}
    (op : Nat → Nat → Vm.Op) (F : (V : Type) → Sem V → V → V)
    (h : MachInv R s) (hso : SpareOk R s) (hval : ValidRegLimit R)
    (hsafe : s.out.slot_count < UMAX) (hbound : s.allocations out ≠ UMAX)
    (hout : out ≠ UMAX) (harg : arg ≠ out) (hargU : arg ≠ UMAX)
    (hregs : ∀ o a, (op o a).regs = [o, a])
    (hmems : ∀ o a, (op o a).mems = [])
    (hexec : ∀ (V : Type) (sem : Sem V) (st : Nat → V) (o a : Nat),
      Vm.Op.exec sem st (op o a) = upd st o (F V sem (st a))) :
    ∃ s', s.op_reg_fn out arg op = some s' ∧ MachInv R s' ∧ SpareOk R s' ∧
      s'.allocations out = UMAX ∧ s'.allocations arg ≠ UMAX ∧
      (∀ n, n ≠ out → n ≠ arg →
        (s.allocations n ≠ UMAX ↔ s'.allocations n ≠ UMAX)) ∧
      s.out.slot_count ≤ s'.out.slot_count ∧
      s'.out.slot_count ≤ s.out.slot_count + 1 ∧
      ∃ e, s'.out.tape = s.out.tape ++ e ∧
        (∀ vop ∈ e, Vm.Op.slotsOk R s'.out.slot_count vop) ∧
        ∀ (V : Type) (sem : Sem V) (val : Nat → V),
          val out = F V sem (val arg) → transfers sem val s s' e := by
  obtain ⟨r_x, s1, hgor, hrx1, hao, hro, hinv1, hso1, hrl1, hlo1, hhi1,
    hhead1, hdom1, e0, ht0, hsl0, htr0⟩ :=
    get_out_reg_spec h hso hval hsafe hbound hout
  have hrlR1 : s1.reg_limit = R := by rw [hrl1, h.reg_limit_eq]
  have hRU : R < UMAX := by
    have h255 := hval.2
    rw [RegisterAllocator.UMAX_eq]
    omega
  by_cases hargR : s1.allocations arg < s1.reg_limit
  · have heqa := RegisterAllocator.get_allocation_eq_register s1 arg hargR
    set r_y := s1.allocations arg with hry
    have hryR : r_y < R := hrlR1 ▸ hargR
    have hryU : r_y ≠ UMAX := by omega
    have hxy : r_x ≠ r_y := by
      intro he
      have h4 := hinv1.reg_inv1 arg hryR
      rw [← hry, ← he, hro] at h4
      exact harg h4.symm
    have hrel := RegisterAllocator.release_reg_eq
      { s1 with
        register_lru := s1.register_lru.poke r_y
        out := s1.out.push (op r_x r_y) } r_x
      (by dsimp only; rw [hrlR1]; exact hrx1)
      (by dsimp only; rw [hro]; exact hout)
    refine ⟨{ s1 with
        register_lru := s1.register_lru.poke r_y
        out := s1.out.push (op r_x r_y)
        registers := upd s1.registers r_x UMAX
        spare_registers := r_x :: s1.spare_registers
        allocations := upd s1.allocations (s1.registers r_x) UMAX }, ?_, ?_,
      ?_, ?_, ?_, ?_, ?_, ?_, ?_⟩
    · unfold RegisterAllocator.op_reg_fn
      rw [hgor]
      dsimp only
      rw [heqa]
      dsimp only
      rw [if_pos hxy]
      exact hrel
    · have hinv2 : MachInv R
          { s1 with register_lru := s1.register_lru.poke r_y } := by
        obtain ⟨i1, i2, i3, i4, i5, i6, i7, i8, i9, i10, i11, i12, i13, i14,
          i15⟩ := hinv1
        exact ⟨i1, i2, lru_poke_perm _ R r_y i3 hryR, i4, i5, i6, i7, i8, i9,
          i10, i11, i12, i13, i14, i15⟩
      have hinvt := machinv_push_op (op r_x r_y) hinv2
      exact machinv_release_reg hinvt hval.2
        (by dsimp only [Vm.Tape.push]; omega) hrx1
        (by dsimp only; rw [hro]; exact hout)
    · intro q h1 h2 h3
      dsimp only at h3 ⊢
      by_cases hq : q = r_x
      · subst hq
        exact List.mem_cons_self _ _
      · rw [upd_ne _ _ hq] at h3
        refine List.mem_cons_of_mem _ (hso1 q h1 ?_ h3)
        dsimp only [Vm.Tape.push] at h2
        exact h2
    · dsimp only
      rw [hro, upd_same]
    · dsimp only
      rw [hro, upd_ne _ _ harg]
      exact hryU
    · intro n hn hn2
      dsimp only
      rw [hro, upd_ne _ _ hn]
      exact (hdom1 n).symm
    · dsimp only [Vm.Tape.push]
      omega
    · dsimp only [Vm.Tape.push]
      omega
    · refine ⟨e0 ++ [op r_x r_y], ?_, ?_, ?_⟩
      · dsimp only [Vm.Tape.push]
        rw [ht0, List.append_assoc]
      · intro vop hv
        rcases List.mem_append.mp hv with hv0 | hv1
        · have hvs := hsl0 vop hv0
          dsimp only [Vm.Tape.push]
          exact hvs
        · rw [List.mem_singleton] at hv1
          subst hv1
          refine ⟨?_, ?_⟩
          · intro rr hrr
            rw [hregs] at hrr
            rcases List.mem_cons.mp hrr with hr1 | hr2
            · subst hr1
              exact hrx1
            · rw [List.mem_singleton] at hr2
              subst hr2
              exact hryR
          · intro z hz
            rw [hmems] at hz
            exact absurd hz (List.not_mem_nil _)
      · intro V sem val hvo
        refine transfers_comp (htr0 V sem val) ?_
        intro st hst
        intro n hnD
        have hrun : Vm.run sem [op r_x r_y] st =
            upd st r_x (F V sem (st r_y)) := hexec V sem st r_x r_y
        rw [hrun]
        have hqa := hst arg (by
          dsimp only
          rw [hro, upd_ne _ _ harg]
          exact hryU)
        dsimp only at hqa
        rw [hro, upd_ne _ _ harg] at hqa
        by_cases hn : n = out
        · subst hn
          rw [hao, upd_same, hqa]
          exact hvo.symm
        · have hna : s1.allocations n ≠ r_x := by
            intro he
            have h4 := hinv1.reg_inv1 n (by rw [he]; exact hrx1)
            rw [he, hro] at h4
            exact hn h4.symm
          rw [upd_ne _ _ hna]
          have hq := hst n (by
            dsimp only
            rw [hro, upd_ne _ _ hn]
            exact hnD)
          dsimp only at hq
          rw [hro, upd_ne _ _ hn] at hq
          exact hq
  · by_cases hargUn : s1.allocations arg = UMAX
    · have heqa := RegisterAllocator.get_allocation_eq_unassigned s1 arg
        hargR hargUn
      have hreb := RegisterAllocator.rebind_register_eq
        { s1 with out := s1.out.push (op r_x r_x) } arg r_x
        (by dsimp only; rw [hrlR1, hargUn]; omega)
        (by dsimp only; rw [hro]; exact hout)
      refine ⟨{ s1 with
          out := s1.out.push (op r_x r_x)
          registers := upd s1.registers r_x arg
          allocations := upd (upd s1.allocations (s1.registers r_x) UMAX)
            arg r_x
          register_lru := s1.register_lru.poke r_x }, ?_, ?_, ?_, ?_, ?_, ?_,
        ?_, ?_, ?_⟩
      · unfold RegisterAllocator.op_reg_fn
        rw [hgor]
        dsimp only
        rw [heqa]
        dsimp only
        exact hreb
      · have hinvt := machinv_push_op (op r_x r_x) hinv1
        exact machinv_rebind hinvt hval.2
          (by dsimp only [Vm.Tape.push]; omega)
          (by dsimp only; rw [hargUn]; omega)
          (by dsimp only; rw [hro]; exact hout) hargU
      · intro q h1 h2 h3
        dsimp only at h3 ⊢
        by_cases hq : q = r_x
        · subst hq
          rw [upd_same] at h3
          exact absurd h3 hargU
        · rw [upd_ne _ _ hq] at h3
          refine hso1 q h1 ?_ h3
          dsimp only [Vm.Tape.push] at h2
          exact h2
      · dsimp only
        rw [upd_ne _ _ (Ne.symm harg), hro, upd_same]
      · dsimp only
        rw [upd_same]
        omega
      · intro n hn hn2
        dsimp only
        rw [upd_ne _ _ hn2, hro, upd_ne _ _ hn]
        exact (hdom1 n).symm
      · dsimp only [Vm.Tape.push]
        omega
      · dsimp only [Vm.Tape.push]
        omega
      · refine ⟨e0 ++ [op r_x r_x], ?_, ?_, ?_⟩
        · dsimp only [Vm.Tape.push]
          rw [ht0, List.append_assoc]
        · intro vop hv
          rcases List.mem_append.mp hv with hv0 | hv1
          · have hvs := hsl0 vop hv0
            dsimp only [Vm.Tape.push]
            exact hvs
          · rw [List.mem_singleton] at hv1
            subst hv1
            refine ⟨?_, ?_⟩
            · intro rr hrr
              rw [hregs] at hrr
              rcases List.mem_cons.mp hrr with hr1 | hr2
              · subst hr1
                exact hrx1
              · rw [List.mem_singleton] at hr2
                subst hr2
                exact hrx1
            · intro z hz
              rw [hmems] at hz
              exact absurd hz (List.not_mem_nil _)
        · intro V sem val hvo
          refine transfers_comp (htr0 V sem val) ?_
          intro st hst
          intro n hnD
          have hrun : Vm.run sem [op r_x r_x] st =
              upd st r_x (F V sem (st r_x)) := hexec V sem st r_x r_x
          rw [hrun]
          have hqa := hst arg (by
            dsimp only
            rw [upd_same]
            omega)
          dsimp only at hqa
          rw [upd_same] at hqa
          by_cases hn : n = out
          · subst hn
            rw [hao, upd_same, hqa]
            exact hvo.symm
          · have hnarg : n ≠ arg := by
              intro he
              rw [he] at hnD
              exact hnD hargUn
            have hna : s1.allocations n ≠ r_x := by
              intro he
              have h4 := hinv1.reg_inv1 n (by rw [he]; exact hrx1)
              rw [he, hro] at h4
              exact hn h4.symm
            rw [upd_ne _ _ hna]
            have hq := hst n (by
              dsimp only
              rw [upd_ne _ _ hnarg, hro, upd_ne _ _ hn]
              exact hnD)
            dsimp only at hq
            rw [upd_ne _ _ hnarg, hro, upd_ne _ _ hn] at hq
            exact hq
    · have heqa := RegisterAllocator.get_allocation_eq_memory s1 arg
        hargR hargUn
      set m_y := s1.allocations arg with hmy
      have hmyR : R ≤ m_y := by
        rw [hrlR1] at hargR
        omega
      have hmylt : m_y < s1.out.slot_count := hinv1.alloc_lt arg hargUn
      have hrm : r_x ≠ m_y := by omega
      have hreb := RegisterAllocator.rebind_register_eq
        { s1 with out := s1.out.push (op r_x r_x) } arg r_x
        (by dsimp only; rw [hrlR1]; exact hmyR)
        (by dsimp only; rw [hro]; exact hout)
      have hps := RegisterAllocator.push_store_eq
        { s1 with
          out := s1.out.push (op r_x r_x)
          registers := upd s1.registers r_x arg
          allocations := upd (upd s1.allocations (s1.registers r_x) UMAX)
            arg r_x
          register_lru := s1.register_lru.poke r_x } r_x m_y
        (by dsimp only; rw [hrlR1]; exact hmyR)
      refine ⟨{ s1 with
          out := (s1.out.push (op r_x r_x)).push (Vm.Op.Store r_x m_y)
          registers := upd s1.registers r_x arg
          allocations := upd (upd s1.allocations (s1.registers r_x) UMAX)
            arg r_x
          register_lru := s1.register_lru.poke r_x
          spare_memory := m_y :: s1.spare_memory }, ?_, ?_, ?_, ?_, ?_, ?_,
        ?_, ?_, ?_⟩
      · unfold RegisterAllocator.op_reg_fn
        rw [hgor]
        dsimp only
        rw [heqa]
        dsimp only
        rw [hreb]
        dsimp only
        rw [hps]
      · have hinvt := machinv_push_op (op r_x r_x) hinv1
        have hb := machinv_rebind hinvt hval.2
          (by dsimp only [Vm.Tape.push]; omega)
          (by dsimp only; exact hmyR)
          (by dsimp only; rw [hro]; exact hout) hargU
        have hb2 := machinv_push_op (Vm.Op.Store r_x m_y) hb
        have hc := machinv_spare_mem_cons hb2 hmyR
          (by dsimp only [Vm.Tape.push]; exact hmylt)
          (by
            intro n
            dsimp only
            by_cases hn2 : n = arg
            · subst hn2
              rw [upd_same]
              omega
            · rw [upd_ne _ _ hn2, hro]
              by_cases hn : n = out
              · subst hn
                rw [upd_same]
                omega
              · rw [upd_ne _ _ hn]
                intro he
                exact hn2 (hinv1.mem_inj arg n hargUn hmyR
                  (by rw [he])).symm)
          (by
            dsimp only
            intro hmem
            exact (hinv1.spare_mem m_y hmem).2.2 arg rfl)
        exact hc
      · intro q h1 h2 h3
        dsimp only at h3 ⊢
        by_cases hq : q = r_x
        · subst hq
          rw [upd_same] at h3
          exact absurd h3 hargU
        · rw [upd_ne _ _ hq] at h3
          refine hso1 q h1 ?_ h3
          dsimp only [Vm.Tape.push] at h2
          exact h2
      · dsimp only
        rw [upd_ne _ _ (Ne.symm harg), hro, upd_same]
      · dsimp only
        rw [upd_same]
        omega
      · intro n hn hn2
        dsimp only
        rw [upd_ne _ _ hn2, hro, upd_ne _ _ hn]
        exact (hdom1 n).symm
      · dsimp only [Vm.Tape.push]
        omega
      · dsimp only [Vm.Tape.push]
        omega
      · refine ⟨e0 ++ [op r_x r_x, Vm.Op.Store r_x m_y], ?_, ?_, ?_⟩
        · dsimp only [Vm.Tape.push]
          rw [ht0]
          simp [List.append_assoc]
        · intro vop hv
          rcases List.mem_append.mp hv with hv0 | hv1
          · have hvs := hsl0 vop hv0
            dsimp only [Vm.Tape.push]
            exact hvs
          · rcases List.mem_cons.mp hv1 with hv2 | hv3
            · subst hv2
              refine ⟨?_, ?_⟩
              · intro rr hrr
                rw [hregs] at hrr
                rcases List.mem_cons.mp hrr with hr1 | hr2
                · subst hr1
                  exact hrx1
                · rw [List.mem_singleton] at hr2
                  subst hr2
                  exact hrx1
              · intro z hz
                rw [hmems] at hz
                exact absurd hz (List.not_mem_nil _)
            · rw [List.mem_singleton] at hv3
              subst hv3
              refine ⟨?_, ?_⟩
              · intro rr hrr
                have hrr2 : rr ∈ [r_x] := hrr
                rw [List.mem_singleton] at hrr2
                subst hrr2
                exact hrx1
              · intro z hz
                have hz2 : z ∈ [m_y] := hz
                rw [List.mem_singleton] at hz2
                subst hz2
                refine ⟨hmyR, ?_⟩
                dsimp only [Vm.Tape.push]
                exact hmylt
        · intro V sem val hvo
          refine transfers_comp (htr0 V sem val) ?_
          intro st hst
          intro n hnD
          have hrun : Vm.run sem [op r_x r_x, Vm.Op.Store r_x m_y] st =
              upd (upd st m_y (st r_x)) r_x
                (F V sem ((upd st m_y (st r_x)) r_x)) :=
            hexec V sem (upd st m_y (st r_x)) r_x r_x
          rw [hrun, upd_ne _ _ hrm]
          have hqa := hst arg (by
            dsimp only
            rw [upd_same]
            omega)
          dsimp only at hqa
          rw [upd_same] at hqa
          by_cases hn : n = out
          · subst hn
            rw [hao, upd_same, hqa]
            exact hvo.symm
          · by_cases hnarg : n = arg
            · subst hnarg
              rw [← hmy, upd_ne _ _ (Ne.symm hrm), upd_same]
              exact hqa
            · have hna : s1.allocations n ≠ r_x := by
                intro he
                have h4 := hinv1.reg_inv1 n (by rw [he]; exact hrx1)
                rw [he, hro] at h4
                exact hn h4.symm
              have hnm : s1.allocations n ≠ m_y := by
                intro he
                exact hnarg (hinv1.mem_inj arg n hargUn hmyR
                  (by rw [he, hmy])).symm
              rw [upd_ne _ _ hna, upd_ne _ _ hnm]
              have hq := hst n (by
                dsimp only
                rw [upd_ne _ _ hnarg, hro, upd_ne _ _ hn]
                exact hnD)
              dsimp only at hq
              rw [upd_ne _ _ hnarg, hro, upd_ne _ _ hn] at hq
              exact hq

theorem get_register_transfers {R : Nat} {s s2 : RegisterAllocator}
    {r_a : Nat} (h : MachInv R s) (hra1 : r_a < R)
    (hstruct : (s2.allocations = s.allocations ∧
        s2.out.tape = s.out.tape) ∨
      (∃ p m, s.registers r_a = p ∧ p ≠ UMAX ∧ s.allocations p = r_a ∧
        R ≤ m ∧ m < s2.out.slot_count ∧ (∀ n, s.allocations n ≠ m) ∧
        m ≠ UMAX ∧ s2.allocations = upd s.allocations p m ∧
        s2.out.tape = s.out.tape ++ [Vm.Op.Load r_a m])) :
    ∃ eg, s2.out.tape = s.out.tape ++ eg ∧
      (∀ vop ∈ eg, Vm.Op.slotsOk R s2.out.slot_count vop) ∧
      transfersAll s s2 eg := by
  rcases hstruct with ⟨ha, ht⟩ |
    ⟨p, m, hpdef, hpU, halp, hm1, hm2, hm3, hmU, ha, ht⟩
  · refine ⟨[], by rw [ht, List.append_nil], ?_, ?_⟩
    · intro vop hv
      exact absurd hv (List.not_mem_nil _)
    · intro V sem val st hst
      intro n hn
      have hq := hst n (by rw [ha]; exact hn)
      rw [ha] at hq
      exact hq
  · refine ⟨[Vm.Op.Load r_a m], by rw [ht], ?_, ?_⟩
    · intro vop hv
      rw [List.mem_singleton] at hv
      subst hv
      refine ⟨?_, ?_⟩
      · intro rr hrr
        have hr2 : rr ∈ [r_a] := hrr
        rw [List.mem_singleton] at hr2
        subst hr2
        exact hra1
      · intro z hz
        have hz2 : z ∈ [m] := hz
        rw [List.mem_singleton] at hz2
        subst hz2
        exact ⟨hm1, hm2⟩
    · intro V sem val st hst
      intro n hn
      show (upd st r_a (st m)) (s.allocations n) = val n
      by_cases hnp : n = p
      · subst hnp
        rw [halp, upd_same]
        have hq := hst n (by rw [ha, upd_same]; exact hmU)
        rw [ha, upd_same] at hq
        exact hq
      · have hna : s.allocations n ≠ r_a := by
          intro he
          have h4 := h.reg_inv1 n (by rw [he]; exact hra1)
          rw [he, hpdef] at h4
          exact hnp h4.symm
        rw [upd_ne _ _ hna]
        have hq := hst n (by rw [ha, upd_ne _ _ hnp]; exact hn)
        rw [ha, upd_ne _ _ hnp] at hq
        exact hq

theorem go_post_reg_reg {R : Nat} {u : RegisterAllocator}
    {out lhs rhs r_x r_y r_z : Nat}
    (op : Nat → Nat → Nat → Vm.Op) (F : (V : Type) → Sem V → V → V → V)
    (hinv : MachInv R u) (hso : SpareOk R u) (hval : ValidRegLimit R)
    (hsafeu : u.out.slot_count < UMAX)
    (hao : u.allocations out = r_x) (hro : u.registers r_x = out)
    (hrx1 : r_x < R) (hout : out ≠ UMAX)
    (hlo : lhs ≠ out) (hro2 : rhs ≠ out)
    (hay : u.allocations lhs = r_y) (hryR : r_y < R)
    (haz : u.allocations rhs = r_z) (hrzR : r_z < R)
    (hregs : ∀ o a b, (op o a b).regs = [o, a, b])
    (hmems : ∀ o a b, (op o a b).mems = [])
    (hexec : ∀ (V : Type) (sem : Sem V) (st : Nat → V) (o a b : Nat),
      Vm.Op.exec sem st (op o a b) = upd st o (F V sem (st a) (st b))) :
    ({ u with out := u.out.push (op r_x r_y r_z) }).release_reg r_x =
      some { u with
        out := u.out.push (op r_x r_y r_z)
        registers := upd u.registers r_x UMAX
        spare_registers := r_x :: u.spare_registers
        allocations := upd u.allocations (u.registers r_x) UMAX } ∧
    GoPost R out lhs rhs F 0 u { u with
        out := u.out.push (op r_x r_y r_z)
        registers := upd u.registers r_x UMAX
        spare_registers := r_x :: u.spare_registers
        allocations := upd u.allocations (u.registers r_x) UMAX } := by
  have hRU : R < UMAX := by
    have h255 := hval.2
    rw [RegisterAllocator.UMAX_eq]
    omega
  have hryU : r_y ≠ UMAX := by omega
  have hrzU : r_z ≠ UMAX := by omega
  refine ⟨?_, ?_, ?_, ?_, ?_, ?_, ?_, ?_, ?_, ?_⟩
  · exact RegisterAllocator.release_reg_eq _ r_x
      (by dsimp only; rw [hinv.reg_limit_eq]; exact hrx1)
      (by dsimp only; rw [hro]; exact hout)
  · exact machinv_release_reg (machinv_push_op (op r_x r_y r_z) hinv) hval.2
      (by dsimp only [Vm.Tape.push]; omega) hrx1
      (by dsimp only; rw [hro]; exact hout)
  · intro q h1 h2 h3
    dsimp only at h3 ⊢
    by_cases hq : q = r_x
    · subst hq
      exact List.mem_cons_self _ _
    · rw [upd_ne _ _ hq] at h3
      refine List.mem_cons_of_mem _ (hso q h1 ?_ h3)
      dsimp only [Vm.Tape.push] at h2
      exact h2
  · dsimp only
    rw [hro, upd_same]
  · dsimp only
    rw [hro, upd_ne _ _ hlo, hay]
    exact hryU
  · dsimp only
    rw [hro, upd_ne _ _ hro2, haz]
    exact hrzU
  · intro n h1 h2 h3
    dsimp only
    rw [hro, upd_ne _ _ h1]
  · dsimp only [Vm.Tape.push]
    omega
  · dsimp only [Vm.Tape.push]
    omega
  · refine ⟨[op r_x r_y r_z], ?_, ?_, ?_⟩
    · dsimp only [Vm.Tape.push]
    · intro vop hv
      rw [List.mem_singleton] at hv
      subst hv
      refine ⟨?_, ?_⟩
      · intro rr hrr
        rw [hregs] at hrr
        rcases List.mem_cons.mp hrr with hr1 | hr2
        · subst hr1
          exact hrx1
        · rcases List.mem_cons.mp hr2 with hr3 | hr4
          · subst hr3
            exact hryR
          · rw [List.mem_singleton] at hr4
            subst hr4
            exact hrzR
      · intro z hz
        rw [hmems] at hz
        exact absurd hz (List.not_mem_nil _)
    · intro V sem val hvo
      intro st hst
      intro n hnD
      have hrun : Vm.run sem [op r_x r_y r_z] st =
          upd st r_x (F V sem (st r_y) (st r_z)) := hexec V sem st r_x r_y r_z
      rw [hrun]
      have hqy := hst lhs (by
        dsimp only
        rw [hro, upd_ne _ _ hlo, hay]
        exact hryU)
      dsimp only at hqy
      rw [hro, upd_ne _ _ hlo, hay] at hqy
      have hqz := hst rhs (by
        dsimp only
        rw [hro, upd_ne _ _ hro2, haz]
        exact hrzU)
      dsimp only at hqz
      rw [hro, upd_ne _ _ hro2, haz] at hqz
      by_cases hn : n = out
      · subst hn
        rw [hao, upd_same, hqy, hqz]
        exact hvo.symm
      · have hna : u.allocations n ≠ r_x := by
          intro he
          have h4 := hinv.reg_inv1 n (by rw [he]; exact hrx1)
          rw [he, hro] at h4
          exact hn h4.symm
        rw [upd_ne _ _ hna]
        have hq := hst n (by
          dsimp only
          rw [hro, upd_ne _ _ hn]
          exact hnD)
        dsimp only at hq
        rw [hro, upd_ne _ _ hn] at hq
        exact hq

theorem go_post_mem_reg {R : Nat} {u : RegisterAllocator}
    {out lhs rhs r_x m_y r_z : Nat}
    (op : Nat → Nat → Nat → Vm.Op) (F : (V : Type) → Sem V → V → V → V)
    (hinv : MachInv R u) (hso : SpareOk R u) (hval : ValidRegLimit R)
    (hsafeu : u.out.slot_count < UMAX)
    (hao : u.allocations out = r_x) (hro : u.registers r_x = out)
    (hrx1 : r_x < R) (hout : out ≠ UMAX)
    (hlo : lhs ≠ out) (hro2 : rhs ≠ out) (hlU : lhs ≠ UMAX)
    (hay : u.allocations lhs = m_y) (hmyR : R ≤ m_y) (hmyU : m_y ≠ UMAX)
    (haz : u.allocations rhs = r_z) (hrzR : r_z < R)
    (hregs : ∀ o a b, (op o a b).regs = [o, a, b])
    (hmems : ∀ o a b, (op o a b).mems = [])
    (hexec : ∀ (V : Type) (sem : Sem V) (st : Nat → V) (o a b : Nat),
      Vm.Op.exec sem st (op o a b) = upd st o (F V sem (st a) (st b))) :
    ({ u with out := u.out.push (op r_x r_x r_z) }).rebind_register lhs r_x =
      some { u with
        out := u.out.push (op r_x r_x r_z)
        registers := upd u.registers r_x lhs
        allocations := upd (upd u.allocations (u.registers r_x) UMAX) lhs r_x
        register_lru := u.register_lru.poke r_x } ∧
    ({ u with
        out := u.out.push (op r_x r_x r_z)
        registers := upd u.registers r_x lhs
        allocations := upd (upd u.allocations (u.registers r_x) UMAX) lhs r_x
        register_lru := u.register_lru.poke r_x } :
        RegisterAllocator).push_store r_x m_y =
      some { u with
        out := (u.out.push (op r_x r_x r_z)).push (Vm.Op.Store r_x m_y)
        registers := upd u.registers r_x lhs
        allocations := upd (upd u.allocations (u.registers r_x) UMAX) lhs r_x
        register_lru := u.register_lru.poke r_x
        spare_memory := m_y :: u.spare_memory } ∧
    GoPost R out lhs rhs F 0 u { u with
        out := (u.out.push (op r_x r_x r_z)).push (Vm.Op.Store r_x m_y)
        registers := upd u.registers r_x lhs
        allocations := upd (upd u.allocations (u.registers r_x) UMAX) lhs r_x
        register_lru := u.register_lru.poke r_x
        spare_memory := m_y :: u.spare_memory } := by
  have hRU : R < UMAX := by
    have h255 := hval.2
    rw [RegisterAllocator.UMAX_eq]
    omega
  have hrzU : r_z ≠ UMAX := by omega
  have hlr : lhs ≠ rhs := by
    intro he
    rw [he, haz] at hay
    omega
  have hmylt : m_y < u.out.slot_count := by
    have hq := hinv.alloc_lt lhs (by rw [hay]; exact hmyU)
    rw [hay] at hq
    exact hq
  have hrm : r_x ≠ m_y := by omega
  have hzm : r_z ≠ m_y := by omega
  refine ⟨?_, ?_, ?_, ?_, ?_, ?_, ?_, ?_, ?_, ?_, ?_⟩
  · exact RegisterAllocator.rebind_register_eq _ lhs r_x
      (by dsimp only; rw [hinv.reg_limit_eq, hay]; exact hmyR)
      (by dsimp only; rw [hro]; exact hout)
  · exact RegisterAllocator.push_store_eq _ r_x m_y
      (by dsimp only; rw [hinv.reg_limit_eq]; exact hmyR)
  · have hb := machinv_rebind (machinv_push_op (op r_x r_x r_z) hinv) hval.2
      (by dsimp only [Vm.Tape.push]; omega)
      (by dsimp only; rw [hay]; exact hmyR)
      (by dsimp only; rw [hro]; exact hout) hlU
    have hb2 := machinv_push_op (Vm.Op.Store r_x m_y) hb
    exact machinv_spare_mem_cons hb2 hmyR
      (by dsimp only [Vm.Tape.push]; exact hmylt)
      (by
        intro n
        dsimp only
        by_cases hn2 : n = lhs
        · subst hn2
          rw [upd_same]
          omega
        · rw [upd_ne _ _ hn2, hro]
          by_cases hn : n = out
          · subst hn
            rw [upd_same]
            omega
          · rw [upd_ne _ _ hn]
            intro he
            exact hn2 (hinv.mem_inj lhs n (by rw [hay]; exact hmyU)
              (by rw [hay]; exact hmyR) (by rw [hay, he])).symm)
      (by
        dsimp only
        intro hmem
        exact (hinv.spare_mem m_y hmem).2.2 lhs hay)
  · intro q h1 h2 h3
    dsimp only at h3 ⊢
    by_cases hq : q = r_x
    · subst hq
      rw [upd_same] at h3
      exact absurd h3 hlU
    · rw [upd_ne _ _ hq] at h3
      refine hso q h1 ?_ h3
      dsimp only [Vm.Tape.push] at h2
      exact h2
  · dsimp only
    rw [upd_ne _ _ (Ne.symm hlo), hro, upd_same]
  · dsimp only
    rw [upd_same]
    omega
  · dsimp only
    rw [upd_ne _ _ (Ne.symm hlr), hro, upd_ne _ _ hro2, haz]
    exact hrzU
  · intro n h1 h2 h3
    dsimp only
    rw [upd_ne _ _ h2, hro, upd_ne _ _ h1]
  · dsimp only [Vm.Tape.push]
    omega
  · dsimp only [Vm.Tape.push]
    omega
  · refine ⟨[op r_x r_x r_z, Vm.Op.Store r_x m_y], ?_, ?_, ?_⟩
    · dsimp only [Vm.Tape.push]
      simp [List.append_assoc]
    · intro vop hv
      rcases List.mem_cons.mp hv with hv1 | hv2
      · subst hv1
        refine ⟨?_, ?_⟩
        · intro rr hrr
          rw [hregs] at hrr
          rcases List.mem_cons.mp hrr with hr1 | hr2
          · subst hr1
            exact hrx1
          · rcases List.mem_cons.mp hr2 with hr3 | hr4
            · subst hr3
              exact hrx1
            · rw [List.mem_singleton] at hr4
              subst hr4
              exact hrzR
        · intro z hz
          rw [hmems] at hz
          exact absurd hz (List.not_mem_nil _)
      · rw [List.mem_singleton] at hv2
        subst hv2
        refine ⟨?_, ?_⟩
        · intro rr hrr
          have hr2 : rr ∈ [r_x] := hrr
          rw [List.mem_singleton] at hr2
          subst hr2
          exact hrx1
        · intro z hz
          have hz2 : z ∈ [m_y] := hz
          rw [List.mem_singleton] at hz2
          subst hz2
          refine ⟨hmyR, ?_⟩
          dsimp only [Vm.Tape.push]
          exact hmylt
    · intro V sem val hvo
      intro st hst
      intro n hnD
      have hrun : Vm.run sem [op r_x r_x r_z, Vm.Op.Store r_x m_y] st =
          upd (upd st m_y (st r_x)) r_x
            (F V sem ((upd st m_y (st r_x)) r_x) ((upd st m_y (st r_x)) r_z)) :=
        hexec V sem (upd st m_y (st r_x)) r_x r_x r_z
      rw [hrun, upd_ne _ _ hrm, upd_ne _ _ hzm]
      have hql := hst lhs (by
        dsimp only
        rw [upd_same]
        omega)
      dsimp only at hql
      rw [upd_same] at hql
      have hqz := hst rhs (by
        dsimp only
        rw [upd_ne _ _ (Ne.symm hlr), hro, upd_ne _ _ hro2, haz]
        exact hrzU)
      dsimp only at hqz
      rw [upd_ne _ _ (Ne.symm hlr), hro, upd_ne _ _ hro2, haz] at hqz
      by_cases hn : n = out
      · subst hn
        rw [hao, upd_same, hql, hqz]
        exact hvo.symm
      · by_cases hnl : n = lhs
        · subst hnl
          rw [hay, upd_ne _ _ (Ne.symm hrm), upd_same]
          exact hql
        · have hna : u.allocations n ≠ r_x := by
            intro he
            have h4 := hinv.reg_inv1 n (by rw [he]; exact hrx1)
            rw [he, hro] at h4
            exact hn h4.symm
          have hnm : u.allocations n ≠ m_y := by
            intro he
            exact hnl (hinv.mem_inj lhs n (by rw [hay]; exact hmyU)
              (by rw [hay]; exact hmyR) (by rw [hay, he])).symm
          rw [upd_ne _ _ hna, upd_ne _ _ hnm]
          have hq := hst n (by
            dsimp only
            rw [upd_ne _ _ hnl, hro, upd_ne _ _ hn]
            exact hnD)
          dsimp only at hq
          rw [upd_ne _ _ hnl, hro, upd_ne _ _ hn] at hq
          exact hq

theorem go_post_reg_mem {R : Nat} {u : RegisterAllocator}
    {out lhs rhs r_x r_y m_z : Nat}
    (op : Nat → Nat → Nat → Vm.Op) (F : (V : Type) → Sem V → V → V → V)
    (hinv : MachInv R u) (hso : SpareOk R u) (hval : ValidRegLimit R)
    (hsafeu : u.out.slot_count < UMAX)
    (hao : u.allocations out = r_x) (hro : u.registers r_x = out)
    (hrx1 : r_x < R) (hout : out ≠ UMAX)
    (hlo : lhs ≠ out) (hro2 : rhs ≠ out) (hrUn : rhs ≠ UMAX)
    (hay : u.allocations lhs = r_y) (hryR : r_y < R)
    (haz : u.allocations rhs = m_z) (hmzR : R ≤ m_z) (hmzU : m_z ≠ UMAX)
    (hregs : ∀ o a b, (op o a b).regs = [o, a, b])
    (hmems : ∀ o a b, (op o a b).mems = [])
    (hexec : ∀ (V : Type) (sem : Sem V) (st : Nat → V) (o a b : Nat),
      Vm.Op.exec sem st (op o a b) = upd st o (F V sem (st a) (st b))) :
    ({ u with out := u.out.push (op r_x r_y r_x) }).rebind_register rhs r_x =
      some { u with
        out := u.out.push (op r_x r_y r_x)
        registers := upd u.registers r_x rhs
        allocations := upd (upd u.allocations (u.registers r_x) UMAX) rhs r_x
        register_lru := u.register_lru.poke r_x } ∧
    ({ u with
        out := u.out.push (op r_x r_y r_x)
        registers := upd u.registers r_x rhs
        allocations := upd (upd u.allocations (u.registers r_x) UMAX) rhs r_x
        register_lru := u.register_lru.poke r_x } :
        RegisterAllocator).push_store r_x m_z =
      some { u with
        out := (u.out.push (op r_x r_y r_x)).push (Vm.Op.Store r_x m_z)
        registers := upd u.registers r_x rhs
        allocations := upd (upd u.allocations (u.registers r_x) UMAX) rhs r_x
        register_lru := u.register_lru.poke r_x
        spare_memory := m_z :: u.spare_memory } ∧
    GoPost R out lhs rhs F 0 u { u with
        out := (u.out.push (op r_x r_y r_x)).push (Vm.Op.Store r_x m_z)
        registers := upd u.registers r_x rhs
        allocations := upd (upd u.allocations (u.registers r_x) UMAX) rhs r_x
        register_lru := u.register_lru.poke r_x
        spare_memory := m_z :: u.spare_memory } := by
  have hRU : R < UMAX := by
    have h255 := hval.2
    rw [RegisterAllocator.UMAX_eq]
    omega
  have hryU : r_y ≠ UMAX := by omega
  have hlr : lhs ≠ rhs := by
    intro he
    rw [he, haz] at hay
    omega
  have hmzlt : m_z < u.out.slot_count := by
    have hq := hinv.alloc_lt rhs (by rw [haz]; exact hmzU)
    rw [haz] at hq
    exact hq
  have hrm : r_x ≠ m_z := by omega
  have hym : r_y ≠ m_z := by omega
  refine ⟨?_, ?_, ?_, ?_, ?_, ?_, ?_, ?_, ?_, ?_, ?_⟩
  · exact RegisterAllocator.rebind_register_eq _ rhs r_x
      (by dsimp only; rw [hinv.reg_limit_eq, haz]; exact hmzR)
      (by dsimp only; rw [hro]; exact hout)
  · exact RegisterAllocator.push_store_eq _ r_x m_z
      (by dsimp only; rw [hinv.reg_limit_eq]; exact hmzR)
  · have hb := machinv_rebind (machinv_push_op (op r_x r_y r_x) hinv) hval.2
      (by dsimp only [Vm.Tape.push]; omega)
      (by dsimp only; rw [haz]; exact hmzR)
      (by dsimp only; rw [hro]; exact hout) hrUn
    have hb2 := machinv_push_op (Vm.Op.Store r_x m_z) hb
    exact machinv_spare_mem_cons hb2 hmzR
      (by dsimp only [Vm.Tape.push]; exact hmzlt)
      (by
        intro n
        dsimp only
        by_cases hn2 : n = rhs
        · subst hn2
          rw [upd_same]
          omega
        · rw [upd_ne _ _ hn2, hro]
          by_cases hn : n = out
          · subst hn
            rw [upd_same]
            omega
          · rw [upd_ne _ _ hn]
            intro he
            exact hn2 (hinv.mem_inj rhs n (by rw [haz]; exact hmzU)
              (by rw [haz]; exact hmzR) (by rw [haz, he])).symm)
      (by
        dsimp only
        intro hmem
        exact (hinv.spare_mem m_z hmem).2.2 rhs haz)
  · intro q h1 h2 h3
    dsimp only at h3 ⊢
    by_cases hq : q = r_x
    · subst hq
      rw [upd_same] at h3
      exact absurd h3 hrUn
    · rw [upd_ne _ _ hq] at h3
      refine hso q h1 ?_ h3
      dsimp only [Vm.Tape.push] at h2
      exact h2
  · dsimp only
    rw [upd_ne _ _ (Ne.symm hro2), hro, upd_same]
  · dsimp only
    rw [upd_ne _ _ hlr, hro, upd_ne _ _ hlo, hay]
    exact hryU
  · dsimp only
    rw [upd_same]
    omega
  · intro n h1 h2 h3
    dsimp only
    rw [upd_ne _ _ h3, hro, upd_ne _ _ h1]
  · dsimp only [Vm.Tape.push]
    omega
  · dsimp only [Vm.Tape.push]
    omega
  · refine ⟨[op r_x r_y r_x, Vm.Op.Store r_x m_z], ?_, ?_, ?_⟩
    · dsimp only [Vm.Tape.push]
      simp [List.append_assoc]
    · intro vop hv
      rcases List.mem_cons.mp hv with hv1 | hv2
      · subst hv1
        refine ⟨?_, ?_⟩
        · intro rr hrr
          rw [hregs] at hrr
          rcases List.mem_cons.mp hrr with hr1 | hr2
          · subst hr1
            exact hrx1
          · rcases List.mem_cons.mp hr2 with hr3 | hr4
            · subst hr3
              exact hryR
            · rw [List.mem_singleton] at hr4
              subst hr4
              exact hrx1
        · intro z hz
          rw [hmems] at hz
          exact absurd hz (List.not_mem_nil _)
      · rw [List.mem_singleton] at hv2
        subst hv2
        refine ⟨?_, ?_⟩
        · intro rr hrr
          have hr2 : rr ∈ [r_x] := hrr
          rw [List.mem_singleton] at hr2
          subst hr2
          exact hrx1
        · intro z hz
          have hz2 : z ∈ [m_z] := hz
          rw [List.mem_singleton] at hz2
          subst hz2
          refine ⟨hmzR, ?_⟩
          dsimp only [Vm.Tape.push]
          exact hmzlt
    · intro V sem val hvo
      intro st hst
      intro n hnD
      have hrun : Vm.run sem [op r_x r_y r_x, Vm.Op.Store r_x m_z] st =
          upd (upd st m_z (st r_x)) r_x
            (F V sem ((upd st m_z (st r_x)) r_y) ((upd st m_z (st r_x)) r_x)) :=
        hexec V sem (upd st m_z (st r_x)) r_x r_y r_x
      rw [hrun, upd_ne _ _ hrm, upd_ne _ _ hym]
      have hql := hst lhs (by
        dsimp only
        rw [upd_ne _ _ hlr, hro, upd_ne _ _ hlo, hay]
        exact hryU)
      dsimp only at hql
      rw [upd_ne _ _ hlr, hro, upd_ne _ _ hlo, hay] at hql
      have hqz := hst rhs (by
        dsimp only
        rw [upd_same]
        omega)
      dsimp only at hqz
      rw [upd_same] at hqz
      by_cases hn : n = out
      · subst hn
        rw [hao, upd_same, hql, hqz]
        exact hvo.symm
      · by_cases hnr : n = rhs
        · subst hnr
          rw [haz, upd_ne _ _ (Ne.symm hrm), upd_same]
          exact hqz
        · have hna : u.allocations n ≠ r_x := by
            intro he
            have h4 := hinv.reg_inv1 n (by rw [he]; exact hrx1)
            rw [he, hro] at h4
            exact hn h4.symm
          have hnm : u.allocations n ≠ m_z := by
            intro he
            exact hnr (hinv.mem_inj rhs n (by rw [haz]; exact hmzU)
              (by rw [haz]; exact hmzR) (by rw [haz, he])).symm
          rw [upd_ne _ _ hna, upd_ne _ _ hnm]
          have hq := hst n (by
            dsimp only
            rw [upd_ne _ _ hnr, hro, upd_ne _ _ hn]
            exact hnD)
          dsimp only at hq
          rw [upd_ne _ _ hnr, hro, upd_ne _ _ hn] at hq
          exact hq

theorem go_post_un_reg {R : Nat} {u : RegisterAllocator}
    {out lhs rhs r_x r_z : Nat}
    (op : Nat → Nat → Nat → Vm.Op) (F : (V : Type) → Sem V → V → V → V)
    (hinv : MachInv R u) (hso : SpareOk R u) (hval : ValidRegLimit R)
    (hsafeu : u.out.slot_count < UMAX)
    (hao : u.allocations out = r_x) (hro : u.registers r_x = out)
    (hrx1 : r_x < R) (hout : out ≠ UMAX)
    (hlo : lhs ≠ out) (hro2 : rhs ≠ out) (hlU : lhs ≠ UMAX)
    (hay : u.allocations lhs = UMAX)
    (haz : u.allocations rhs = r_z) (hrzR : r_z < R)
    (hregs : ∀ o a b, (op o a b).regs = [o, a, b])
    (hmems : ∀ o a b, (op o a b).mems = [])
    (hexec : ∀ (V : Type) (sem : Sem V) (st : Nat → V) (o a b : Nat),
      Vm.Op.exec sem st (op o a b) = upd st o (F V sem (st a) (st b))) :
    ({ u with out := u.out.push (op r_x r_x r_z) }).rebind_register lhs r_x =
      some { u with
        out := u.out.push (op r_x r_x r_z)
        registers := upd u.registers r_x lhs
        allocations := upd (upd u.allocations (u.registers r_x) UMAX) lhs r_x
        register_lru := u.register_lru.poke r_x } ∧
    GoPost R out lhs rhs F 0 u { u with
        out := u.out.push (op r_x r_x r_z)
        registers := upd u.registers r_x lhs
        allocations := upd (upd u.allocations (u.registers r_x) UMAX) lhs r_x
        register_lru := u.register_lru.poke r_x } := by
  have hRU : R < UMAX := by
    have h255 := hval.2
    rw [RegisterAllocator.UMAX_eq]
    omega
  have hrzU : r_z ≠ UMAX := by omega
  have hlr : lhs ≠ rhs := by
    intro he
    rw [he, haz] at hay
    omega
  refine ⟨?_, ?_, ?_, ?_, ?_, ?_, ?_, ?_, ?_, ?_⟩
  · exact RegisterAllocator.rebind_register_eq _ lhs r_x
      (by dsimp only; rw [hinv.reg_limit_eq, hay]; omega)
      (by dsimp only; rw [hro]; exact hout)
  · exact machinv_rebind (machinv_push_op (op r_x r_x r_z) hinv) hval.2
      (by dsimp only [Vm.Tape.push]; omega)
      (by dsimp only; rw [hay]; omega)
      (by dsimp only; rw [hro]; exact hout) hlU
  · intro q h1 h2 h3
    dsimp only at h3 ⊢
    by_cases hq : q = r_x
    · subst hq
      rw [upd_same] at h3
      exact absurd h3 hlU
    · rw [upd_ne _ _ hq] at h3
      refine hso q h1 ?_ h3
      dsimp only [Vm.Tape.push] at h2
      exact h2
  · dsimp only
    rw [upd_ne _ _ (Ne.symm hlo), hro, upd_same]
  · dsimp only
    rw [upd_same]
    omega
  · dsimp only
    rw [upd_ne _ _ (Ne.symm hlr), hro, upd_ne _ _ hro2, haz]
    exact hrzU
  · intro n h1 h2 h3
    dsimp only
    rw [upd_ne _ _ h2, hro, upd_ne _ _ h1]
  · dsimp only [Vm.Tape.push]
    omega
  · dsimp only [Vm.Tape.push]
    omega
  · refine ⟨[op r_x r_x r_z], ?_, ?_, ?_⟩
    · dsimp only [Vm.Tape.push]
    · intro vop hv
      rw [List.mem_singleton] at hv
      subst hv
      refine ⟨?_, ?_⟩
      · intro rr hrr
        rw [hregs] at hrr
        rcases List.mem_cons.mp hrr with hr1 | hr2
        · subst hr1
          exact hrx1
        · rcases List.mem_cons.mp hr2 with hr3 | hr4
          · subst hr3
            exact hrx1
          · rw [List.mem_singleton] at hr4
            subst hr4
            exact hrzR
      · intro z hz
        rw [hmems] at hz
        exact absurd hz (List.not_mem_nil _)
    · intro V sem val hvo
      intro st hst
      intro n hnD
      have hrun : Vm.run sem [op r_x r_x r_z] st =
          upd st r_x (F V sem (st r_x) (st r_z)) := hexec V sem st r_x r_x r_z
      rw [hrun]
      have hql := hst lhs (by
        dsimp only
        rw [upd_same]
        omega)
      dsimp only at hql
      rw [upd_same] at hql
      have hqz := hst rhs (by
        dsimp only
        rw [upd_ne _ _ (Ne.symm hlr), hro, upd_ne _ _ hro2, haz]
        exact hrzU)
      dsimp only at hqz
      rw [upd_ne _ _ (Ne.symm hlr), hro, upd_ne _ _ hro2, haz] at hqz
      by_cases hn : n = out
      · subst hn
        rw [hao, upd_same, hql, hqz]
        exact hvo.symm
      · have hnl : n ≠ lhs := by
          intro he
          rw [he, hay] at hnD
          exact hnD rfl
        have hna : u.allocations n ≠ r_x := by
          intro he
          have h4 := hinv.reg_inv1 n (by rw [he]; exact hrx1)
          rw [he, hro] at h4
          exact hn h4.symm
        rw [upd_ne _ _ hna]
        have hq := hst n (by
          dsimp only
          rw [upd_ne _ _ hnl, hro, upd_ne _ _ hn]
          exact hnD)
        dsimp only at hq
        rw [upd_ne _ _ hnl, hro, upd_ne _ _ hn] at hq
        exact hq

theorem go_post_reg_un {R : Nat} {u : RegisterAllocator}
    {out lhs rhs r_x r_y : Nat}
    (op : Nat → Nat → Nat → Vm.Op) (F : (V : Type) → Sem V → V → V → V)
    (hinv : MachInv R u) (hso : SpareOk R u) (hval : ValidRegLimit R)
    (hsafeu : u.out.slot_count < UMAX)
    (hao : u.allocations out = r_x) (hro : u.registers r_x = out)
    (hrx1 : r_x < R) (hout : out ≠ UMAX)
    (hlo : lhs ≠ out) (hro2 : rhs ≠ out) (hrUn : rhs ≠ UMAX)
    (hay : u.allocations lhs = r_y) (hryR : r_y < R)
    (haz : u.allocations rhs = UMAX)
    (hregs : ∀ o a b, (op o a b).regs = [o, a, b])
    (hmems : ∀ o a b, (op o a b).mems = [])
    (hexec : ∀ (V : Type) (sem : Sem V) (st : Nat → V) (o a b : Nat),
      Vm.Op.exec sem st (op o a b) = upd st o (F V sem (st a) (st b))) :
    ({ u with out := u.out.push (op r_x r_y r_x) }).rebind_register rhs r_x =
      some { u with
        out := u.out.push (op r_x r_y r_x)
        registers := upd u.registers r_x rhs
        allocations := upd (upd u.allocations (u.registers r_x) UMAX) rhs r_x
        register_lru := u.register_lru.poke r_x } ∧
    GoPost R out lhs rhs F 0 u { u with
        out := u.out.push (op r_x r_y r_x)
        registers := upd u.registers r_x rhs
        allocations := upd (upd u.allocations (u.registers r_x) UMAX) rhs r_x
        register_lru := u.register_lru.poke r_x } := by
  have hRU : R < UMAX := by
    have h255 := hval.2
    rw [RegisterAllocator.UMAX_eq]
    omega
  have hryU : r_y ≠ UMAX := by omega
  have hlr : lhs ≠ rhs := by
    intro he
    rw [← he, hay] at haz
    omega
  refine ⟨?_, ?_, ?_, ?_, ?_, ?_, ?_, ?_, ?_, ?_⟩
  · exact RegisterAllocator.rebind_register_eq _ rhs r_x
      (by dsimp only; rw [hinv.reg_limit_eq, haz]; omega)
      (by dsimp only; rw [hro]; exact hout)
  · exact machinv_rebind (machinv_push_op (op r_x r_y r_x) hinv) hval.2
      (by dsimp only [Vm.Tape.push]; omega)
      (by dsimp only; rw [haz]; omega)
      (by dsimp only; rw [hro]; exact hout) hrUn
  · intro q h1 h2 h3
    dsimp only at h3 ⊢
    by_cases hq : q = r_x
    · subst hq
      rw [upd_same] at h3
      exact absurd h3 hrUn
    · rw [upd_ne _ _ hq] at h3
      refine hso q h1 ?_ h3
      dsimp only [Vm.Tape.push] at h2
      exact h2
  · dsimp only
    rw [upd_ne _ _ (Ne.symm hro2), hro, upd_same]
  · dsimp only
    rw [upd_ne _ _ hlr, hro, upd_ne _ _ hlo, hay]
    exact hryU
  · dsimp only
    rw [upd_same]
    omega
  · intro n h1 h2 h3
    dsimp only
    rw [upd_ne _ _ h3, hro, upd_ne _ _ h1]
  · dsimp only [Vm.Tape.push]
    omega
  · dsimp only [Vm.Tape.push]
    omega
  · refine ⟨[op r_x r_y r_x], ?_, ?_, ?_⟩
    · dsimp only [Vm.Tape.push]
    · intro vop hv
      rw [List.mem_singleton] at hv
      subst hv
      refine ⟨?_, ?_⟩
      · intro rr hrr
        rw [hregs] at hrr
        rcases List.mem_cons.mp hrr with hr1 | hr2
        · subst hr1
          exact hrx1
        · rcases List.mem_cons.mp hr2 with hr3 | hr4
          · subst hr3
            exact hryR
          · rw [List.mem_singleton] at hr4
            subst hr4
            exact hrx1
      · intro z hz
        rw [hmems] at hz
        exact absurd hz (List.not_mem_nil _)
    · intro V sem val hvo
      intro st hst
      intro n hnD
      have hrun : Vm.run sem [op r_x r_y r_x] st =
          upd st r_x (F V sem (st r_y) (st r_x)) := hexec V sem st r_x r_y r_x
      rw [hrun]
      have hql := hst lhs (by
        dsimp only
        rw [upd_ne _ _ hlr, hro, upd_ne _ _ hlo, hay]
        exact hryU)
      dsimp only at hql
      rw [upd_ne _ _ hlr, hro, upd_ne _ _ hlo, hay] at hql
      have hqz := hst rhs (by
        dsimp only
        rw [upd_same]
        omega)
      dsimp only at hqz
      rw [upd_same] at hqz
      by_cases hn : n = out
      · subst hn
        rw [hao, upd_same, hql, hqz]
        exact hvo.symm
      · have hnr : n ≠ rhs := by
          intro he
          rw [he, haz] at hnD
          exact hnD rfl
        have hna : u.allocations n ≠ r_x := by
          intro he
          have h4 := hinv.reg_inv1 n (by rw [he]; exact hrx1)
          rw [he, hro] at h4
          exact hn h4.symm
        rw [upd_ne _ _ hna]
        have hq := hst n (by
          dsimp only
          rw [upd_ne _ _ hnr, hro, upd_ne _ _ hn]
          exact hnD)
        dsimp only at hq
        rw [upd_ne _ _ hnr, hro, upd_ne _ _ hn] at hq
        exact hq

theorem go_post_un_un_same {R : Nat} {u : RegisterAllocator}
    {out lhs r_x : Nat}
    (op : Nat → Nat → Nat → Vm.Op) (F : (V : Type) → Sem V → V → V → V)
    (hinv : MachInv R u) (hso : SpareOk R u) (hval : ValidRegLimit R)
    (hsafeu : u.out.slot_count < UMAX)
    (hao : u.allocations out = r_x) (hro : u.registers r_x = out)
    (hrx1 : r_x < R) (hout : out ≠ UMAX)
    (hlo : lhs ≠ out) (hlU : lhs ≠ UMAX)
    (hay : u.allocations lhs = UMAX)
    (hregs : ∀ o a b, (op o a b).regs = [o, a, b])
    (hmems : ∀ o a b, (op o a b).mems = [])
    (hexec : ∀ (V : Type) (sem : Sem V) (st : Nat → V) (o a b : Nat),
      Vm.Op.exec sem st (op o a b) = upd st o (F V sem (st a) (st b))) :
    ({ u with out := u.out.push (op r_x r_x r_x) }).rebind_register lhs r_x =
      some { u with
        out := u.out.push (op r_x r_x r_x)
        registers := upd u.registers r_x lhs
        allocations := upd (upd u.allocations (u.registers r_x) UMAX) lhs r_x
        register_lru := u.register_lru.poke r_x } ∧
    GoPost R out lhs lhs F 0 u { u with
        out := u.out.push (op r_x r_x r_x)
        registers := upd u.registers r_x lhs
        allocations := upd (upd u.allocations (u.registers r_x) UMAX) lhs r_x
        register_lru := u.register_lru.poke r_x } := by
  have hRU : R < UMAX := by
    have h255 := hval.2
    rw [RegisterAllocator.UMAX_eq]
    omega
  refine ⟨?_, ?_, ?_, ?_, ?_, ?_, ?_, ?_, ?_, ?_⟩
  · exact RegisterAllocator.rebind_register_eq _ lhs r_x
      (by dsimp only; rw [hinv.reg_limit_eq, hay]; omega)
      (by dsimp only; rw [hro]; exact hout)
  · exact machinv_rebind (machinv_push_op (op r_x r_x r_x) hinv) hval.2
      (by dsimp only [Vm.Tape.push]; omega)
      (by dsimp only; rw [hay]; omega)
      (by dsimp only; rw [hro]; exact hout) hlU
  · intro q h1 h2 h3
    dsimp only at h3 ⊢
    by_cases hq : q = r_x
    · subst hq
      rw [upd_same] at h3
      exact absurd h3 hlU
    · rw [upd_ne _ _ hq] at h3
      refine hso q h1 ?_ h3
      dsimp only [Vm.Tape.push] at h2
      exact h2
  · dsimp only
    rw [upd_ne _ _ (Ne.symm hlo), hro, upd_same]
  · dsimp only
    rw [upd_same]
    omega
  · dsimp only
    rw [upd_same]
    omega
  · intro n h1 h2 h3
    dsimp only
    rw [upd_ne _ _ h2, hro, upd_ne _ _ h1]
  · dsimp only [Vm.Tape.push]
    omega
  · dsimp only [Vm.Tape.push]
    omega
  · refine ⟨[op r_x r_x r_x], ?_, ?_, ?_⟩
    · dsimp only [Vm.Tape.push]
    · intro vop hv
      rw [List.mem_singleton] at hv
      subst hv
      refine ⟨?_, ?_⟩
      · intro rr hrr
        rw [hregs] at hrr
        rcases List.mem_cons.mp hrr with hr1 | hr2
        · subst hr1
          exact hrx1
        · rcases List.mem_cons.mp hr2 with hr3 | hr4
          · subst hr3
            exact hrx1
          · rw [List.mem_singleton] at hr4
            subst hr4
            exact hrx1
      · intro z hz
        rw [hmems] at hz
        exact absurd hz (List.not_mem_nil _)
    · intro V sem val hvo
      intro st hst
      intro n hnD
      have hrun : Vm.run sem [op r_x r_x r_x] st =
          upd st r_x (F V sem (st r_x) (st r_x)) := hexec V sem st r_x r_x r_x
      rw [hrun]
      have hql := hst lhs (by
        dsimp only
        rw [upd_same]
        omega)
      dsimp only at hql
      rw [upd_same] at hql
      by_cases hn : n = out
      · subst hn
        rw [hao, upd_same, hql]
        exact hvo.symm
      · have hnl : n ≠ lhs := by
          intro he
          rw [he, hay] at hnD
          exact hnD rfl
        have hna : u.allocations n ≠ r_x := by
          intro he
          have h4 := hinv.reg_inv1 n (by rw [he]; exact hrx1)
          rw [he, hro] at h4
          exact hn h4.symm
        rw [upd_ne _ _ hna]
        have hq := hst n (by
          dsimp only
          rw [upd_ne _ _ hnl, hro, upd_ne _ _ hn]
          exact hnD)
        dsimp only at hq
        rw [upd_ne _ _ hnl, hro, upd_ne _ _ hn] at hq
        exact hq

theorem go_post_mem_mem_same {R : Nat} {u : RegisterAllocator}
    {out lhs r_x m_y : Nat}
    (op : Nat → Nat → Nat → Vm.Op) (F : (V : Type) → Sem V → V → V → V)
    (hinv : MachInv R u) (hso : SpareOk R u) (hval : ValidRegLimit R)
    (hsafeu : u.out.slot_count < UMAX)
    (hao : u.allocations out = r_x) (hro : u.registers r_x = out)
    (hrx1 : r_x < R) (hout : out ≠ UMAX)
    (hlo : lhs ≠ out) (hlU : lhs ≠ UMAX)
    (hay : u.allocations lhs = m_y) (hmyR : R ≤ m_y) (hmyU : m_y ≠ UMAX)
    (hregs : ∀ o a b, (op o a b).regs = [o, a, b])
    (hmems : ∀ o a b, (op o a b).mems = [])
    (hexec : ∀ (V : Type) (sem : Sem V) (st : Nat → V) (o a b : Nat),
      Vm.Op.exec sem st (op o a b) = upd st o (F V sem (st a) (st b))) :
    ({ u with out := u.out.push (op r_x r_x r_x) }).rebind_register lhs r_x =
      some { u with
        out := u.out.push (op r_x r_x r_x)
        registers := upd u.registers r_x lhs
        allocations := upd (upd u.allocations (u.registers r_x) UMAX) lhs r_x
        register_lru := u.register_lru.poke r_x } ∧
    ({ u with
        out := u.out.push (op r_x r_x r_x)
        registers := upd u.registers r_x lhs
        allocations := upd (upd u.allocations (u.registers r_x) UMAX) lhs r_x
        register_lru := u.register_lru.poke r_x } :
        RegisterAllocator).push_store r_x m_y =
      some { u with
        out := (u.out.push (op r_x r_x r_x)).push (Vm.Op.Store r_x m_y)
        registers := upd u.registers r_x lhs
        allocations := upd (upd u.allocations (u.registers r_x) UMAX) lhs r_x
        register_lru := u.register_lru.poke r_x
        spare_memory := m_y :: u.spare_memory } ∧
    GoPost R out lhs lhs F 0 u { u with
        out := (u.out.push (op r_x r_x r_x)).push (Vm.Op.Store r_x m_y)
        registers := upd u.registers r_x lhs
        allocations := upd (upd u.allocations (u.registers r_x) UMAX) lhs r_x
        register_lru := u.register_lru.poke r_x
        spare_memory := m_y :: u.spare_memory } := by
  have hRU : R < UMAX := by
    have h255 := hval.2
    rw [RegisterAllocator.UMAX_eq]
    omega
  have hmylt : m_y < u.out.slot_count := by
    have hq := hinv.alloc_lt lhs (by rw [hay]; exact hmyU)
    rw [hay] at hq
    exact hq
  have hrm : r_x ≠ m_y := by omega
  refine ⟨?_, ?_, ?_, ?_, ?_, ?_, ?_, ?_, ?_, ?_, ?_⟩
  · exact RegisterAllocator.rebind_register_eq _ lhs r_x
      (by dsimp only; rw [hinv.reg_limit_eq, hay]; exact hmyR)
      (by dsimp only; rw [hro]; exact hout)
  · exact RegisterAllocator.push_store_eq _ r_x m_y
      (by dsimp only; rw [hinv.reg_limit_eq]; exact hmyR)
  · have hb := machinv_rebind (machinv_push_op (op r_x r_x r_x) hinv) hval.2
      (by dsimp only [Vm.Tape.push]; omega)
      (by dsimp only; rw [hay]; exact hmyR)
      (by dsimp only; rw [hro]; exact hout) hlU
    have hb2 := machinv_push_op (Vm.Op.Store r_x m_y) hb
    exact machinv_spare_mem_cons hb2 hmyR
      (by dsimp only [Vm.Tape.push]; exact hmylt)
      (by
        intro n
        dsimp only
        by_cases hn2 : n = lhs
        · subst hn2
          rw [upd_same]
          omega
        · rw [upd_ne _ _ hn2, hro]
          by_cases hn : n = out
          · subst hn
            rw [upd_same]
            omega
          · rw [upd_ne _ _ hn]
            intro he
            exact hn2 (hinv.mem_inj lhs n (by rw [hay]; exact hmyU)
              (by rw [hay]; exact hmyR) (by rw [hay, he])).symm)
      (by
        dsimp only
        intro hmem
        exact (hinv.spare_mem m_y hmem).2.2 lhs hay)
  · intro q h1 h2 h3
    dsimp only at h3 ⊢
    by_cases hq : q = r_x
    · subst hq
      rw [upd_same] at h3
      exact absurd h3 hlU
    · rw [upd_ne _ _ hq] at h3
      refine hso q h1 ?_ h3
      dsimp only [Vm.Tape.push] at h2
      exact h2
  · dsimp only
    rw [upd_ne _ _ (Ne.symm hlo), hro, upd_same]
  · dsimp only
    rw [upd_same]
    omega
  · dsimp only
    rw [upd_same]
    omega
  · intro n h1 h2 h3
    dsimp only
    rw [upd_ne _ _ h2, hro, upd_ne _ _ h1]
  · dsimp only [Vm.Tape.push]
    omega
  · dsimp only [Vm.Tape.push]
    omega
  · refine ⟨[op r_x r_x r_x, Vm.Op.Store r_x m_y], ?_, ?_, ?_⟩
    · dsimp only [Vm.Tape.push]
      simp [List.append_assoc]
    · intro vop hv
      rcases List.mem_cons.mp hv with hv1 | hv2
      · subst hv1
        refine ⟨?_, ?_⟩
        · intro rr hrr
          rw [hregs] at hrr
          rcases List.mem_cons.mp hrr with hr1 | hr2
          · subst hr1
            exact hrx1
          · rcases List.mem_cons.mp hr2 with hr3 | hr4
            · subst hr3
              exact hrx1
            · rw [List.mem_singleton] at hr4
              subst hr4
              exact hrx1
        · intro z hz
          rw [hmems] at hz
          exact absurd hz (List.not_mem_nil _)
      · rw [List.mem_singleton] at hv2
        subst hv2
        refine ⟨?_, ?_⟩
        · intro rr hrr
          have hr2 : rr ∈ [r_x] := hrr
          rw [List.mem_singleton] at hr2
          subst hr2
          exact hrx1
        · intro z hz
          have hz2 : z ∈ [m_y] := hz
          rw [List.mem_singleton] at hz2
          subst hz2
          refine ⟨hmyR, ?_⟩
          dsimp only [Vm.Tape.push]
          exact hmylt
    · intro V sem val hvo
      intro st hst
      intro n hnD
      have hrun : Vm.run sem [op r_x r_x r_x, Vm.Op.Store r_x m_y] st =
          upd (upd st m_y (st r_x)) r_x
            (F V sem ((upd st m_y (st r_x)) r_x) ((upd st m_y (st r_x)) r_x)) :=
        hexec V sem (upd st m_y (st r_x)) r_x r_x r_x
      rw [hrun, upd_ne _ _ hrm]
      have hql := hst lhs (by
        dsimp only
        rw [upd_same]
        omega)
      dsimp only at hql
      rw [upd_same] at hql
      by_cases hn : n = out
      · subst hn
        rw [hao, upd_same, hql]
        exact hvo.symm
      · by_cases hnl : n = lhs
        · subst hnl
          rw [hay, upd_ne _ _ (Ne.symm hrm), upd_same]
          exact hql
        · have hna : u.allocations n ≠ r_x := by
            intro he
            have h4 := hinv.reg_inv1 n (by rw [he]; exact hrx1)
            rw [he, hro] at h4
            exact hn h4.symm
          have hnm : u.allocations n ≠ m_y := by
            intro he
            exact hnl (hinv.mem_inj lhs n (by rw [hay]; exact hmyU)
              (by rw [hay]; exact hmyR) (by rw [hay, he])).symm
          rw [upd_ne _ _ hna, upd_ne _ _ hnm]
          have hq := hst n (by
            dsimp only
            rw [upd_ne _ _ hnl, hro, upd_ne _ _ hn]
            exact hnD)
          dsimp only at hq
          rw [upd_ne _ _ hnl, hro, upd_ne _ _ hn] at hq
          exact hq

theorem go_post_un_un_diff {R : Nat} {v : RegisterAllocator}
    {out lhs rhs r_x r_a : Nat}
    (op : Nat → Nat → Nat → Vm.Op) (F : (V : Type) → Sem V → V → V → V)
    (hinv : MachInv R v) (hsoe : SpareOkExcept R r_a v)
    (hval : ValidRegLimit R) (hsafeu : v.out.slot_count < UMAX)
    (hao : v.allocations out = r_x) (hro : v.registers r_x = out)
    (hrx1 : r_x < R) (hout : out ≠ UMAX)
    (hra1 : r_a < R) (hra2 : v.registers r_a = UMAX)
    (hra3 : r_a ∉ v.spare_registers) (hra4 : r_a < v.out.slot_count)
    (hxra : r_a ≠ r_x)
    (hlo : lhs ≠ out) (hro2 : rhs ≠ out) (hlU : lhs ≠ UMAX)
    (hrUn : rhs ≠ UMAX) (hlr : lhs ≠ rhs)
    (hay : v.allocations lhs = UMAX) (haz : v.allocations rhs = UMAX)
    (hregs : ∀ o a b, (op o a b).regs = [o, a, b])
    (hmems : ∀ o a b, (op o a b).mems = [])
    (hexec : ∀ (V : Type) (sem : Sem V) (st : Nat → V) (o a b : Nat),
      Vm.Op.exec sem st (op o a b) = upd st o (F V sem (st a) (st b))) :
    ({ v with out := v.out.push (op r_x r_x r_a) }).rebind_register lhs r_x =
      some { v with
        out := v.out.push (op r_x r_x r_a)
        registers := upd v.registers r_x lhs
        allocations := upd (upd v.allocations (v.registers r_x) UMAX) lhs r_x
        register_lru := v.register_lru.poke r_x } ∧
    ({ v with
        out := v.out.push (op r_x r_x r_a)
        registers := upd v.registers r_x lhs
        allocations := upd (upd v.allocations (v.registers r_x) UMAX) lhs r_x
        register_lru := v.register_lru.poke r_x } :
        RegisterAllocator).bind_register rhs r_a =
      some { v with
        out := v.out.push (op r_x r_x r_a)
        registers := upd (upd v.registers r_x lhs) r_a rhs
        allocations := upd (upd (upd v.allocations (v.registers r_x) UMAX)
          lhs r_x) rhs r_a
        register_lru := (v.register_lru.poke r_x).poke r_a } ∧
    GoPost R out lhs rhs F 0 v { v with
        out := v.out.push (op r_x r_x r_a)
        registers := upd (upd v.registers r_x lhs) r_a rhs
        allocations := upd (upd (upd v.allocations (v.registers r_x) UMAX)
          lhs r_x) rhs r_a
        register_lru := (v.register_lru.poke r_x).poke r_a } := by
  have hRU : R < UMAX := by
    have h255 := hval.2
    rw [RegisterAllocator.UMAX_eq]
    omega
  refine ⟨?_, ?_, ?_, ?_, ?_, ?_, ?_, ?_, ?_, ?_, ?_⟩
  · exact RegisterAllocator.rebind_register_eq _ lhs r_x
      (by dsimp only; rw [hinv.reg_limit_eq, hay]; omega)
      (by dsimp only; rw [hro]; exact hout)
  · exact RegisterAllocator.bind_register_eq _ rhs r_a
      (by
        dsimp only
        rw [hinv.reg_limit_eq, upd_ne _ _ (Ne.symm hlr), hro,
          upd_ne _ _ hro2, haz]
        omega)
      (by dsimp only; rw [upd_ne _ _ hxra]; exact hra2)
  · have hb := machinv_rebind (machinv_push_op (op r_x r_x r_a) hinv) hval.2
      (by dsimp only [Vm.Tape.push]; omega)
      (by dsimp only; rw [hay]; omega)
      (by dsimp only; rw [hro]; exact hout) hlU
    exact machinv_bind hb hval.2
      (by
        dsimp only
        rw [upd_ne _ _ (Ne.symm hlr), hro, upd_ne _ _ hro2, haz]
        omega)
      (by dsimp only; rw [upd_ne _ _ hxra]; exact hra2)
      hra1
      (by dsimp only [Vm.Tape.push]; exact hra4)
      hra3 hrUn
  · intro q h1 h2 h3
    dsimp only at h3 ⊢
    by_cases hqa : q = r_a
    · subst hqa
      rw [upd_same] at h3
      exact absurd h3 hrUn
    · rw [upd_ne _ _ hqa] at h3
      by_cases hq : q = r_x
      · subst hq
        rw [upd_same] at h3
        exact absurd h3 hlU
      · rw [upd_ne _ _ hq] at h3
        refine hsoe q hqa h1 ?_ h3
        dsimp only [Vm.Tape.push] at h2
        exact h2
  · dsimp only
    rw [upd_ne _ _ (Ne.symm hro2), upd_ne _ _ (Ne.symm hlo), hro, upd_same]
  · dsimp only
    rw [upd_ne _ _ hlr, upd_same]
    omega
  · dsimp only
    rw [upd_same]
    omega
  · intro n h1 h2 h3
    dsimp only
    rw [upd_ne _ _ h3, upd_ne _ _ h2, hro, upd_ne _ _ h1]
  · dsimp only [Vm.Tape.push]
    omega
  · dsimp only [Vm.Tape.push]
    omega
  · refine ⟨[op r_x r_x r_a], ?_, ?_, ?_⟩
    · dsimp only [Vm.Tape.push]
    · intro vop hv
      rw [List.mem_singleton] at hv
      subst hv
      refine ⟨?_, ?_⟩
      · intro rr hrr
        rw [hregs] at hrr
        rcases List.mem_cons.mp hrr with hr1 | hr2
        · subst hr1
          exact hrx1
        · rcases List.mem_cons.mp hr2 with hr3 | hr4
          · subst hr3
            exact hrx1
          · rw [List.mem_singleton] at hr4
            subst hr4
            exact hra1
      · intro z hz
        rw [hmems] at hz
        exact absurd hz (List.not_mem_nil _)
    · intro V sem val hvo
      intro st hst
      intro n hnD
      have hrun : Vm.run sem [op r_x r_x r_a] st =
          upd st r_x (F V sem (st r_x) (st r_a)) := hexec V sem st r_x r_x r_a
      rw [hrun]
      have hql := hst lhs (by
        dsimp only
        rw [upd_ne _ _ hlr, upd_same]
        omega)
      dsimp only at hql
      rw [upd_ne _ _ hlr, upd_same] at hql
      have hqz := hst rhs (by
        dsimp only
        rw [upd_same]
        omega)
      dsimp only at hqz
      rw [upd_same] at hqz
      by_cases hn : n = out
      · subst hn
        rw [hao, upd_same, hql, hqz]
        exact hvo.symm
      · have hnl : n ≠ lhs := by
          intro he
          rw [he, hay] at hnD
          exact hnD rfl
        have hnr : n ≠ rhs := by
          intro he
          rw [he, haz] at hnD
          exact hnD rfl
        have hna : v.allocations n ≠ r_x := by
          intro he
          have h4 := hinv.reg_inv1 n (by rw [he]; exact hrx1)
          rw [he, hro] at h4
          exact hn h4.symm
        rw [upd_ne _ _ hna]
        have hq := hst n (by
          dsimp only
          rw [upd_ne _ _ hnr, upd_ne _ _ hnl, hro, upd_ne _ _ hn]
          exact hnD)
        dsimp only at hq
        rw [upd_ne _ _ hnr, upd_ne _ _ hnl, hro, upd_ne _ _ hn] at hq
        exact hq

theorem go_post_un_mem {R : Nat} {v : RegisterAllocator}
    {out lhs rhs r_x r_a m_z : Nat}
    (op : Nat → Nat → Nat → Vm.Op) (F : (V : Type) → Sem V → V → V → V)
    (hinv : MachInv R v) (hsoe : SpareOkExcept R r_a v)
    (hval : ValidRegLimit R) (hsafeu : v.out.slot_count < UMAX)
    (hao : v.allocations out = r_x) (hro : v.registers r_x = out)
    (hrx1 : r_x < R) (hout : out ≠ UMAX)
    (hra1 : r_a < R) (hra2 : v.registers r_a = UMAX)
    (hra3 : r_a ∉ v.spare_registers) (hra4 : r_a < v.out.slot_count)
    (hxra : r_a ≠ r_x)
    (hlo : lhs ≠ out) (hro2 : rhs ≠ out) (hlU : lhs ≠ UMAX)
    (hrUn : rhs ≠ UMAX) (hlr : lhs ≠ rhs)
    (hay : v.allocations lhs = UMAX)
    (haz : v.allocations rhs = m_z) (hmzR : R ≤ m_z) (hmzU : m_z ≠ UMAX)
    (hregs : ∀ o a b, (op o a b).regs = [o, a, b])
    (hmems : ∀ o a b, (op o a b).mems = [])
    (hexec : ∀ (V : Type) (sem : Sem V) (st : Nat → V) (o a b : Nat),
      Vm.Op.exec sem st (op o a b) = upd st o (F V sem (st a) (st b))) :
    ({ v with out := v.out.push (op r_x r_x r_a) }).rebind_register lhs r_x =
      some { v with
        out := v.out.push (op r_x r_x r_a)
        registers := upd v.registers r_x lhs
        allocations := upd (upd v.allocations (v.registers r_x) UMAX) lhs r_x
        register_lru := v.register_lru.poke r_x } ∧
    ({ v with
        out := v.out.push (op r_x r_x r_a)
        registers := upd v.registers r_x lhs
        allocations := upd (upd v.allocations (v.registers r_x) UMAX) lhs r_x
        register_lru := v.register_lru.poke r_x } :
        RegisterAllocator).bind_register rhs r_a =
      some { v with
        out := v.out.push (op r_x r_x r_a)
        registers := upd (upd v.registers r_x lhs) r_a rhs
        allocations := upd (upd (upd v.allocations (v.registers r_x) UMAX)
          lhs r_x) rhs r_a
        register_lru := (v.register_lru.poke r_x).poke r_a } ∧
    ({ v with
        out := v.out.push (op r_x r_x r_a)
        registers := upd (upd v.registers r_x lhs) r_a rhs
        allocations := upd (upd (upd v.allocations (v.registers r_x) UMAX)
          lhs r_x) rhs r_a
        register_lru := (v.register_lru.poke r_x).poke r_a } :
        RegisterAllocator).push_store r_a m_z =
      some { v with
        out := (v.out.push (op r_x r_x r_a)).push (Vm.Op.Store r_a m_z)
        registers := upd (upd v.registers r_x lhs) r_a rhs
        allocations := upd (upd (upd v.allocations (v.registers r_x) UMAX)
          lhs r_x) rhs r_a
        register_lru := (v.register_lru.poke r_x).poke r_a
        spare_memory := m_z :: v.spare_memory } ∧
    GoPost R out lhs rhs F 0 v { v with
        out := (v.out.push (op r_x r_x r_a)).push (Vm.Op.Store r_a m_z)
        registers := upd (upd v.registers r_x lhs) r_a rhs
        allocations := upd (upd (upd v.allocations (v.registers r_x) UMAX)
          lhs r_x) rhs r_a
        register_lru := (v.register_lru.poke r_x).poke r_a
        spare_memory := m_z :: v.spare_memory } := by
  have hRU : R < UMAX := by
    have h255 := hval.2
    rw [RegisterAllocator.UMAX_eq]
    omega
  have hmzlt : m_z < v.out.slot_count := by
    have hq := hinv.alloc_lt rhs (by rw [haz]; exact hmzU)
    rw [haz] at hq
    exact hq
  have hrmz : r_x ≠ m_z := by omega
  have hamz : r_a ≠ m_z := by omega
  refine ⟨?_, ?_, ?_, ?_, ?_, ?_, ?_, ?_, ?_, ?_, ?_, ?_⟩
  · exact RegisterAllocator.rebind_register_eq _ lhs r_x
      (by dsimp only; rw [hinv.reg_limit_eq, hay]; omega)
      (by dsimp only; rw [hro]; exact hout)
  · exact RegisterAllocator.bind_register_eq _ rhs r_a
      (by
        dsimp only
        rw [hinv.reg_limit_eq, upd_ne _ _ (Ne.symm hlr), hro,
          upd_ne _ _ hro2, haz]
        exact hmzR)
      (by dsimp only; rw [upd_ne _ _ hxra]; exact hra2)
  · exact RegisterAllocator.push_store_eq _ r_a m_z
      (by dsimp only; rw [hinv.reg_limit_eq]; exact hmzR)
  · have hb := machinv_rebind (machinv_push_op (op r_x r_x r_a) hinv) hval.2
      (by dsimp only [Vm.Tape.push]; omega)
      (by dsimp only; rw [hay]; omega)
      (by dsimp only; rw [hro]; exact hout) hlU
    have hb2 := machinv_bind hb hval.2
      (by
        dsimp only
        rw [upd_ne _ _ (Ne.symm hlr), hro, upd_ne _ _ hro2, haz]
        exact hmzR)
      (by dsimp only; rw [upd_ne _ _ hxra]; exact hra2)
      hra1
      (by dsimp only [Vm.Tape.push]; exact hra4)
      hra3 hrUn
    have hb3 := machinv_push_op (Vm.Op.Store r_a m_z) hb2
    exact machinv_spare_mem_cons hb3 hmzR
      (by dsimp only [Vm.Tape.push]; exact hmzlt)
      (by
        intro n
        dsimp only
        by_cases hn3 : n = rhs
        · subst hn3
          rw [upd_same]
          omega
        · rw [upd_ne _ _ hn3]
          by_cases hn2 : n = lhs
          · subst hn2
            rw [upd_same]
            omega
          · rw [upd_ne _ _ hn2, hro]
            by_cases hn : n = out
            · subst hn
              rw [upd_same]
              omega
            · rw [upd_ne _ _ hn]
              intro he
              exact hn3 (hinv.mem_inj rhs n (by rw [haz]; exact hmzU)
                (by rw [haz]; exact hmzR) (by rw [haz, he])).symm)
      (by
        dsimp only
        intro hmem
        exact (hinv.spare_mem m_z hmem).2.2 rhs haz)
  · intro q h1 h2 h3
    dsimp only at h3 ⊢
    by_cases hqa : q = r_a
    · subst hqa
      rw [upd_same] at h3
      exact absurd h3 hrUn
    · rw [upd_ne _ _ hqa] at h3
      by_cases hq : q = r_x
      · subst hq
        rw [upd_same] at h3
        exact absurd h3 hlU
      · rw [upd_ne _ _ hq] at h3
        refine hsoe q hqa h1 ?_ h3
        dsimp only [Vm.Tape.push] at h2
        exact h2
  · dsimp only
    rw [upd_ne _ _ (Ne.symm hro2), upd_ne _ _ (Ne.symm hlo), hro, upd_same]
  · dsimp only
    rw [upd_ne _ _ hlr, upd_same]
    omega
  · dsimp only
    rw [upd_same]
    omega
  · intro n h1 h2 h3
    dsimp only
    rw [upd_ne _ _ h3, upd_ne _ _ h2, hro, upd_ne _ _ h1]
  · dsimp only [Vm.Tape.push]
    omega
  · dsimp only [Vm.Tape.push]
    omega
  · refine ⟨[op r_x r_x r_a, Vm.Op.Store r_a m_z], ?_, ?_, ?_⟩
    · dsimp only [Vm.Tape.push]
      simp [List.append_assoc]
    · intro vop hv
      rcases List.mem_cons.mp hv with hv1 | hv2
      · subst hv1
        refine ⟨?_, ?_⟩
        · intro rr hrr
          rw [hregs] at hrr
          rcases List.mem_cons.mp hrr with hr1 | hr2
          · subst hr1
            exact hrx1
          · rcases List.mem_cons.mp hr2 with hr3 | hr4
            · subst hr3
              exact hrx1
            · rw [List.mem_singleton] at hr4
              subst hr4
              exact hra1
        · intro z hz
          rw [hmems] at hz
          exact absurd hz (List.not_mem_nil _)
      · rw [List.mem_singleton] at hv2
        subst hv2
        refine ⟨?_, ?_⟩
        · intro rr hrr
          have hr2 : rr ∈ [r_a] := hrr
          rw [List.mem_singleton] at hr2
          subst hr2
          exact hra1
        · intro z hz
          have hz2 : z ∈ [m_z] := hz
          rw [List.mem_singleton] at hz2
          subst hz2
          refine ⟨hmzR, ?_⟩
          dsimp only [Vm.Tape.push]
          exact hmzlt
    · intro V sem val hvo
      intro st hst
      intro n hnD
      have hrun : Vm.run sem [op r_x r_x r_a, Vm.Op.Store r_a m_z] st =
          upd (upd st m_z (st r_a)) r_x
            (F V sem ((upd st m_z (st r_a)) r_x) ((upd st m_z (st r_a)) r_a)) :=
        hexec V sem (upd st m_z (st r_a)) r_x r_x r_a
      rw [hrun, upd_ne _ _ hrmz, upd_ne _ _ hamz]
      have hql := hst lhs (by
        dsimp only
        rw [upd_ne _ _ hlr, upd_same]
        omega)
      dsimp only at hql
      rw [upd_ne _ _ hlr, upd_same] at hql
      have hqz := hst rhs (by
        dsimp only
        rw [upd_same]
        omega)
      dsimp only at hqz
      rw [upd_same] at hqz
      by_cases hn : n = out
      · subst hn
        rw [hao, upd_same, hql, hqz]
        exact hvo.symm
      · by_cases hnr : n = rhs
        · subst hnr
          rw [haz, upd_ne _ _ (Ne.symm hrmz), upd_same]
          exact hqz
        · have hnl : n ≠ lhs := by
            intro he
            rw [he, hay] at hnD
            exact hnD rfl
          have hna : v.allocations n ≠ r_x := by
            intro he
            have h4 := hinv.reg_inv1 n (by rw [he]; exact hrx1)
            rw [he, hro] at h4
            exact hn h4.symm
          have hnm : v.allocations n ≠ m_z := by
            intro he
            exact hnr (hinv.mem_inj rhs n (by rw [haz]; exact hmzU)
              (by rw [haz]; exact hmzR) (by rw [haz, he])).symm
          rw [upd_ne _ _ hna, upd_ne _ _ hnm]
          have hq := hst n (by
            dsimp only
            rw [upd_ne _ _ hnr, upd_ne _ _ hnl, hro, upd_ne _ _ hn]
            exact hnD)
          dsimp only at hq
          rw [upd_ne _ _ hnr, upd_ne _ _ hnl, hro, upd_ne _ _ hn] at hq
          exact hq

theorem go_post_mem_mem_diff {R : Nat} {v : RegisterAllocator}
    {out lhs rhs r_x r_a m_y m_z : Nat}
    (op : Nat → Nat → Nat → Vm.Op) (F : (V : Type) → Sem V → V → V → V)
    (hinv : MachInv R v) (hsoe : SpareOkExcept R r_a v)
    (hval : ValidRegLimit R) (hsafeu : v.out.slot_count < UMAX)
    (hao : v.allocations out = r_x) (hro : v.registers r_x = out)
    (hrx1 : r_x < R) (hout : out ≠ UMAX)
    (hra1 : r_a < R) (hra2 : v.registers r_a = UMAX)
    (hra3 : r_a ∉ v.spare_registers) (hra4 : r_a < v.out.slot_count)
    (hxra : r_a ≠ r_x)
    (hlo : lhs ≠ out) (hro2 : rhs ≠ out) (hlU : lhs ≠ UMAX)
    (hrUn : rhs ≠ UMAX) (hlr : lhs ≠ rhs)
    (hay : v.allocations lhs = m_y) (hmyR : R ≤ m_y) (hmyU : m_y ≠ UMAX)
    (haz : v.allocations rhs = m_z) (hmzR : R ≤ m_z) (hmzU : m_z ≠ UMAX)
    (hregs : ∀ o a b, (op o a b).regs = [o, a, b])
    (hmems : ∀ o a b, (op o a b).mems = [])
    (hexec : ∀ (V : Type) (sem : Sem V) (st : Nat → V) (o a b : Nat),
      Vm.Op.exec sem st (op o a b) = upd st o (F V sem (st a) (st b))) :
    ({ v with out := v.out.push (op r_x r_x r_a) }).rebind_register lhs r_x =
      some { v with
        out := v.out.push (op r_x r_x r_a)
        registers := upd v.registers r_x lhs
        allocations := upd (upd v.allocations (v.registers r_x) UMAX) lhs r_x
        register_lru := v.register_lru.poke r_x } ∧
    ({ v with
        out := v.out.push (op r_x r_x r_a)
        registers := upd v.registers r_x lhs
        allocations := upd (upd v.allocations (v.registers r_x) UMAX) lhs r_x
        register_lru := v.register_lru.poke r_x } :
        RegisterAllocator).bind_register rhs r_a =
      some { v with
        out := v.out.push (op r_x r_x r_a)
        registers := upd (upd v.registers r_x lhs) r_a rhs
        allocations := upd (upd (upd v.allocations (v.registers r_x) UMAX)
          lhs r_x) rhs r_a
        register_lru := (v.register_lru.poke r_x).poke r_a } ∧
    ({ v with
        out := v.out.push (op r_x r_x r_a)
        registers := upd (upd v.registers r_x lhs) r_a rhs
        allocations := upd (upd (upd v.allocations (v.registers r_x) UMAX)
          lhs r_x) rhs r_a
        register_lru := (v.register_lru.poke r_x).poke r_a } :
        RegisterAllocator).push_store r_x m_y =
      some { v with
        out := (v.out.push (op r_x r_x r_a)).push (Vm.Op.Store r_x m_y)
        registers := upd (upd v.registers r_x lhs) r_a rhs
        allocations := upd (upd (upd v.allocations (v.registers r_x) UMAX)
          lhs r_x) rhs r_a
        register_lru := (v.register_lru.poke r_x).poke r_a
        spare_memory := m_y :: v.spare_memory } ∧
    ({ v with
        out := (v.out.push (op r_x r_x r_a)).push (Vm.Op.Store r_x m_y)
        registers := upd (upd v.registers r_x lhs) r_a rhs
        allocations := upd (upd (upd v.allocations (v.registers r_x) UMAX)
          lhs r_x) rhs r_a
        register_lru := (v.register_lru.poke r_x).poke r_a
        spare_memory := m_y :: v.spare_memory } :
        RegisterAllocator).push_store r_a m_z =
      some { v with
        out := ((v.out.push (op r_x r_x r_a)).push
          (Vm.Op.Store r_x m_y)).push (Vm.Op.Store r_a m_z)
        registers := upd (upd v.registers r_x lhs) r_a rhs
        allocations := upd (upd (upd v.allocations (v.registers r_x) UMAX)
          lhs r_x) rhs r_a
        register_lru := (v.register_lru.poke r_x).poke r_a
        spare_memory := m_z :: m_y :: v.spare_memory } ∧
    GoPost R out lhs rhs F 0 v { v with
        out := ((v.out.push (op r_x r_x r_a)).push
          (Vm.Op.Store r_x m_y)).push (Vm.Op.Store r_a m_z)
        registers := upd (upd v.registers r_x lhs) r_a rhs
        allocations := upd (upd (upd v.allocations (v.registers r_x) UMAX)
          lhs r_x) rhs r_a
        register_lru := (v.register_lru.poke r_x).poke r_a
        spare_memory := m_z :: m_y :: v.spare_memory } := by
  have hRU : R < UMAX := by
    have h255 := hval.2
    rw [RegisterAllocator.UMAX_eq]
    omega
  have hmymz : m_y ≠ m_z := by
    intro he
    exact hlr (hinv.mem_inj lhs rhs (by rw [hay]; exact hmyU)
      (by rw [hay]; exact hmyR) (by rw [hay, haz]; exact he))
  have hmylt : m_y < v.out.slot_count := by
    have hq := hinv.alloc_lt lhs (by rw [hay]; exact hmyU)
    rw [hay] at hq
    exact hq
  have hmzlt : m_z < v.out.slot_count := by
    have hq := hinv.alloc_lt rhs (by rw [haz]; exact hmzU)
    rw [haz] at hq
    exact hq
  have hrmy : r_x ≠ m_y := by omega
  have hrmz : r_x ≠ m_z := by omega
  have hamy : r_a ≠ m_y := by omega
  have hamz : r_a ≠ m_z := by omega
  have halloc4 : ∀ n, upd (upd (upd v.allocations (v.registers r_x) UMAX)
      lhs r_x) rhs r_a n ≠ m_y ∧
      upd (upd (upd v.allocations (v.registers r_x) UMAX)
      lhs r_x) rhs r_a n ≠ m_z := by
    intro n
    by_cases hn3 : n = rhs
    · subst hn3
      rw [upd_same]
      omega
    · rw [upd_ne _ _ hn3]
      by_cases hn2 : n = lhs
      · subst hn2
        rw [upd_same]
        omega
      · rw [upd_ne _ _ hn2, hro]
        by_cases hn : n = out
        · subst hn
          rw [upd_same]
          omega
        · rw [upd_ne _ _ hn]
          refine ⟨?_, ?_⟩
          · intro he
            exact hn2 (hinv.mem_inj lhs n (by rw [hay]; exact hmyU)
              (by rw [hay]; exact hmyR) (by rw [hay, he])).symm
          · intro he
            exact hn3 (hinv.mem_inj rhs n (by rw [haz]; exact hmzU)
              (by rw [haz]; exact hmzR) (by rw [haz, he])).symm
  refine ⟨?_, ?_, ?_, ?_, ?_, ?_, ?_, ?_, ?_, ?_, ?_, ?_, ?_⟩
  · exact RegisterAllocator.rebind_register_eq _ lhs r_x
      (by dsimp only; rw [hinv.reg_limit_eq, hay]; exact hmyR)
      (by dsimp only; rw [hro]; exact hout)
  · exact RegisterAllocator.bind_register_eq _ rhs r_a
      (by
        dsimp only
        rw [hinv.reg_limit_eq, upd_ne _ _ (Ne.symm hlr), hro,
          upd_ne _ _ hro2, haz]
        exact hmzR)
      (by dsimp only; rw [upd_ne _ _ hxra]; exact hra2)
  · exact RegisterAllocator.push_store_eq _ r_x m_y
      (by dsimp only; rw [hinv.reg_limit_eq]; exact hmyR)
  · exact RegisterAllocator.push_store_eq _ r_a m_z
      (by dsimp only; rw [hinv.reg_limit_eq]; exact hmzR)
  · have hb := machinv_rebind (machinv_push_op (op r_x r_x r_a) hinv) hval.2
      (by dsimp only [Vm.Tape.push]; omega)
      (by dsimp only; rw [hay]; exact hmyR)
      (by dsimp only; rw [hro]; exact hout) hlU
    have hb2 := machinv_bind hb hval.2
      (by
        dsimp only
        rw [upd_ne _ _ (Ne.symm hlr), hro, upd_ne _ _ hro2, haz]
        exact hmzR)
      (by dsimp only; rw [upd_ne _ _ hxra]; exact hra2)
      hra1
      (by dsimp only [Vm.Tape.push]; exact hra4)
      hra3 hrUn
    have hb3 := machinv_push_op (Vm.Op.Store r_x m_y) hb2
    have hb4 := machinv_spare_mem_cons hb3 hmyR
      (by dsimp only [Vm.Tape.push]; exact hmylt)
      (by intro n; dsimp only; exact (halloc4 n).1)
      (by
        dsimp only
        intro hmem
        exact (hinv.spare_mem m_y hmem).2.2 lhs hay)
    have hb5 := machinv_push_op (Vm.Op.Store r_a m_z) hb4
    exact machinv_spare_mem_cons hb5 hmzR
      (by dsimp only [Vm.Tape.push]; exact hmzlt)
      (by intro n; dsimp only; exact (halloc4 n).2)
      (by
        dsimp only
        intro hmem
        rcases List.mem_cons.mp hmem with he | hmem2
        · exact hmymz he.symm
        · exact (hinv.spare_mem m_z hmem2).2.2 rhs haz)
  · intro q h1 h2 h3
    dsimp only at h3 ⊢
    by_cases hqa : q = r_a
    · subst hqa
      rw [upd_same] at h3
      exact absurd h3 hrUn
    · rw [upd_ne _ _ hqa] at h3
      by_cases hq : q = r_x
      · subst hq
        rw [upd_same] at h3
        exact absurd h3 hlU
      · rw [upd_ne _ _ hq] at h3
        refine hsoe q hqa h1 ?_ h3
        dsimp only [Vm.Tape.push] at h2
        exact h2
  · dsimp only
    rw [upd_ne _ _ (Ne.symm hro2), upd_ne _ _ (Ne.symm hlo), hro, upd_same]
  · dsimp only
    rw [upd_ne _ _ hlr, upd_same]
    omega
  · dsimp only
    rw [upd_same]
    omega
  · intro n h1 h2 h3
    dsimp only
    rw [upd_ne _ _ h3, upd_ne _ _ h2, hro, upd_ne _ _ h1]
  · dsimp only [Vm.Tape.push]
    omega
  · dsimp only [Vm.Tape.push]
    omega
  · refine ⟨[op r_x r_x r_a, Vm.Op.Store r_x m_y, Vm.Op.Store r_a m_z],
      ?_, ?_, ?_⟩
    · dsimp only [Vm.Tape.push]
      simp [List.append_assoc]
    · intro vop hv
      rcases List.mem_cons.mp hv with hv1 | hv2
      · subst hv1
        refine ⟨?_, ?_⟩
        · intro rr hrr
          rw [hregs] at hrr
          rcases List.mem_cons.mp hrr with hr1 | hr2
          · subst hr1
            exact hrx1
          · rcases List.mem_cons.mp hr2 with hr3 | hr4
            · subst hr3
              exact hrx1
            · rw [List.mem_singleton] at hr4
              subst hr4
              exact hra1
        · intro z hz
          rw [hmems] at hz
          exact absurd hz (List.not_mem_nil _)
      · rcases List.mem_cons.mp hv2 with hv3 | hv4
        · subst hv3
          refine ⟨?_, ?_⟩
          · intro rr hrr
            have hr2 : rr ∈ [r_x] := hrr
            rw [List.mem_singleton] at hr2
            subst hr2
            exact hrx1
          · intro z hz
            have hz2 : z ∈ [m_y] := hz
            rw [List.mem_singleton] at hz2
            subst hz2
            refine ⟨hmyR, ?_⟩
            dsimp only [Vm.Tape.push]
            exact hmylt
        · rw [List.mem_singleton] at hv4
          subst hv4
          refine ⟨?_, ?_⟩
          · intro rr hrr
            have hr2 : rr ∈ [r_a] := hrr
            rw [List.mem_singleton] at hr2
            subst hr2
            exact hra1
          · intro z hz
            have hz2 : z ∈ [m_z] := hz
            rw [List.mem_singleton] at hz2
            subst hz2
            refine ⟨hmzR, ?_⟩
            dsimp only [Vm.Tape.push]
            exact hmzlt
    · intro V sem val hvo
      intro st hst
      intro n hnD
      have hrun : Vm.run sem
          [op r_x r_x r_a, Vm.Op.Store r_x m_y, Vm.Op.Store r_a m_z] st =
          upd (upd (upd st m_z (st r_a)) m_y ((upd st m_z (st r_a)) r_x)) r_x
            (F V sem
              ((upd (upd st m_z (st r_a)) m_y ((upd st m_z (st r_a)) r_x)) r_x)
              ((upd (upd st m_z (st r_a)) m_y
                ((upd st m_z (st r_a)) r_x)) r_a)) :=
        hexec V sem
          (upd (upd st m_z (st r_a)) m_y ((upd st m_z (st r_a)) r_x))
          r_x r_x r_a
      rw [hrun, upd_ne _ _ hrmy, upd_ne _ _ hamy, upd_ne _ _ hrmz,
        upd_ne _ _ hamz]
      have hql := hst lhs (by
        dsimp only
        rw [upd_ne _ _ hlr, upd_same]
        omega)
      dsimp only at hql
      rw [upd_ne _ _ hlr, upd_same] at hql
      have hqz := hst rhs (by
        dsimp only
        rw [upd_same]
        omega)
      dsimp only at hqz
      rw [upd_same] at hqz
      by_cases hn : n = out
      · subst hn
        rw [hao, upd_same, hql, hqz]
        exact hvo.symm
      · by_cases hnl : n = lhs
        · subst hnl
          rw [hay, upd_ne _ _ (Ne.symm hrmy), upd_same]
          exact hql
        · by_cases hnr : n = rhs
          · subst hnr
            rw [haz, upd_ne _ _ (Ne.symm hrmz), upd_ne _ _ (Ne.symm hmymz),
              upd_same]
            exact hqz
          · have hna : v.allocations n ≠ r_x := by
              intro he
              have h4 := hinv.reg_inv1 n (by rw [he]; exact hrx1)
              rw [he, hro] at h4
              exact hn h4.symm
            have hnmy : v.allocations n ≠ m_y := by
              intro he
              exact hnl (hinv.mem_inj lhs n (by rw [hay]; exact hmyU)
                (by rw [hay]; exact hmyR) (by rw [hay, he])).symm
            have hnmz : v.allocations n ≠ m_z := by
              intro he
              exact hnr (hinv.mem_inj rhs n (by rw [haz]; exact hmzU)
                (by rw [haz]; exact hmzR) (by rw [haz, he])).symm
            rw [upd_ne _ _ hna, upd_ne _ _ hnmy, upd_ne _ _ hnmz]
            have hq := hst n (by
              dsimp only
              rw [upd_ne _ _ hnr, upd_ne _ _ hnl, hro, upd_ne _ _ hn]
              exact hnD)
            dsimp only at hq
            rw [upd_ne _ _ hnr, upd_ne _ _ hnl, hro, upd_ne _ _ hn] at hq
            exact hq

theorem go_post_mem_un {R : Nat} {v : RegisterAllocator}
    {out lhs rhs r_x r_a m_y : Nat}
    (op : Nat → Nat → Nat → Vm.Op) (F : (V : Type) → Sem V → V → V → V)
    (hinv : MachInv R v) (hsoe : SpareOkExcept R r_a v)
    (hval : ValidRegLimit R) (hsafeu : v.out.slot_count < UMAX)
    (hao : v.allocations out = r_x) (hro : v.registers r_x = out)
    (hrx1 : r_x < R) (hout : out ≠ UMAX)
    (hra1 : r_a < R) (hra2 : v.registers r_a = UMAX)
    (hra3 : r_a ∉ v.spare_registers) (hra4 : r_a < v.out.slot_count)
    (hxra : r_a ≠ r_x)
    (hlo : lhs ≠ out) (hro2 : rhs ≠ out) (hlU : lhs ≠ UMAX)
    (hrUn : rhs ≠ UMAX) (hlr : lhs ≠ rhs)
    (hay : v.allocations lhs = m_y) (hmyR : R ≤ m_y) (hmyU : m_y ≠ UMAX)
    (haz : v.allocations rhs = UMAX)
    (hregs : ∀ o a b, (op o a b).regs = [o, a, b])
    (hmems : ∀ o a b, (op o a b).mems = [])
    (hexec : ∀ (V : Type) (sem : Sem V) (st : Nat → V) (o a b : Nat),
      Vm.Op.exec sem st (op o a b) = upd st o (F V sem (st a) (st b))) :
    ({ v with out := v.out.push (op r_x r_a r_x) }).bind_register lhs r_a =
      some { v with
        out := v.out.push (op r_x r_a r_x)
        registers := upd v.registers r_a lhs
        allocations := upd v.allocations lhs r_a
        register_lru := v.register_lru.poke r_a } ∧
    ({ v with
        out := v.out.push (op r_x r_a r_x)
        registers := upd v.registers r_a lhs
        allocations := upd v.allocations lhs r_a
        register_lru := v.register_lru.poke r_a } :
        RegisterAllocator).rebind_register rhs r_x =
      some { v with
        out := v.out.push (op r_x r_a r_x)
        registers := upd (upd v.registers r_a lhs) r_x rhs
        allocations := upd (upd (upd v.allocations lhs r_a)
          (upd v.registers r_a lhs r_x) UMAX) rhs r_x
        register_lru := (v.register_lru.poke r_a).poke r_x } ∧
    ({ v with
        out := v.out.push (op r_x r_a r_x)
        registers := upd (upd v.registers r_a lhs) r_x rhs
        allocations := upd (upd (upd v.allocations lhs r_a)
          (upd v.registers r_a lhs r_x) UMAX) rhs r_x
        register_lru := (v.register_lru.poke r_a).poke r_x } :
        RegisterAllocator).push_store r_a m_y =
      some { v with
        out := (v.out.push (op r_x r_a r_x)).push (Vm.Op.Store r_a m_y)
        registers := upd (upd v.registers r_a lhs) r_x rhs
        allocations := upd (upd (upd v.allocations lhs r_a)
          (upd v.registers r_a lhs r_x) UMAX) rhs r_x
        register_lru := (v.register_lru.poke r_a).poke r_x
        spare_memory := m_y :: v.spare_memory } ∧
    GoPost R out lhs rhs F 0 v { v with
        out := (v.out.push (op r_x r_a r_x)).push (Vm.Op.Store r_a m_y)
        registers := upd (upd v.registers r_a lhs) r_x rhs
        allocations := upd (upd (upd v.allocations lhs r_a)
          (upd v.registers r_a lhs r_x) UMAX) rhs r_x
        register_lru := (v.register_lru.poke r_a).poke r_x
        spare_memory := m_y :: v.spare_memory } := by
  have hRU : R < UMAX := by
    have h255 := hval.2
    rw [RegisterAllocator.UMAX_eq]
    omega
  have hkey : upd v.registers r_a lhs r_x = out := by
    rw [upd_ne _ _ (Ne.symm hxra)]
    exact hro
  have hmylt : m_y < v.out.slot_count := by
    have hq := hinv.alloc_lt lhs (by rw [hay]; exact hmyU)
    rw [hay] at hq
    exact hq
  have hrmy : r_x ≠ m_y := by omega
  have hamy : r_a ≠ m_y := by omega
  refine ⟨?_, ?_, ?_, ?_, ?_, ?_, ?_, ?_, ?_, ?_, ?_, ?_⟩
  · exact RegisterAllocator.bind_register_eq _ lhs r_a
      (by dsimp only; rw [hinv.reg_limit_eq, hay]; exact hmyR)
      (by dsimp only; exact hra2)
  · exact RegisterAllocator.rebind_register_eq _ rhs r_x
      (by
        dsimp only
        rw [hinv.reg_limit_eq, upd_ne _ _ (Ne.symm hlr), haz]
        omega)
      (by dsimp only; rw [hkey]; exact hout)
  · exact RegisterAllocator.push_store_eq _ r_a m_y
      (by dsimp only; rw [hinv.reg_limit_eq]; exact hmyR)
  · have hb := machinv_bind (machinv_push_op (op r_x r_a r_x) hinv) hval.2
      (by dsimp only; rw [hay]; exact hmyR)
      hra2 hra1
      (by dsimp only [Vm.Tape.push]; exact hra4)
      hra3 hlU
    have hb2 := machinv_rebind hb hval.2
      (by dsimp only [Vm.Tape.push]; omega)
      (by
        dsimp only
        rw [upd_ne _ _ (Ne.symm hlr), haz]
        omega)
      (by dsimp only; rw [hkey]; exact hout) hrUn
    have hb3 := machinv_push_op (Vm.Op.Store r_a m_y) hb2
    exact machinv_spare_mem_cons hb3 hmyR
      (by dsimp only [Vm.Tape.push]; exact hmylt)
      (by
        intro n
        dsimp only
        rw [hkey]
        by_cases hn3 : n = rhs
        · subst hn3
          rw [upd_same]
          omega
        · rw [upd_ne _ _ hn3]
          by_cases hn : n = out
          · subst hn
            rw [upd_same]
            omega
          · rw [upd_ne _ _ hn]
            by_cases hn2 : n = lhs
            · subst hn2
              rw [upd_same]
              omega
            · rw [upd_ne _ _ hn2]
              intro he
              exact hn2 (hinv.mem_inj lhs n (by rw [hay]; exact hmyU)
                (by rw [hay]; exact hmyR) (by rw [hay, he])).symm)
      (by
        dsimp only
        intro hmem
        exact (hinv.spare_mem m_y hmem).2.2 lhs hay)
  · intro q h1 h2 h3
    dsimp only at h3 ⊢
    by_cases hq : q = r_x
    · subst hq
      rw [upd_same] at h3
      exact absurd h3 hrUn
    · rw [upd_ne _ _ hq] at h3
      by_cases hqa : q = r_a
      · subst hqa
        rw [upd_same] at h3
        exact absurd h3 hlU
      · rw [upd_ne _ _ hqa] at h3
        refine hsoe q hqa h1 ?_ h3
        dsimp only [Vm.Tape.push] at h2
        exact h2
  · dsimp only
    rw [hkey, upd_ne _ _ (Ne.symm hro2), upd_same]
  · dsimp only
    rw [hkey, upd_ne _ _ hlr, upd_ne _ _ hlo, upd_same]
    omega
  · dsimp only
    rw [upd_same]
    omega
  · intro n h1 h2 h3
    dsimp only
    rw [hkey, upd_ne _ _ h3, upd_ne _ _ h1, upd_ne _ _ h2]
  · dsimp only [Vm.Tape.push]
    omega
  · dsimp only [Vm.Tape.push]
    omega
  · refine ⟨[op r_x r_a r_x, Vm.Op.Store r_a m_y], ?_, ?_, ?_⟩
    · dsimp only [Vm.Tape.push]
      simp [List.append_assoc]
    · intro vop hv
      rcases List.mem_cons.mp hv with hv1 | hv2
      · subst hv1
        refine ⟨?_, ?_⟩
        · intro rr hrr
          rw [hregs] at hrr
          rcases List.mem_cons.mp hrr with hr1 | hr2
          · subst hr1
            exact hrx1
          · rcases List.mem_cons.mp hr2 with hr3 | hr4
            · subst hr3
              exact hra1
            · rw [List.mem_singleton] at hr4
              subst hr4
              exact hrx1
        · intro z hz
          rw [hmems] at hz
          exact absurd hz (List.not_mem_nil _)
      · rw [List.mem_singleton] at hv2
        subst hv2
        refine ⟨?_, ?_⟩
        · intro rr hrr
          have hr2 : rr ∈ [r_a] := hrr
          rw [List.mem_singleton] at hr2
          subst hr2
          exact hra1
        · intro z hz
          have hz2 : z ∈ [m_y] := hz
          rw [List.mem_singleton] at hz2
          subst hz2
          refine ⟨hmyR, ?_⟩
          dsimp only [Vm.Tape.push]
          exact hmylt
    · intro V sem val hvo
      intro st hst
      intro n hnD
      have hrun : Vm.run sem [op r_x r_a r_x, Vm.Op.Store r_a m_y] st =
          upd (upd st m_y (st r_a)) r_x
            (F V sem ((upd st m_y (st r_a)) r_a) ((upd st m_y (st r_a)) r_x)) :=
        hexec V sem (upd st m_y (st r_a)) r_x r_a r_x
      rw [hrun, upd_ne _ _ hamy, upd_ne _ _ hrmy]
      have hql := hst lhs (by
        dsimp only
        rw [hkey, upd_ne _ _ hlr, upd_ne _ _ hlo, upd_same]
        omega)
      dsimp only at hql
      rw [hkey, upd_ne _ _ hlr, upd_ne _ _ hlo, upd_same] at hql
      have hqz := hst rhs (by
        dsimp only
        rw [upd_same]
        omega)
      dsimp only at hqz
      rw [upd_same] at hqz
      by_cases hn : n = out
      · subst hn
        rw [hao, upd_same, hql, hqz]
        exact hvo.symm
      · by_cases hnl : n = lhs
        · subst hnl
          rw [hay, upd_ne _ _ (Ne.symm hrmy), upd_same]
          exact hql
        · have hnr : n ≠ rhs := by
            intro he
            rw [he, haz] at hnD
            exact hnD rfl
          have hna : v.allocations n ≠ r_x := by
            intro he
            have h4 := hinv.reg_inv1 n (by rw [he]; exact hrx1)
            rw [he, hro] at h4
            exact hn h4.symm
          have hnm : v.allocations n ≠ m_y := by
            intro he
            exact hnl (hinv.mem_inj lhs n (by rw [hay]; exact hmyU)
              (by rw [hay]; exact hmyR) (by rw [hay, he])).symm
          rw [upd_ne _ _ hna, upd_ne _ _ hnm]
          have hq := hst n (by
            dsimp only
            rw [hkey, upd_ne _ _ hnr, upd_ne _ _ hn, upd_ne _ _ hnl]
            exact hnD)
          dsimp only at hq
          rw [hkey, upd_ne _ _ hnr, upd_ne _ _ hn, upd_ne _ _ hnl] at hq
          exact hq

theorem machinv_poke {R : Nat} {s : RegisterAllocator} {l : Lru}
    (h : MachInv R s) (hperm : l.order.Perm (List.range R)) :
    MachInv R { s with register_lru := l } := by
  obtain ⟨i1, i2, i3, i4, i5, i6, i7, i8, i9, i10, i11, i12, i13, i14,
    i15⟩ := h
  exact ⟨i1, i2, hperm, i4, i5, i6, i7, i8, i9, i10, i11, i12, i13, i14, i15⟩

theorem alloc_preserved_of_struct {R : Nat} {s0 s2 : RegisterAllocator}
    {r_a w : Nat} (hxw : s0.allocations w ≠ r_a)
    (hstruct : (s2.allocations = s0.allocations ∧
        s2.out.tape = s0.out.tape) ∨
      (∃ p m, s0.registers r_a = p ∧ p ≠ UMAX ∧ s0.allocations p = r_a ∧
        R ≤ m ∧ m < s2.out.slot_count ∧ (∀ n, s0.allocations n ≠ m) ∧
        m ≠ UMAX ∧ s2.allocations = upd s0.allocations p m ∧
        s2.out.tape = s0.out.tape ++ [Vm.Op.Load r_a m])) :
    s2.allocations w = s0.allocations w := by
  rcases hstruct with ⟨ha, ht⟩ |
    ⟨p, m, hpdef, hpU, halp, hm1, hm2, hm3, hmU, ha, ht⟩
  · rw [ha]
  · rw [ha]
    have hpw : w ≠ p := by
      intro he
      rw [← he] at halp
      exact hxw halp
    rw [upd_ne _ _ hpw]

theorem go_glue {R : Nat} {s s0 u sf : RegisterAllocator}
    {out lhs rhs : Nat} {F : (V : Type) → Sem V → V → V → V}
    {e0 : List Vm.Op} {g k1 : Nat}
    (hdom1 : ∀ n, s0.allocations n ≠ UMAX ↔ s.allocations n ≠ UMAX)
    (hlo1 : s.out.slot_count ≤ s0.out.slot_count)
    (hhi1 : s0.out.slot_count ≤ s.out.slot_count + k1)
    (ht0 : s0.out.tape = s.out.tape ++ e0)
    (hsl0 : ∀ vop ∈ e0, Vm.Op.slotsOk R s0.out.slot_count vop)
    (htr0 : transfersAll s s0 e0)
    (hua : u.allocations = s0.allocations) (huo : u.out = s0.out)
    (hgp : GoPost R out lhs rhs F g u sf) (hk : g + k1 ≤ 2) :
    MachInv R sf ∧ SpareOk R sf ∧ sf.allocations out = UMAX ∧
    sf.allocations lhs ≠ UMAX ∧ sf.allocations rhs ≠ UMAX ∧
    (∀ n, n ≠ out → n ≠ lhs → n ≠ rhs →
      (s.allocations n ≠ UMAX ↔ sf.allocations n ≠ UMAX)) ∧
    s.out.slot_count ≤ sf.out.slot_count ∧
    sf.out.slot_count ≤ s.out.slot_count + 2 ∧
    ∃ e, sf.out.tape = s.out.tape ++ e ∧
      (∀ vop ∈ e, Vm.Op.slotsOk R sf.out.slot_count vop) ∧
      ∀ (V : Type) (sem : Sem V) (val : Nat → V),
        val out = F V sem (val lhs) (val rhs) → transfers sem val s sf e := by
  obtain ⟨ginv, gso, gout, glhs, grhs, gdom, glo, ghi, e1, gt, gsl, gtr⟩ :=
    hgp
  rw [hua] at gdom
  rw [huo] at glo ghi gt
  refine ⟨ginv, gso, gout, glhs, grhs, ?_, ?_, ?_, e0 ++ e1, ?_, ?_, ?_⟩
  · intro n h1 h2 h3
    exact (hdom1 n).symm.trans (gdom n h1 h2 h3)
  · omega
  · omega
  · rw [gt, ht0, List.append_assoc]
  · intro vop hv
    rcases List.mem_append.mp hv with hv0 | hv1
    · exact slotsOk_mono (hsl0 vop hv0) (by omega)
    · exact gsl vop hv1
  · intro V sem val hvo
    refine transfers_comp (htr0 V sem val) ?_
    intro st hst
    have hq := gtr V sem val hvo st hst
    intro n hn
    have hq2 := hq n (by rw [hua]; exact hn)
    rw [hua] at hq2
    exact hq2

theorem op_reg_reg_go_spec {R : Nat} {s : RegisterAllocator}
    {out lhs rhs : Nat}
    (op : Nat → Nat → Nat → Vm.Op) (F : (V : Type) → Sem V → V → V → V)
    (h : MachInv R s) (hso : SpareOk R s) (hval : ValidRegLimit R)
    (hsafe : s.out.slot_count + 2 < UMAX)
    (hbound : s.allocations out ≠ UMAX) (hout : out ≠ UMAX)
    (hlo : lhs ≠ out) (hro2 : rhs ≠ out) (hlU : lhs ≠ UMAX)
    (hrUn : rhs ≠ UMAX)
    (hregs : ∀ o a b, (op o a b).regs = [o, a, b])
    (hmems : ∀ o a b, (op o a b).mems = [])
    (hexec : ∀ (V : Type) (sem : Sem V) (st : Nat → V) (o a b : Nat),
      Vm.Op.exec sem st (op o a b) = upd st o (F V sem (st a) (st b))) :
    ∃ s', s.op_reg_reg_go out lhs rhs op = some s' ∧ MachInv R s' ∧
      SpareOk R s' ∧ s'.allocations out = UMAX ∧
      s'.allocations lhs ≠ UMAX ∧ s'.allocations rhs ≠ UMAX ∧
      (∀ n, n ≠ out → n ≠ lhs → n ≠ rhs →
        (s.allocations n ≠ UMAX ↔ s'.allocations n ≠ UMAX)) ∧
      s.out.slot_count ≤ s'.out.slot_count ∧
      s'.out.slot_count ≤ s.out.slot_count + 2 ∧
      ∃ e, s'.out.tape = s.out.tape ++ e ∧
        (∀ vop ∈ e, Vm.Op.slotsOk R s'.out.slot_count vop) ∧
        ∀ (V : Type) (sem : Sem V) (val : Nat → V),
          val out = F V sem (val lhs) (val rhs) →
            transfers sem val s s' e := by
  obtain ⟨r_x, s0, hgor, hrx1, hao, hro0, hinv1, hso1, hrl1, hlo1, hhi1,
    hhead1, hdom1, e0, ht0, hsl0, htr0⟩ :=
    get_out_reg_spec h hso hval (by omega) hbound hout
  have hsafe0 : s0.out.slot_count < UMAX := by omega
  have hRU : R < UMAX := by
    have h255 := hval.2
    rw [RegisterAllocator.UMAX_eq]
    omega
  have hrlR : s0.reg_limit = R := by rw [hrl1, h.reg_limit_eq]
  by_cases hlR : s0.allocations lhs < s0.reg_limit
  · have heql := RegisterAllocator.get_allocation_eq_register s0 lhs hlR
    have hryR : s0.allocations lhs < R := by rw [← hrlR]; exact hlR
    by_cases hrR : s0.allocations rhs < s0.reg_limit
    · have hrzR : s0.allocations rhs < R := by rw [← hrlR]; exact hrR
      have heqr := RegisterAllocator.get_allocation_eq_register
        { s0 with register_lru := s0.register_lru.poke (s0.allocations lhs) }
        rhs hrR
      have hinvu := machinv_poke hinv1 (lru_poke_perm _ R _
        (lru_poke_perm _ R _ hinv1.lru_perm hryR) hrzR)
      obtain ⟨heq1, hgp⟩ := go_post_reg_reg op F hinvu hso1 hval hsafe0 hao
        hro0 hrx1 hout hlo hro2 rfl hryR rfl hrzR hregs hmems hexec
      refine ⟨_, ?_, go_glue hdom1 hlo1 hhi1 ht0 hsl0 htr0 rfl rfl hgp
        (by omega)⟩
      unfold RegisterAllocator.op_reg_reg_go
      rw [hgor]
      dsimp only
      rw [heql]
      dsimp only
      rw [heqr]
      dsimp only
      exact heq1
    · by_cases hrUn2 : s0.allocations rhs = UMAX
      · have heqr := RegisterAllocator.get_allocation_eq_unassigned
          { s0 with register_lru :=
            s0.register_lru.poke (s0.allocations lhs) } rhs hrR hrUn2
        have hinvu := machinv_poke hinv1
          (lru_poke_perm _ R _ hinv1.lru_perm hryR)
        obtain ⟨heq1, hgp⟩ := go_post_reg_un op F hinvu hso1 hval hsafe0 hao
          hro0 hrx1 hout hlo hro2 hrUn rfl hryR hrUn2 hregs hmems hexec
        refine ⟨_, ?_, go_glue hdom1 hlo1 hhi1 ht0 hsl0 htr0 rfl rfl hgp
          (by omega)⟩
        unfold RegisterAllocator.op_reg_reg_go
        rw [hgor]
        dsimp only
        rw [heql]
        dsimp only
        rw [heqr]
        dsimp only
        exact heq1
      · have heqr := RegisterAllocator.get_allocation_eq_memory
          { s0 with register_lru :=
            s0.register_lru.poke (s0.allocations lhs) } rhs hrR hrUn2
        have hmzR : R ≤ s0.allocations rhs := by
          rw [hrlR] at hrR
          omega
        have hinvu := machinv_poke hinv1
          (lru_poke_perm _ R _ hinv1.lru_perm hryR)
        obtain ⟨heq1, heq2, hgp⟩ := go_post_reg_mem op F hinvu hso1 hval
          hsafe0 hao hro0 hrx1 hout hlo hro2 hrUn rfl hryR rfl hmzR hrUn2
          hregs hmems hexec
        refine ⟨_, ?_, go_glue hdom1 hlo1 hhi1 ht0 hsl0 htr0 rfl rfl hgp
          (by omega)⟩
        unfold RegisterAllocator.op_reg_reg_go
        rw [hgor]
        dsimp only
        rw [heql]
        dsimp only
        rw [heqr]
        dsimp only
        rw [heq1]
        dsimp only
        exact heq2
  · by_cases hlUn2 : s0.allocations lhs = UMAX
    · have heql := RegisterAllocator.get_allocation_eq_unassigned s0 lhs
        hlR hlUn2
      by_cases hrR : s0.allocations rhs < s0.reg_limit
      · have hrzR : s0.allocations rhs < R := by rw [← hrlR]; exact hrR
        have heqr := RegisterAllocator.get_allocation_eq_register s0 rhs hrR
        have hinvu := machinv_poke hinv1
          (lru_poke_perm _ R _ hinv1.lru_perm hrzR)
        obtain ⟨heq1, hgp⟩ := go_post_un_reg op F hinvu hso1 hval hsafe0 hao
          hro0 hrx1 hout hlo hro2 hlU hlUn2 rfl hrzR hregs hmems hexec
        refine ⟨_, ?_, go_glue hdom1 hlo1 hhi1 ht0 hsl0 htr0 rfl rfl hgp
          (by omega)⟩
        unfold RegisterAllocator.op_reg_reg_go
        rw [hgor]
        dsimp only
        rw [heql]
        dsimp only
        rw [heqr]
        dsimp only
        exact heq1
      · by_cases hrUn2 : s0.allocations rhs = UMAX
        · have heqr := RegisterAllocator.get_allocation_eq_unassigned s0 rhs
            hrR hrUn2
          by_cases hlreq : lhs = rhs
          · subst hlreq
            obtain ⟨heq1, hgp⟩ := go_post_un_un_same op F hinv1 hso1 hval
              hsafe0 hao hro0 hrx1 hout hlo hlU hlUn2 hregs hmems hexec
            refine ⟨_, ?_, go_glue hdom1 hlo1 hhi1 ht0 hsl0 htr0 rfl rfl hgp
              (by omega)⟩
            unfold RegisterAllocator.op_reg_reg_go
            rw [hgor]
            dsimp only
            rw [heql]
            dsimp only
            rw [heql]
            dsimp only
            rw [if_pos rfl]
            dsimp only
            rw [heq1]
            dsimp only
            rw [if_neg (fun hc => hc rfl)]
          · obtain ⟨r_a, s2, hgr, hra1, hra2, hra3, hra4, hinv2, hsoe2,
              hrl2, hslo2, hshi2, hhead2, hne2, hregpres2, hdom2, hstruct⟩ :=
              get_register_spec hinv1 hso1 hval hsafe0
            have hxra : r_a ≠ r_x :=
              hne2 r_x hhead1 (by rw [hro0]; exact hout)
            have hao2 : s2.allocations out = r_x :=
              (alloc_preserved_of_struct
                (by rw [hao]; exact Ne.symm hxra) hstruct).trans hao
            have hro02 : s2.registers r_x = out :=
              (hregpres2 r_x (Ne.symm hxra)).trans hro0
            have hsafeu2 : s2.out.slot_count < UMAX := by omega
            have hpl : s2.allocations lhs = UMAX :=
              (alloc_preserved_of_struct
                (by rw [hlUn2]; omega) hstruct).trans hlUn2
            have hpr : s2.allocations rhs = UMAX :=
              (alloc_preserved_of_struct
                (by rw [hrUn2]; omega) hstruct).trans hrUn2
            obtain ⟨eg, htg, hslg, htrg⟩ :=
              get_register_transfers hinv1 hra1 hstruct
            obtain ⟨heq1, heq2, hgp⟩ := go_post_un_un_diff op F hinv2 hsoe2
              hval hsafeu2 hao2 hro02 hrx1 hout hra1 hra2 hra3 hra4 hxra hlo
              hro2 hlU hrUn hlreq hpl hpr hregs hmems hexec
            refine ⟨_, ?_, go_glue
              (fun n => (hdom2 n).trans (hdom1 n)) (by omega)
              (show s2.out.slot_count ≤ s.out.slot_count + 2 by omega)
              (by rw [htg, ht0, List.append_assoc])
              (by
                intro vop hv
                rcases List.mem_append.mp hv with hv0 | hv1
                · exact slotsOk_mono (hsl0 vop hv0) (by omega)
                · exact hslg vop hv1)
              (fun V sem val =>
                transfers_comp (htr0 V sem val) (htrg V sem val))
              rfl rfl hgp (by omega)⟩
            unfold RegisterAllocator.op_reg_reg_go
            rw [hgor]
            dsimp only
            rw [heql]
            dsimp only
            rw [heqr]
            dsimp only
            rw [if_neg hlreq]
            rw [hgr]
            dsimp only
            rw [heq1]
            dsimp only
            rw [if_pos hlreq]
            exact heq2
        · have heqr := RegisterAllocator.get_allocation_eq_memory s0 rhs
            hrR hrUn2
          have hmzR : R ≤ s0.allocations rhs := by
            rw [hrlR] at hrR
            omega
          have hlreq : lhs ≠ rhs := by
            intro he
            rw [he] at hlUn2
            exact hrUn2 hlUn2
          obtain ⟨r_a, s2, hgr, hra1, hra2, hra3, hra4, hinv2, hsoe2,
            hrl2, hslo2, hshi2, hhead2, hne2, hregpres2, hdom2, hstruct⟩ :=
            get_register_spec hinv1 hso1 hval hsafe0
          have hxra : r_a ≠ r_x :=
            hne2 r_x hhead1 (by rw [hro0]; exact hout)
          have hao2 : s2.allocations out = r_x :=
            (alloc_preserved_of_struct
              (by rw [hao]; exact Ne.symm hxra) hstruct).trans hao
          have hro02 : s2.registers r_x = out :=
            (hregpres2 r_x (Ne.symm hxra)).trans hro0
          have hsafeu2 : s2.out.slot_count < UMAX := by omega
          have hpl : s2.allocations lhs = UMAX :=
            (alloc_preserved_of_struct
              (by rw [hlUn2]; omega) hstruct).trans hlUn2
          have hpr : s2.allocations rhs = s0.allocations rhs :=
            alloc_preserved_of_struct (by omega) hstruct
          obtain ⟨eg, htg, hslg, htrg⟩ :=
            get_register_transfers hinv1 hra1 hstruct
          obtain ⟨heq1, heq2, heq3, hgp⟩ := go_post_un_mem op F hinv2 hsoe2
            hval hsafeu2 hao2 hro02 hrx1 hout hra1 hra2 hra3 hra4 hxra hlo
            hro2 hlU hrUn hlreq hpl hpr hmzR hrUn2 hregs hmems hexec
          refine ⟨_, ?_, go_glue
            (fun n => (hdom2 n).trans (hdom1 n)) (by omega)
              (show s2.out.slot_count ≤ s.out.slot_count + 2 by omega)
            (by rw [htg, ht0, List.append_assoc])
            (by
              intro vop hv
              rcases List.mem_append.mp hv with hv0 | hv1
              · exact slotsOk_mono (hsl0 vop hv0) (by omega)
              · exact hslg vop hv1)
            (fun V sem val =>
              transfers_comp (htr0 V sem val) (htrg V sem val))
            rfl rfl hgp (by omega)⟩
          unfold RegisterAllocator.op_reg_reg_go
          rw [hgor]
          dsimp only
          rw [heql]
          dsimp only
          rw [heqr]
          dsimp only
          rw [hgr]
          dsimp only
          rw [if_pos hxra]
          rw [heq1]
          dsimp only
          rw [if_pos hlreq]
          rw [heq2]
          dsimp only
          exact heq3
    · have heql := RegisterAllocator.get_allocation_eq_memory s0 lhs
        hlR hlUn2
      have hmyR : R ≤ s0.allocations lhs := by
        rw [hrlR] at hlR
        omega
      by_cases hrR : s0.allocations rhs < s0.reg_limit
      · have hrzR : s0.allocations rhs < R := by rw [← hrlR]; exact hrR
        have heqr := RegisterAllocator.get_allocation_eq_register s0 rhs hrR
        have hinvu := machinv_poke hinv1
          (lru_poke_perm _ R _ hinv1.lru_perm hrzR)
        obtain ⟨heq1, heq2, hgp⟩ := go_post_mem_reg op F hinvu hso1 hval
          hsafe0 hao hro0 hrx1 hout hlo hro2 hlU rfl hmyR hlUn2 rfl hrzR
          hregs hmems hexec
        refine ⟨_, ?_, go_glue hdom1 hlo1 hhi1 ht0 hsl0 htr0 rfl rfl hgp
          (by omega)⟩
        unfold RegisterAllocator.op_reg_reg_go
        rw [hgor]
        dsimp only
        rw [heql]
        dsimp only
        rw [heqr]
        dsimp only
        rw [heq1]
        dsimp only
        exact heq2
      · by_cases hrUn2 : s0.allocations rhs = UMAX
        · have heqr := RegisterAllocator.get_allocation_eq_unassigned s0 rhs
            hrR hrUn2
          have hlreq : lhs ≠ rhs := by
            intro he
            rw [he, hrUn2] at hlUn2
            exact hlUn2 rfl
          obtain ⟨r_a, s2, hgr, hra1, hra2, hra3, hra4, hinv2, hsoe2,
            hrl2, hslo2, hshi2, hhead2, hne2, hregpres2, hdom2, hstruct⟩ :=
            get_register_spec hinv1 hso1 hval hsafe0
          have hxra : r_a ≠ r_x :=
            hne2 r_x hhead1 (by rw [hro0]; exact hout)
          have hao2 : s2.allocations out = r_x :=
            (alloc_preserved_of_struct
              (by rw [hao]; exact Ne.symm hxra) hstruct).trans hao
          have hro02 : s2.registers r_x = out :=
            (hregpres2 r_x (Ne.symm hxra)).trans hro0
          have hsafeu2 : s2.out.slot_count < UMAX := by omega
          have hpl : s2.allocations lhs = s0.allocations lhs :=
            alloc_preserved_of_struct (by omega) hstruct
          have hpr : s2.allocations rhs = UMAX :=
            (alloc_preserved_of_struct
              (by rw [hrUn2]; omega) hstruct).trans hrUn2
          obtain ⟨eg, htg, hslg, htrg⟩ :=
            get_register_transfers hinv1 hra1 hstruct
          obtain ⟨heq1, heq2, heq3, hgp⟩ := go_post_mem_un op F hinv2 hsoe2
            hval hsafeu2 hao2 hro02 hrx1 hout hra1 hra2 hra3 hra4 hxra hlo
            hro2 hlU hrUn hlreq hpl hmyR hlUn2 hpr hregs hmems hexec
          refine ⟨_, ?_, go_glue
            (fun n => (hdom2 n).trans (hdom1 n)) (by omega)
              (show s2.out.slot_count ≤ s.out.slot_count + 2 by omega)
            (by rw [htg, ht0, List.append_assoc])
            (by
              intro vop hv
              rcases List.mem_append.mp hv with hv0 | hv1
              · exact slotsOk_mono (hsl0 vop hv0) (by omega)
              · exact hslg vop hv1)
            (fun V sem val =>
              transfers_comp (htr0 V sem val) (htrg V sem val))
            rfl rfl hgp (by omega)⟩
          unfold RegisterAllocator.op_reg_reg_go
          rw [hgor]
          dsimp only
          rw [heql]
          dsimp only
          rw [heqr]
          dsimp only
          rw [hgr]
          dsimp only
          rw [if_pos hxra]
          rw [heq1]
          dsimp only
          rw [if_pos hlreq]
          rw [heq2]
          dsimp only
          exact heq3
        · have heqr := RegisterAllocator.get_allocation_eq_memory s0 rhs
            hrR hrUn2
          have hmzR : R ≤ s0.allocations rhs := by
            rw [hrlR] at hrR
            omega
          by_cases hlreq : lhs = rhs
          · subst hlreq
            obtain ⟨heq1, heq2, hgp⟩ := go_post_mem_mem_same op F hinv1 hso1
              hval hsafe0 hao hro0 hrx1 hout hlo hlU rfl hmyR hlUn2 hregs
              hmems hexec
            refine ⟨_, ?_, go_glue hdom1 hlo1 hhi1 ht0 hsl0 htr0 rfl rfl hgp
              (by omega)⟩
            unfold RegisterAllocator.op_reg_reg_go
            rw [hgor]
            dsimp only
            rw [heql]
            dsimp only
            rw [heql]
            dsimp only
            rw [if_pos rfl]
            dsimp only
            rw [heq1]
            dsimp only
            rw [if_neg (fun hc => hc rfl)]
            dsimp only
            rw [heq2]
            dsimp only
            rw [if_neg (fun hc => hc rfl)]
          · obtain ⟨r_a, s2, hgr, hra1, hra2, hra3, hra4, hinv2, hsoe2,
              hrl2, hslo2, hshi2, hhead2, hne2, hregpres2, hdom2, hstruct⟩ :=
              get_register_spec hinv1 hso1 hval hsafe0
            have hxra : r_a ≠ r_x :=
              hne2 r_x hhead1 (by rw [hro0]; exact hout)
            have hao2 : s2.allocations out = r_x :=
              (alloc_preserved_of_struct
                (by rw [hao]; exact Ne.symm hxra) hstruct).trans hao
            have hro02 : s2.registers r_x = out :=
              (hregpres2 r_x (Ne.symm hxra)).trans hro0
            have hsafeu2 : s2.out.slot_count < UMAX := by omega
            have hpl : s2.allocations lhs = s0.allocations lhs :=
              alloc_preserved_of_struct (by omega) hstruct
            have hpr : s2.allocations rhs = s0.allocations rhs :=
              alloc_preserved_of_struct (by omega) hstruct
            obtain ⟨eg, htg, hslg, htrg⟩ :=
              get_register_transfers hinv1 hra1 hstruct
            obtain ⟨heq1, heq2, heq3, heq4, hgp⟩ := go_post_mem_mem_diff op F
              hinv2 hsoe2 hval hsafeu2 hao2 hro02 hrx1 hout hra1 hra2 hra3
              hra4 hxra hlo hro2 hlU hrUn hlreq hpl hmyR hlUn2 hpr hmzR
              hrUn2 hregs hmems hexec
            refine ⟨_, ?_, go_glue
              (fun n => (hdom2 n).trans (hdom1 n)) (by omega)
              (show s2.out.slot_count ≤ s.out.slot_count + 2 by omega)
              (by rw [htg, ht0, List.append_assoc])
              (by
                intro vop hv
                rcases List.mem_append.mp hv with hv0 | hv1
                · exact slotsOk_mono (hsl0 vop hv0) (by omega)
                · exact hslg vop hv1)
              (fun V sem val =>
                transfers_comp (htr0 V sem val) (htrg V sem val))
              rfl rfl hgp (by omega)⟩
            unfold RegisterAllocator.op_reg_reg_go
            rw [hgor]
            dsimp only
            rw [heql]
            dsimp only
            rw [heqr]
            dsimp only
            rw [if_neg hlreq]
            rw [hgr]
            dsimp only
            rw [heq1]
            dsimp only
            rw [if_pos hlreq]
            rw [heq2]
            dsimp only
            rw [heq3]
            dsimp only
            rw [if_pos hlreq]
            exact heq4

theorem oppost_mk0 {R : Nat} {s sf : RegisterAllocator} (o : Ssa.Op)
    (F : (V : Type) → Sem V → V)
    (hops : o.operands = [])
    (hrhs : ∀ (V : Type) (sem : Sem V) (val : Nat → V),
      o.rhsVal sem val = F V sem)
    (h1 : MachInv R sf) (h2 : SpareOk R sf)
    (h3 : sf.allocations o.outIdx = UMAX)
    (h5 : ∀ n, n ≠ o.outIdx →
      (s.allocations n ≠ UMAX ↔ sf.allocations n ≠ UMAX))
    (h6 : s.out.slot_count ≤ sf.out.slot_count)
    (h7 : sf.out.slot_count ≤ s.out.slot_count + 1)
    (h8 : ∃ e, sf.out.tape = s.out.tape ++ e ∧
      (∀ vop ∈ e, Vm.Op.slotsOk R sf.out.slot_count vop) ∧
      ∀ (V : Type) (sem : Sem V) (val : Nat → V),
        val o.outIdx = F V sem → transfers sem val s sf e) :
    OpPost R o s sf := by
  obtain ⟨e, he1, he2, he3⟩ := h8
  refine ⟨h1, h2, h3, ?_, ?_, h6, by omega, e, he1, he2, ?_⟩
  · intro a ha
    rw [hops] at ha
    exact absurd ha (List.not_mem_nil _)
  · intro n hn _
    exact h5 n hn
  · intro V sem val hvo
    exact he3 V sem val (by rw [hvo, hrhs])

theorem oppost_mk1 {R : Nat} {s sf : RegisterAllocator} (o : Ssa.Op)
    (F : (V : Type) → Sem V → V → V) {arg : Nat}
    (hops : o.operands = [arg])
    (hrhs : ∀ (V : Type) (sem : Sem V) (val : Nat → V),
      o.rhsVal sem val = F V sem (val arg))
    (h1 : MachInv R sf) (h2 : SpareOk R sf)
    (h3 : sf.allocations o.outIdx = UMAX)
    (h4 : sf.allocations arg ≠ UMAX)
    (h5 : ∀ n, n ≠ o.outIdx → n ≠ arg →
      (s.allocations n ≠ UMAX ↔ sf.allocations n ≠ UMAX))
    (h6 : s.out.slot_count ≤ sf.out.slot_count)
    (h7 : sf.out.slot_count ≤ s.out.slot_count + 1)
    (h8 : ∃ e, sf.out.tape = s.out.tape ++ e ∧
      (∀ vop ∈ e, Vm.Op.slotsOk R sf.out.slot_count vop) ∧
      ∀ (V : Type) (sem : Sem V) (val : Nat → V),
        val o.outIdx = F V sem (val arg) → transfers sem val s sf e) :
    OpPost R o s sf := by
  obtain ⟨e, he1, he2, he3⟩ := h8
  refine ⟨h1, h2, h3, ?_, ?_, h6, by omega, e, he1, he2, ?_⟩
  · intro a ha
    rw [hops] at ha
    rw [List.mem_singleton] at ha
    subst ha
    exact h4
  · intro n hn hnm
    refine h5 n hn ?_
    intro he
    refine hnm ?_
    rw [hops, he]
    exact List.mem_singleton.mpr rfl
  · intro V sem val hvo
    exact he3 V sem val (by rw [hvo, hrhs])

theorem oppost_mk2 {R : Nat} {s sf : RegisterAllocator} (o : Ssa.Op)
    (F : (V : Type) → Sem V → V → V → V) {lhs rhs : Nat}
    (hops : o.operands = [lhs, rhs])
    (hrhs : ∀ (V : Type) (sem : Sem V) (val : Nat → V),
      o.rhsVal sem val = F V sem (val lhs) (val rhs))
    (h1 : MachInv R sf) (h2 : SpareOk R sf)
    (h3 : sf.allocations o.outIdx = UMAX)
    (h4l : sf.allocations lhs ≠ UMAX) (h4r : sf.allocations rhs ≠ UMAX)
    (h5 : ∀ n, n ≠ o.outIdx → n ≠ lhs → n ≠ rhs →
      (s.allocations n ≠ UMAX ↔ sf.allocations n ≠ UMAX))
    (h6 : s.out.slot_count ≤ sf.out.slot_count)
    (h7 : sf.out.slot_count ≤ s.out.slot_count + 2)
    (h8 : ∃ e, sf.out.tape = s.out.tape ++ e ∧
      (∀ vop ∈ e, Vm.Op.slotsOk R sf.out.slot_count vop) ∧
      ∀ (V : Type) (sem : Sem V) (val : Nat → V),
        val o.outIdx = F V sem (val lhs) (val rhs) →
          transfers sem val s sf e) :
    OpPost R o s sf := by
  obtain ⟨e, he1, he2, he3⟩ := h8
  refine ⟨h1, h2, h3, ?_, ?_, h6, by omega, e, he1, he2, ?_⟩
  · intro a ha
    rw [hops] at ha
    rcases List.mem_cons.mp ha with ha1 | ha2
    · subst ha1
      exact h4l
    · rw [List.mem_singleton] at ha2
      subst ha2
      exact h4r
  · intro n hn hnm
    refine h5 n hn ?_ ?_
    · intro he
      refine hnm ?_
      rw [hops, he]
      exact List.mem_cons_self _ _
    · intro he
      refine hnm ?_
      rw [hops, he]
      exact List.mem_cons_of_mem _ (List.mem_singleton.mpr rfl)
  · intro V sem val hvo
    exact he3 V sem val (by rw [hvo, hrhs])

theorem op_spec {R : Nat} {s : RegisterAllocator} (o : Ssa.Op)
    (h : MachInv R s) (hso : SpareOk R s) (hval : ValidRegLimit R)
    (hsafe : s.out.slot_count + 2 < UMAX)
    (hbound : s.allocations o.outIdx ≠ UMAX) (hout : o.outIdx ≠ UMAX)
    (hops : ∀ a ∈ o.operands, a ≠ o.outIdx ∧ a ≠ UMAX)
    (hinp : o.inputSlot?.getD 0 < 256) :
    ∃ s', s.op o = some s' ∧ OpPost R o s s' := by
  cases o with
  | Var out i =>
    obtain ⟨s', heq, h1, h2, h3, h5, h6, h7, h8⟩ :=
      op_out_only_spec (fun o2 => Vm.Op.Var o2 i) (fun V sem => sem.varF i)
        h hso hval (by omega) hbound hout (fun _ => rfl) (fun _ => rfl)
        (fun V sem st o2 => rfl)
    exact ⟨s', heq, oppost_mk0 _ (fun V sem => sem.varF i) rfl
      (fun V sem val => rfl) h1 h2 h3 h5 h6 h7 h8⟩
  | Input out i =>
    have hi : i < 256 := hinp
    obtain ⟨s', heq, h1, h2, h3, h5, h6, h7, h8⟩ :=
      op_out_only_spec (fun o2 => Vm.Op.Input o2 i)
        (fun V sem => sem.inputF i)
        h hso hval (by omega) hbound hout (fun _ => rfl) (fun _ => rfl)
        (fun V sem st o2 => rfl)
    refine ⟨s', ?_, oppost_mk0 _ (fun V sem => sem.inputF i) rfl
      (fun V sem val => rfl) h1 h2 h3 h5 h6 h7 h8⟩
    show (if i < 256 then s.op_input out i else none) = some s'
    rw [if_pos hi]
    exact heq
  | CopyImm out imm =>
    obtain ⟨s', heq, h1, h2, h3, h5, h6, h7, h8⟩ :=
      op_out_only_spec (fun o2 => Vm.Op.CopyImm o2 imm)
        (fun V sem => sem.immF imm)
        h hso hval (by omega) hbound hout (fun _ => rfl) (fun _ => rfl)
        (fun V sem st o2 => rfl)
    exact ⟨s', heq, oppost_mk0 _ (fun V sem => sem.immF imm) rfl
      (fun V sem val => rfl) h1 h2 h3 h5 h6 h7 h8⟩
  | NegReg out arg =>
    obtain ⟨harg1, harg2⟩ := hops arg (List.mem_singleton.mpr rfl)
    obtain ⟨s', heq, h1, h2, h3, h4, h5, h6, h7, h8⟩ :=
      op_reg_fn_spec Vm.Op.NegReg (fun V sem v => sem.negF v) h hso hval
        (by omega) hbound hout harg1 harg2 (fun o2 a => rfl)
        (fun o2 a => rfl) (fun V sem st o2 a => rfl)
    exact ⟨s', heq, oppost_mk1 _ (fun V sem v => sem.negF v) rfl
      (fun V sem val => rfl) h1 h2 h3 h4 h5 h6 h7 h8⟩
  | AbsReg out arg =>
    obtain ⟨harg1, harg2⟩ := hops arg (List.mem_singleton.mpr rfl)
    obtain ⟨s', heq, h1, h2, h3, h4, h5, h6, h7, h8⟩ :=
      op_reg_fn_spec Vm.Op.AbsReg (fun V sem v => sem.absF v) h hso hval
        (by omega) hbound hout harg1 harg2 (fun o2 a => rfl)
        (fun o2 a => rfl) (fun V sem st o2 a => rfl)
    exact ⟨s', heq, oppost_mk1 _ (fun V sem v => sem.absF v) rfl
      (fun V sem val => rfl) h1 h2 h3 h4 h5 h6 h7 h8⟩
  | RecipReg out arg =>
    obtain ⟨harg1, harg2⟩ := hops arg (List.mem_singleton.mpr rfl)
    obtain ⟨s', heq, h1, h2, h3, h4, h5, h6, h7, h8⟩ :=
      op_reg_fn_spec Vm.Op.RecipReg (fun V sem v => sem.recipF v) h hso hval
        (by omega) hbound hout harg1 harg2 (fun o2 a => rfl)
        (fun o2 a => rfl) (fun V sem st o2 a => rfl)
    exact ⟨s', heq, oppost_mk1 _ (fun V sem v => sem.recipF v) rfl
      (fun V sem val => rfl) h1 h2 h3 h4 h5 h6 h7 h8⟩
  | SqrtReg out arg =>
    obtain ⟨harg1, harg2⟩ := hops arg (List.mem_singleton.mpr rfl)
    obtain ⟨s', heq, h1, h2, h3, h4, h5, h6, h7, h8⟩ :=
      op_reg_fn_spec Vm.Op.SqrtReg (fun V sem v => sem.sqrtF v) h hso hval
        (by omega) hbound hout harg1 harg2 (fun o2 a => rfl)
        (fun o2 a => rfl) (fun V sem st o2 a => rfl)
    exact ⟨s', heq, oppost_mk1 _ (fun V sem v => sem.sqrtF v) rfl
      (fun V sem val => rfl) h1 h2 h3 h4 h5 h6 h7 h8⟩
  | SquareReg out arg =>
    obtain ⟨harg1, harg2⟩ := hops arg (List.mem_singleton.mpr rfl)
    obtain ⟨s', heq, h1, h2, h3, h4, h5, h6, h7, h8⟩ :=
      op_reg_fn_spec Vm.Op.SquareReg (fun V sem v => sem.squareF v) h hso hval
        (by omega) hbound hout harg1 harg2 (fun o2 a => rfl)
        (fun o2 a => rfl) (fun V sem st o2 a => rfl)
    exact ⟨s', heq, oppost_mk1 _ (fun V sem v => sem.squareF v) rfl
      (fun V sem val => rfl) h1 h2 h3 h4 h5 h6 h7 h8⟩
  | ExpReg out arg =>
    obtain ⟨harg1, harg2⟩ := hops arg (List.mem_singleton.mpr rfl)
    obtain ⟨s', heq, h1, h2, h3, h4, h5, h6, h7, h8⟩ :=
      op_reg_fn_spec Vm.Op.ExpReg (fun V sem v => sem.expF v) h hso hval
        (by omega) hbound hout harg1 harg2 (fun o2 a => rfl)
        (fun o2 a => rfl) (fun V sem st o2 a => rfl)
    exact ⟨s', heq, oppost_mk1 _ (fun V sem v => sem.expF v) rfl
      (fun V sem val => rfl) h1 h2 h3 h4 h5 h6 h7 h8⟩
  | CopyReg out arg =>
    obtain ⟨harg1, harg2⟩ := hops arg (List.mem_singleton.mpr rfl)
    obtain ⟨s', heq, h1, h2, h3, h4, h5, h6, h7, h8⟩ :=
      op_reg_fn_spec Vm.Op.CopyReg (fun V sem v => sem.copyF v) h hso hval
        (by omega) hbound hout harg1 harg2 (fun o2 a => rfl)
        (fun o2 a => rfl) (fun V sem st o2 a => rfl)
    exact ⟨s', heq, oppost_mk1 _ (fun V sem v => sem.copyF v) rfl
      (fun V sem val => rfl) h1 h2 h3 h4 h5 h6 h7 h8⟩
  | SineReg out arg =>
    obtain ⟨harg1, harg2⟩ := hops arg (List.mem_singleton.mpr rfl)
    obtain ⟨s', heq, h1, h2, h3, h4, h5, h6, h7, h8⟩ :=
      op_reg_fn_spec Vm.Op.SineReg (fun V sem v => sem.sinF v) h hso hval
        (by omega) hbound hout harg1 harg2 (fun o2 a => rfl)
        (fun o2 a => rfl) (fun V sem st o2 a => rfl)
    exact ⟨s', heq, oppost_mk1 _ (fun V sem v => sem.sinF v) rfl
      (fun V sem val => rfl) h1 h2 h3 h4 h5 h6 h7 h8⟩
  | CosineReg out arg =>
    obtain ⟨harg1, harg2⟩ := hops arg (List.mem_singleton.mpr rfl)
    obtain ⟨s', heq, h1, h2, h3, h4, h5, h6, h7, h8⟩ :=
      op_reg_fn_spec Vm.Op.CosineReg (fun V sem v => sem.cosF v) h hso hval
        (by omega) hbound hout harg1 harg2 (fun o2 a => rfl)
        (fun o2 a => rfl) (fun V sem st o2 a => rfl)
    exact ⟨s', heq, oppost_mk1 _ (fun V sem v => sem.cosF v) rfl
      (fun V sem val => rfl) h1 h2 h3 h4 h5 h6 h7 h8⟩
  | AddRegImm out arg imm =>
    obtain ⟨harg1, harg2⟩ := hops arg (List.mem_singleton.mpr rfl)
    obtain ⟨s', heq, h1, h2, h3, h4, h5, h6, h7, h8⟩ :=
      op_reg_fn_spec (fun o2 a => Vm.Op.AddRegImm o2 a imm)
        (fun V sem v => sem.addRi v imm) h hso hval
        (by omega) hbound hout harg1 harg2 (fun o2 a => rfl)
        (fun o2 a => rfl) (fun V sem st o2 a => rfl)
    exact ⟨s', heq, oppost_mk1 _ (fun V sem v => sem.addRi v imm) rfl
      (fun V sem val => rfl) h1 h2 h3 h4 h5 h6 h7 h8⟩
  | SubRegImm out arg imm =>
    obtain ⟨harg1, harg2⟩ := hops arg (List.mem_singleton.mpr rfl)
    obtain ⟨s', heq, h1, h2, h3, h4, h5, h6, h7, h8⟩ :=
      op_reg_fn_spec (fun o2 a => Vm.Op.SubRegImm o2 a imm)
        (fun V sem v => sem.subRi v imm) h hso hval
        (by omega) hbound hout harg1 harg2 (fun o2 a => rfl)
        (fun o2 a => rfl) (fun V sem st o2 a => rfl)
    exact ⟨s', heq, oppost_mk1 _ (fun V sem v => sem.subRi v imm) rfl
      (fun V sem val => rfl) h1 h2 h3 h4 h5 h6 h7 h8⟩
  | SubImmReg out arg imm =>
    obtain ⟨harg1, harg2⟩ := hops arg (List.mem_singleton.mpr rfl)
    obtain ⟨s', heq, h1, h2, h3, h4, h5, h6, h7, h8⟩ :=
      op_reg_fn_spec (fun o2 a => Vm.Op.SubImmReg o2 a imm)
        (fun V sem v => sem.subIr v imm) h hso hval
        (by omega) hbound hout harg1 harg2 (fun o2 a => rfl)
        (fun o2 a => rfl) (fun V sem st o2 a => rfl)
    exact ⟨s', heq, oppost_mk1 _ (fun V sem v => sem.subIr v imm) rfl
      (fun V sem val => rfl) h1 h2 h3 h4 h5 h6 h7 h8⟩
  | MulRegImm out arg imm =>
    obtain ⟨harg1, harg2⟩ := hops arg (List.mem_singleton.mpr rfl)
    obtain ⟨s', heq, h1, h2, h3, h4, h5, h6, h7, h8⟩ :=
      op_reg_fn_spec (fun o2 a => Vm.Op.MulRegImm o2 a imm)
        (fun V sem v => sem.mulRi v imm) h hso hval
        (by omega) hbound hout harg1 harg2 (fun o2 a => rfl)
        (fun o2 a => rfl) (fun V sem st o2 a => rfl)
    exact ⟨s', heq, oppost_mk1 _ (fun V sem v => sem.mulRi v imm) rfl
      (fun V sem val => rfl) h1 h2 h3 h4 h5 h6 h7 h8⟩
  | DivRegImm out arg imm =>
    obtain ⟨harg1, harg2⟩ := hops arg (List.mem_singleton.mpr rfl)
    obtain ⟨s', heq, h1, h2, h3, h4, h5, h6, h7, h8⟩ :=
      op_reg_fn_spec (fun o2 a => Vm.Op.DivRegImm o2 a imm)
        (fun V sem v => sem.divRi v imm) h hso hval
        (by omega) hbound hout harg1 harg2 (fun o2 a => rfl)
        (fun o2 a => rfl) (fun V sem st o2 a => rfl)
    exact ⟨s', heq, oppost_mk1 _ (fun V sem v => sem.divRi v imm) rfl
      (fun V sem val => rfl) h1 h2 h3 h4 h5 h6 h7 h8⟩
  | DivImmReg out arg imm =>
    obtain ⟨harg1, harg2⟩ := hops arg (List.mem_singleton.mpr rfl)
    obtain ⟨s', heq, h1, h2, h3, h4, h5, h6, h7, h8⟩ :=
      op_reg_fn_spec (fun o2 a => Vm.Op.DivImmReg o2 a imm)
        (fun V sem v => sem.divIr v imm) h hso hval
        (by omega) hbound hout harg1 harg2 (fun o2 a => rfl)
        (fun o2 a => rfl) (fun V sem st o2 a => rfl)
    exact ⟨s', heq, oppost_mk1 _ (fun V sem v => sem.divIr v imm) rfl
      (fun V sem val => rfl) h1 h2 h3 h4 h5 h6 h7 h8⟩
  | MinRegImm out arg imm =>
    obtain ⟨harg1, harg2⟩ := hops arg (List.mem_singleton.mpr rfl)
    obtain ⟨s', heq, h1, h2, h3, h4, h5, h6, h7, h8⟩ :=
      op_reg_fn_spec (fun o2 a => Vm.Op.MinRegImm o2 a imm)
        (fun V sem v => sem.minRi v imm) h hso hval
        (by omega) hbound hout harg1 harg2 (fun o2 a => rfl)
        (fun o2 a => rfl) (fun V sem st o2 a => rfl)
    exact ⟨s', heq, oppost_mk1 _ (fun V sem v => sem.minRi v imm) rfl
      (fun V sem val => rfl) h1 h2 h3 h4 h5 h6 h7 h8⟩
  | MaxRegImm out arg imm =>
    obtain ⟨harg1, harg2⟩ := hops arg (List.mem_singleton.mpr rfl)
    obtain ⟨s', heq, h1, h2, h3, h4, h5, h6, h7, h8⟩ :=
      op_reg_fn_spec (fun o2 a => Vm.Op.MaxRegImm o2 a imm)
        (fun V sem v => sem.maxRi v imm) h hso hval
        (by omega) hbound hout harg1 harg2 (fun o2 a => rfl)
        (fun o2 a => rfl) (fun V sem st o2 a => rfl)
    exact ⟨s', heq, oppost_mk1 _ (fun V sem v => sem.maxRi v imm) rfl
      (fun V sem val => rfl) h1 h2 h3 h4 h5 h6 h7 h8⟩
  | AddRegReg out lhs rhs =>
    obtain ⟨hl1, hl2⟩ := hops lhs (List.mem_cons_self _ _)
    obtain ⟨hr1, hr2⟩ :=
      hops rhs (List.mem_cons_of_mem _ (List.mem_singleton.mpr rfl))
    obtain ⟨s', heq, h1, h2, h3, h4l, h4r, h5, h6, h7, h8⟩ :=
      op_reg_reg_go_spec Vm.Op.AddRegReg (fun V sem a b => sem.addF a b)
        h hso hval hsafe hbound hout hl1 hr1 hl2 hr2
        (fun o2 a b => rfl) (fun o2 a b => rfl)
        (fun V sem st o2 a b => rfl)
    exact ⟨s', heq, oppost_mk2 _ (fun V sem a b => sem.addF a b) rfl
      (fun V sem val => rfl) h1 h2 h3 h4l h4r h5 h6 h7 h8⟩
  | SubRegReg out lhs rhs =>
    obtain ⟨hl1, hl2⟩ := hops lhs (List.mem_cons_self _ _)
    obtain ⟨hr1, hr2⟩ :=
      hops rhs (List.mem_cons_of_mem _ (List.mem_singleton.mpr rfl))
    obtain ⟨s', heq, h1, h2, h3, h4l, h4r, h5, h6, h7, h8⟩ :=
      op_reg_reg_go_spec Vm.Op.SubRegReg (fun V sem a b => sem.subF a b)
        h hso hval hsafe hbound hout hl1 hr1 hl2 hr2
        (fun o2 a b => rfl) (fun o2 a b => rfl)
        (fun V sem st o2 a b => rfl)
    exact ⟨s', heq, oppost_mk2 _ (fun V sem a b => sem.subF a b) rfl
      (fun V sem val => rfl) h1 h2 h3 h4l h4r h5 h6 h7 h8⟩
  | MulRegReg out lhs rhs =>
    obtain ⟨hl1, hl2⟩ := hops lhs (List.mem_cons_self _ _)
    obtain ⟨hr1, hr2⟩ :=
      hops rhs (List.mem_cons_of_mem _ (List.mem_singleton.mpr rfl))
    obtain ⟨s', heq, h1, h2, h3, h4l, h4r, h5, h6, h7, h8⟩ :=
      op_reg_reg_go_spec Vm.Op.MulRegReg (fun V sem a b => sem.mulF a b)
        h hso hval hsafe hbound hout hl1 hr1 hl2 hr2
        (fun o2 a b => rfl) (fun o2 a b => rfl)
        (fun V sem st o2 a b => rfl)
    exact ⟨s', heq, oppost_mk2 _ (fun V sem a b => sem.mulF a b) rfl
      (fun V sem val => rfl) h1 h2 h3 h4l h4r h5 h6 h7 h8⟩
  | DivRegReg out lhs rhs =>
    obtain ⟨hl1, hl2⟩ := hops lhs (List.mem_cons_self _ _)
    obtain ⟨hr1, hr2⟩ :=
      hops rhs (List.mem_cons_of_mem _ (List.mem_singleton.mpr rfl))
    obtain ⟨s', heq, h1, h2, h3, h4l, h4r, h5, h6, h7, h8⟩ :=
      op_reg_reg_go_spec Vm.Op.DivRegReg (fun V sem a b => sem.divF a b)
        h hso hval hsafe hbound hout hl1 hr1 hl2 hr2
        (fun o2 a b => rfl) (fun o2 a b => rfl)
        (fun V sem st o2 a b => rfl)
    exact ⟨s', heq, oppost_mk2 _ (fun V sem a b => sem.divF a b) rfl
      (fun V sem val => rfl) h1 h2 h3 h4l h4r h5 h6 h7 h8⟩
  | MinRegReg out lhs rhs =>
    obtain ⟨hl1, hl2⟩ := hops lhs (List.mem_cons_self _ _)
    obtain ⟨hr1, hr2⟩ :=
      hops rhs (List.mem_cons_of_mem _ (List.mem_singleton.mpr rfl))
    obtain ⟨s', heq, h1, h2, h3, h4l, h4r, h5, h6, h7, h8⟩ :=
      op_reg_reg_go_spec Vm.Op.MinRegReg (fun V sem a b => sem.minF a b)
        h hso hval hsafe hbound hout hl1 hr1 hl2 hr2
        (fun o2 a b => rfl) (fun o2 a b => rfl)
        (fun V sem st o2 a b => rfl)
    exact ⟨s', heq, oppost_mk2 _ (fun V sem a b => sem.minF a b) rfl
      (fun V sem val => rfl) h1 h2 h3 h4l h4r h5 h6 h7 h8⟩
  | MaxRegReg out lhs rhs =>
    obtain ⟨hl1, hl2⟩ := hops lhs (List.mem_cons_self _ _)
    obtain ⟨hr1, hr2⟩ :=
      hops rhs (List.mem_cons_of_mem _ (List.mem_singleton.mpr rfl))
    obtain ⟨s', heq, h1, h2, h3, h4l, h4r, h5, h6, h7, h8⟩ :=
      op_reg_reg_go_spec Vm.Op.MaxRegReg (fun V sem a b => sem.maxF a b)
        h hso hval hsafe hbound hout hl1 hr1 hl2 hr2
        (fun o2 a b => rfl) (fun o2 a b => rfl)
        (fun V sem st o2 a b => rfl)
    exact ⟨s', heq, oppost_mk2 _ (fun V sem a b => sem.maxF a b) rfl
      (fun V sem val => rfl) h1 h2 h3 h4l h4r h5 h6 h7 h8⟩

theorem opAt_lt (tape : List Ssa.Op) (i : Nat) (h : i < tape.length) :
    opAt tape i = tape[i] := by
  unfold opAt
  rw [List.getD_eq_getElem?_getD, List.getElem?_eq_getElem h]
  rfl

theorem ssa_foldr_preserve {V : Type} (sem : Sem V) (l : List Ssa.Op)
    (env : Nat → V) (w : Nat) (h : ∀ o ∈ l, Ssa.Op.outIdx o ≠ w) :
    (l.foldr (Ssa.step sem) env) w = env w := by
  induction l with
  | nil => rfl
  | cons o t ih =>
    show (Ssa.step sem o (t.foldr (Ssa.step sem) env)) w = env w
    unfold Ssa.step
    rw [upd_ne _ _ (Ne.symm (h o (List.mem_cons_self _ _)))]
    exact ih (fun o2 ho2 => h o2 (List.mem_cons_of_mem _ ho2))

theorem rhsVal_congr {V : Type} (sem : Sem V) (o : Ssa.Op)
    (env1 env2 : Nat → V) (h : ∀ a ∈ o.operands, env1 a = env2 a) :
    o.rhsVal sem env1 = o.rhsVal sem env2 := by
  cases o <;>
    simp only [Ssa.Op.rhsVal, Ssa.Op.operands] at h ⊢ <;>
    first
      | rfl
      | rw [h _ (List.mem_singleton.mpr rfl)]
      | rw [h _ (List.mem_cons_self _ _),
          h _ (List.mem_cons_of_mem _ (List.mem_singleton.mpr rfl))]

theorem ssa_run_at {V : Type} (sem : Sem V) (tape : List Ssa.Op)
    (env0 : Nat → V) (hwf : WellFormed tape) (j : Nat)
    (hj : j < tape.length) :
    (Ssa.run sem tape env0) (outAt tape j) =
      (opAt tape j).rhsVal sem (Ssa.run sem tape env0) := by
  obtain ⟨hw1, hw2, hw3, hw4, hw5, hw6, hw7, hw8⟩ := hwf
  have houtAt : outAt tape j = (opAt tape j).outIdx := rfl
  have hsplit : tape = tape.take j ++ (opAt tape j :: tape.drop (j + 1)) := by
    rw [opAt_lt tape j hj]
    conv_lhs => rw [← List.take_append_drop j tape]
    rw [List.drop_eq_getElem_cons hj]
  have htaken : ∀ o ∈ tape.take j,
      ∀ i2, j ≤ i2 → i2 < tape.length → Ssa.Op.outIdx o ≠ outAt tape i2 := by
    intro o ho i2 hji2 hi2
    obtain ⟨i, hilt, hie⟩ := List.mem_iff_getElem.mp ho
    have hlt2 : i < j := by
      have hq := hilt
      rw [List.length_take] at hq
      omega
    have hilt3 : i < tape.length := by omega
    have hoat : opAt tape i = o := by
      rw [opAt_lt tape i hilt3, ← hie, List.getElem_take]
    rw [← hoat]
    exact fun he => hw4 i2 hi2 i (by omega) he
  set E1 := (tape.drop (j + 1)).foldr (Ssa.step sem) env0 with hE1
  have hrun : Ssa.run sem tape env0 =
      (tape.take j).foldr (Ssa.step sem)
        (Ssa.step sem (opAt tape j) E1) := by
    unfold Ssa.run
    conv_lhs => rw [hsplit]
    rw [List.foldr_append]
    rfl
  have hout : (Ssa.run sem tape env0) (outAt tape j) =
      (opAt tape j).rhsVal sem E1 := by
    rw [hrun]
    rw [ssa_foldr_preserve sem _ _ _ (by
      intro o ho
      exact htaken o ho j (Nat.le_refl _) hj)]
    unfold Ssa.step
    rw [← houtAt, upd_same]
  rw [hout]
  refine rhsVal_congr sem _ E1 _ ?_
  intro a ha
  obtain ⟨i2, hi2, hji2, hie2⟩ := hw5 j hj a ha
  have hane : a ≠ outAt tape j := by
    rw [← hie2]
    exact fun he => hw4 i2 hi2 j hji2 he.symm
  rw [hrun]
  rw [ssa_foldr_preserve sem _ _ _ (by
    intro o ho
    have hq := htaken o ho i2 (by omega) hi2
    rw [hie2] at hq
    exact hq)]
  unfold Ssa.step
  rw [← houtAt, upd_ne _ _ hane]

theorem new_eq (R size : Nat) (hR : R ≤ 255) :
    RegisterAllocator.new R size = some
      { allocations := upd (fun _ => UMAX) 0 0
        registers := upd (fun _ => UMAX) 0 0
        register_lru := (Lru.new R).poke 0
        reg_limit := R
        spare_registers := []
        spare_memory := []
        out := Vm.Tape.new R } := by
  unfold RegisterAllocator.new
  rw [RegisterAllocator.bind_register_eq (RegisterAllocator.mkBase R size) 0 0
    (by show R ≤ UMAX; rw [RegisterAllocator.UMAX_eq]; omega) rfl]
  rfl

theorem machinv_init (R : Nat) (hval : ValidRegLimit R) :
    MachInv R
      { allocations := upd (fun _ => UMAX) 0 0
        registers := upd (fun _ => UMAX) 0 0
        register_lru := (Lru.new R).poke 0
        reg_limit := R
        spare_registers := []
        spare_memory := []
        out := Vm.Tape.new R } := by
  obtain ⟨hv1, hv2⟩ := hval
  have hRU : R < UMAX := by rw [RegisterAllocator.UMAX_eq]; omega
  refine ⟨rfl, rfl, ?_, ?_, ?_, ?_, ?_, ?_, ?_, ?_, ?_, ?_, ?_, ?_, ?_⟩
  · exact lru_poke_perm (Lru.new R) R 0 (List.Perm.refl _) (by omega)
  · intro n hn
    dsimp only at hn ⊢
    by_cases h0 : n = 0
    · subst h0
      rw [upd_same] at hn ⊢
      rw [upd_same]
    · rw [upd_ne _ _ h0] at hn
      exact absurd hn (by omega)
  · intro r hr
    dsimp only at hr ⊢
    by_cases h0 : r = 0
    · subst h0
      rw [upd_same] at hr ⊢
      rw [upd_same]
    · rw [upd_ne _ _ h0] at hr
      exact absurd rfl hr
  · intro n hn
    dsimp only at hn ⊢
    by_cases h0 : n = 0
    · subst h0
      rw [upd_same]
      exact Nat.one_pos
    · rw [upd_ne _ _ h0] at hn
      exact absurd rfl hn
  · intro n m hn1 hn2
    dsimp only at hn1 hn2
    by_cases h0 : n = 0
    · subst h0
      rw [upd_same] at hn2
      exact absurd hn2 (by omega)
    · rw [upd_ne _ _ h0] at hn1
      exact absurd rfl hn1
  · intro r hr
    exact absurd hr (List.not_mem_nil _)
  · exact List.nodup_nil
  · intro m hm
    exact absurd hm (List.not_mem_nil _)
  · exact List.nodup_nil
  · intro r hr
    dsimp only
    rw [upd_ne _ _ (by omega : r ≠ 0)]
  · intro r hr
    dsimp only [Vm.Tape.new] at hr
    dsimp only
    refine ⟨?_, List.not_mem_nil _⟩
    rw [upd_ne _ _ (by omega : r ≠ 0)]
  · exact Nat.le_refl _
  · dsimp only
    rw [upd_ne _ _ (by omega : UMAX ≠ 0)]

theorem allocRun_spec (R : Nat) (tape : List Ssa.Op) (hwf : WellFormed tape)
    (hval : ValidRegLimit R) :
    ∀ k, k ≤ tape.length →
    ∃ sk, allocRun R tape k = some sk ∧ MachInv R sk ∧ SpareOk R sk ∧
      domEq tape k sk ∧
      sk.out.slot_count ≤ R + 1 + 3 * k ∧
      (∀ vop ∈ sk.out.tape, Vm.Op.slotsOk R sk.out.slot_count vop) ∧
      (∀ (V : Type) (sem : Sem V) (env0 : Nat → V) (st : Nat → V),
        goodState (Ssa.run sem tape env0) sk st →
        (Vm.run sem sk.out.tape st) 0 = (Ssa.run sem tape env0) 0) := by
  obtain ⟨hv1, hv2⟩ := hval
  have hRU : R < UMAX := by rw [RegisterAllocator.UMAX_eq]; omega
  have hwfc := hwf
  obtain ⟨hw1, hw2, hw3, hw4, hw5, hw6, hw7, hw8⟩ := hwfc
  have hnew := new_eq R tape.length hv2
  intro k
  induction k with
  | zero =>
    intro _
    refine ⟨_, ?_, machinv_init R ⟨hv1, hv2⟩, ?_, ?_, ?_, ?_, ?_⟩
    · unfold allocRun
      rw [hnew]
      rfl
    · intro r h1 h2 h3
      dsimp only at h2 h3
      have hr0 : r = 0 := by
        have : r < 1 := h2
        omega
      subst hr0
      rw [upd_same] at h3
      exact absurd h3 (by omega)
    · intro n
      dsimp only
      by_cases h0 : n = 0
      · subst h0
        rw [upd_same]
        constructor
        · intro _
          exact ⟨fun j hj => absurd hj (Nat.not_lt_zero j), Or.inl rfl⟩
        · intro _
          omega
      · rw [upd_ne _ _ h0]
        constructor
        · intro habs
          exact absurd rfl habs
        · intro hlive
          obtain ⟨hnd, hor⟩ := hlive
          rcases hor with he0 | hused
          · exact absurd he0 h0
          · obtain ⟨j2, hj2, _⟩ := hused
            exact absurd hj2 (Nat.not_lt_zero _)
    · dsimp only [Vm.Tape.new]
      omega
    · intro vop hv
      exact absurd hv (List.not_mem_nil _)
    · intro V sem env0 st hst
      have hq := hst 0 (by dsimp only; rw [upd_same]; omega)
      dsimp only at hq
      rw [upd_same] at hq
      exact hq
  | succ k ih =>
    intro hk1
    have hkN : k < tape.length := hk1
    obtain ⟨sk, hrun, hinv, hsk, hdom, hslot, hsl, htr⟩ := ih (by omega)
    have hboundk : sk.allocations (outAt tape k) ≠ UMAX := by
      refine (hdom (outAt tape k)).mpr ⟨fun j hj => hw4 k hkN j hj, ?_⟩
      by_cases hk0 : k = 0
      · subst hk0
        exact Or.inl hw2
      · obtain ⟨j, hj, hmem⟩ := hw6 k hkN (by omega)
        exact Or.inr ⟨j, hj, hmem⟩
    have houtU : outAt tape k ≠ UMAX := by
      have hq := hw3 k hkN
      omega
    have hopsk : ∀ a ∈ (opAt tape k).operands,
        a ≠ (opAt tape k).outIdx ∧ a ≠ UMAX := by
      intro a ha
      obtain ⟨i2, hi2, hki2, hie⟩ := hw5 k hkN a ha
      refine ⟨?_, ?_⟩
      · rw [← hie]
        intro he
        exact hw4 i2 hi2 k hki2 he.symm
      · rw [← hie]
        have hq := hw3 i2 hi2
        omega
    have hsafek : sk.out.slot_count + 2 < UMAX := by omega
    obtain ⟨sk1, hopeq, hpost⟩ := op_spec (opAt tape k) hinv hsk ⟨hv1, hv2⟩
      hsafek hboundk houtU hopsk (hw7 k hkN)
    obtain ⟨p1, p2, p3, p4, p5, p6, p7, e, pe1, pe2, pe3⟩ := hpost
    refine ⟨sk1, ?_, p1, p2, ?_, ?_, ?_, ?_⟩
    · unfold allocRun at hrun ⊢
      rw [hnew] at hrun ⊢
      dsimp only at hrun ⊢
      rw [List.take_succ, List.getElem?_eq_getElem hkN, List.foldlM_append,
        hrun]
      show List.foldlM (fun s o => s.op o) sk [tape[k]] = some sk1
      rw [opAt_lt tape k hkN] at hopeq
      show sk.op tape[k] >>= (fun b => pure b) = some sk1
      rw [hopeq]
      rfl
    · intro n
      by_cases hno : n = (opAt tape k).outIdx
      · rw [hno]
        constructor
        · intro habs
          exact absurd p3 habs
        · intro hlive
          exfalso
          obtain ⟨hnd, _⟩ := hlive
          exact hnd k (Nat.lt_succ_self k) rfl
      · by_cases hmem : n ∈ (opAt tape k).operands
        · constructor
          · intro _
            obtain ⟨i2, hi2, hki2, hie⟩ := hw5 k hkN n hmem
            refine ⟨?_, Or.inr ⟨k, Nat.lt_succ_self k, hmem⟩⟩
            intro j2 hj2 he
            rw [← hie] at he
            exact hw4 i2 hi2 j2 (by omega) he
          · intro _
            exact p4 n hmem
        · have hiff := p5 n hno hmem
          refine hiff.symm.trans ((hdom n).trans ?_)
          constructor
          · intro hl
            obtain ⟨hnd, hor⟩ := hl
            refine ⟨?_, ?_⟩
            · intro j2 hj2 he
              by_cases hjk : j2 = k
              · subst hjk
                exact hno he.symm
              · exact hnd j2 (by omega) he
            · rcases hor with h0 | ⟨j2, hj2, hm2⟩
              · exact Or.inl h0
              · exact Or.inr ⟨j2, by omega, hm2⟩
          · intro hl
            obtain ⟨hnd, hor⟩ := hl
            refine ⟨fun j2 hj2 he => hnd j2 (by omega) he, ?_⟩
            rcases hor with h0 | ⟨j2, hj2, hm2⟩
            · exact Or.inl h0
            · by_cases hjk : j2 = k
              · subst hjk
                exact absurd hm2 hmem
              · exact Or.inr ⟨j2, by omega, hm2⟩
    · omega
    · intro vop hv
      rw [pe1] at hv
      rcases List.mem_append.mp hv with hv0 | hv1
      · exact slotsOk_mono (hsl vop hv0) p6
      · exact pe2 vop hv1
    · intro V sem env0 st hst
      have hvo := ssa_run_at sem tape env0 hwf k hkN
      have htrans := pe3 V sem (Ssa.run sem tape env0) hvo
      rw [pe1, vm_run_append]
      exact htr V sem env0 _ (htrans st hst)

theorem allocTape_spec (R : Nat) (tape : List Ssa.Op) (hwf : WellFormed tape)
    (hval : ValidRegLimit R) :
    ∃ t, allocTape R tape = some t ∧
      (∀ vop ∈ t.tape, Vm.Op.slotsOk R t.slot_count vop) ∧
      ∀ (V : Type) (sem : Sem V) (env0 st : Nat → V),
        (Vm.run sem t.tape st) 0 = (Ssa.run sem tape env0) 0 := by
  obtain ⟨sN, hrun, hinv, hsk, hdom, hslot, hsl, htr⟩ :=
    allocRun_spec R tape hwf hval tape.length (Nat.le_refl _)
  have hempty : ∀ n, sN.allocations n = UMAX := by
    intro n
    by_contra hne
    obtain ⟨hnd, hor⟩ := (hdom n).mp hne
    obtain ⟨hw1, hw2, hw3, hw4, hw5, hw6, hw7, hw8⟩ := hwf
    rcases hor with h0 | ⟨j, hj, hmem⟩
    · subst h0
      exact hnd 0 hw1 hw2
    · obtain ⟨i, hi, hji, hie⟩ := hw5 j hj n hmem
      exact hnd i hi hie
  refine ⟨sN.out, ?_, hsl, ?_⟩
  · unfold allocTape
    rw [hrun]
  · intro V sem env0 st
    exact htr V sem env0 st (fun n hn => absurd (hempty n) hn)

theorem exTape_wf : WellFormed exTape := by
  unfold WellFormed
  decide

theorem vrl_two : ValidRegLimit 2 := by
  unfold ValidRegLimit
  decide

theorem vrl_three : ValidRegLimit 3 := by
  unfold ValidRegLimit
  decide

/-- C1: for every well-formed SSA tape and any two valid register limits,
the allocator succeeds at both limits and, under every interpretation of
the opcodes and every starting machine state, the VM tape produced at
either limit evaluates (at slot 0, the root's register) to the direct SSA
evaluation of the tape — so the result is independent of the register
limit. -/
theorem claim_C1_register_limit_invariance (tape : List Ssa.Op) (R R2 : Nat)
    (hwf : WellFormed tape) (hv1 : ValidRegLimit R)
    (hv2 : ValidRegLimit R2) :
    ∃ t t2, allocTape R tape = some t ∧ allocTape R2 tape = some t2 ∧
      ∀ (V : Type) (sem : Sem V) (env0 st st2 : Nat → V),
        (Vm.run sem t.tape st) 0 = (Ssa.run sem tape env0) 0 ∧
        (Vm.run sem t2.tape st2) 0 = (Ssa.run sem tape env0) 0 ∧
        (Vm.run sem t.tape st) 0 = (Vm.run sem t2.tape st2) 0 := by
  obtain ⟨t, ht, hsl, htr⟩ := allocTape_spec R tape hwf hv1
  obtain ⟨t2, ht2, hsl2, htr2⟩ := allocTape_spec R2 tape hwf hv2
  refine ⟨t, t2, ht, ht2, ?_⟩
  intro V sem env0 st st2
  refine ⟨htr V sem env0 st, htr2 V sem env0 st2, ?_⟩
  rw [htr V sem env0 st, htr2 V sem env0 st2]

theorem claim_C1_witness :
    WellFormed exTape ∧ ValidRegLimit 2 ∧ ValidRegLimit 3 ∧
    (∃ t t2, allocTape 2 exTape = some t ∧ allocTape 3 exTape = some t2 ∧
      ∀ (V : Type) (sem : Sem V) (env0 st st2 : Nat → V),
        (Vm.run sem t.tape st) 0 = (Ssa.run sem exTape env0) 0 ∧
        (Vm.run sem t2.tape st2) 0 = (Ssa.run sem exTape env0) 0 ∧
        (Vm.run sem t.tape st) 0 = (Vm.run sem t2.tape st2) 0) :=
  ⟨exTape_wf, vrl_two, vrl_three,
    claim_C1_register_limit_invariance exTape 2 3 exTape_wf vrl_two
      vrl_three⟩

/-- C2: on a well-formed SSA tape, lowering every instruction through
`RegisterAllocator.op` succeeds — no assert fires and no panic branch
(`Bad opcode`, `Cannot have unassigned output`, the `try_into` on input
slots) is reached, which the `Option`-valued model expresses as the whole
run returning `some`. -/
theorem claim_C2_allocator_never_fails (tape : List Ssa.Op) (R : Nat)
    (hwf : WellFormed tape) (hval : ValidRegLimit R) :
    (allocRun R tape tape.length).isSome = true ∧
    (allocTape R tape).isSome = true := by
  obtain ⟨sN, hrun, _⟩ := allocRun_spec R tape hwf hval tape.length
    (Nat.le_refl _)
  constructor
  · rw [hrun]
    rfl
  · unfold allocTape
    rw [hrun]
    rfl

theorem claim_C2_witness :
    WellFormed exTape ∧ ValidRegLimit 2 ∧
    ((allocRun 2 exTape exTape.length).isSome = true ∧
      (allocTape 2 exTape).isSome = true) :=
  ⟨exTape_wf, vrl_two,
    claim_C2_allocator_never_fails exTape 2 exTape_wf vrl_two⟩

/-- C5: right after the allocator lowers the instruction at position `k`
(the run over the first `k + 1` instructions), that instruction's output
SSA index is no longer bound: its entry in `allocations` is back to the
`u32::MAX` fill and `get_allocation` classifies it as `Unassigned`. -/
theorem claim_C5_output_released (tape : List Ssa.Op) (R : Nat) (k : Nat)
    (hwf : WellFormed tape) (hval : ValidRegLimit R)
    (hk : k < tape.length) :
    ∃ sk, allocRun R tape (k + 1) = some sk ∧
      sk.allocations (outAt tape k) = UMAX ∧
      (sk.get_allocation (outAt tape k)).1 = Allocation.Unassigned := by
  obtain ⟨sk, hrun, hinv, hsk, hdom, hslot, hsl, htr⟩ :=
    allocRun_spec R tape hwf hval (k + 1) hk
  have hrel : sk.allocations (outAt tape k) = UMAX := by
    by_contra hne
    obtain ⟨hnd, _⟩ := (hdom (outAt tape k)).mp hne
    exact hnd k (Nat.lt_succ_self k) rfl
  have hnotreg : ¬ sk.allocations (outAt tape k) < sk.reg_limit := by
    rw [hrel, hinv.reg_limit_eq]
    have hv2 := hval.2
    rw [RegisterAllocator.UMAX_eq]
    omega
  refine ⟨sk, hrun, hrel, ?_⟩
  rw [RegisterAllocator.get_allocation_eq_unassigned sk _ hnotreg hrel]

theorem claim_C5_witness :
    WellFormed exTape ∧ ValidRegLimit 2 ∧ 0 < exTape.length ∧
    (∃ sk, allocRun 2 exTape (0 + 1) = some sk ∧
      sk.allocations (outAt exTape 0) = UMAX ∧
      (sk.get_allocation (outAt exTape 0)).1 = Allocation.Unassigned) :=
  ⟨exTape_wf, vrl_two, by decide,
    claim_C5_output_released exTape 2 0 exTape_wf vrl_two (by decide)⟩

/-- C6: registers and memory slots stay disjoint throughout allocation —
in the finished VM tape every register named by an instruction is below
the register limit `R` and every memory slot of a `Load`/`Store` lies in
`[R, slot_count)`, and at every step of the run `get_allocation` hands out
`Register i` only with `i < R` and `Memory i` only with
`R ≤ i < slot_count`. -/
theorem claim_C6_register_memory_disjoint (tape : List Ssa.Op) (R : Nat)
    (hwf : WellFormed tape) (hval : ValidRegLimit R) :
    (∃ t, allocTape R tape = some t ∧
      ∀ vop ∈ t.tape, (∀ r ∈ vop.regs, r < R) ∧
        ∀ m ∈ vop.mems, R ≤ m ∧ m < t.slot_count) ∧
    (∀ k, k ≤ tape.length → ∃ sk, allocRun R tape k = some sk ∧
      (∀ n i, (sk.get_allocation n).1 = Allocation.Register i → i < R) ∧
      (∀ n i, (sk.get_allocation n).1 = Allocation.Memory i →
        R ≤ i ∧ i < sk.out.slot_count)) := by
  constructor
  · obtain ⟨t, ht, hsl, htr⟩ := allocTape_spec R tape hwf hval
    exact ⟨t, ht, hsl⟩
  · intro k hk
    obtain ⟨sk, hrun, hinv, hsk, hdom, hslot, hsl, htr⟩ :=
      allocRun_spec R tape hwf hval k hk
    refine ⟨sk, hrun, ?_, ?_⟩
    · intro n i he
      by_cases h1 : sk.allocations n < sk.reg_limit
      · rw [RegisterAllocator.get_allocation_eq_register sk n h1] at he
        injection he with hh
        rw [← hh, ← hinv.reg_limit_eq]
        exact h1
      · by_cases h2 : sk.allocations n = UMAX
        · rw [RegisterAllocator.get_allocation_eq_unassigned sk n h1 h2]
            at he
          exact Allocation.noConfusion he
        · rw [RegisterAllocator.get_allocation_eq_memory sk n h1 h2] at he
          exact Allocation.noConfusion he
    · intro n i he
      by_cases h1 : sk.allocations n < sk.reg_limit
      · rw [RegisterAllocator.get_allocation_eq_register sk n h1] at he
        exact Allocation.noConfusion he
      · by_cases h2 : sk.allocations n = UMAX
        · rw [RegisterAllocator.get_allocation_eq_unassigned sk n h1 h2]
            at he
          exact Allocation.noConfusion he
        · rw [RegisterAllocator.get_allocation_eq_memory sk n h1 h2] at he
          injection he with hh
          rw [hinv.reg_limit_eq] at h1
          refine ⟨by omega, ?_⟩
          rw [← hh]
          exact hinv.alloc_lt n h2

theorem claim_C6_witness :
    WellFormed exTape ∧ ValidRegLimit 2 ∧
    ((∃ t, allocTape 2 exTape = some t ∧
      ∀ vop ∈ t.tape, (∀ r ∈ vop.regs, r < 2) ∧
        ∀ m ∈ vop.mems, 2 ≤ m ∧ m < t.slot_count) ∧
    (∀ k, k ≤ exTape.length → ∃ sk, allocRun 2 exTape k = some sk ∧
      (∀ n i, (sk.get_allocation n).1 = Allocation.Register i → i < 2) ∧
      (∀ n i, (sk.get_allocation n).1 = Allocation.Memory i →
        2 ≤ i ∧ i < sk.out.slot_count))) :=
  ⟨exTape_wf, vrl_two,
    claim_C6_register_memory_disjoint exTape 2 exTape_wf vrl_two⟩
